import Mathlib

/-! # mantyr/certs: a verification development

A shallow embedding of the `issuance` package (rate limiter, storage layout,
certificate assets, loading a user, the `ObtainCerts` orchestrator) and of
`standardDelimiter` of the `issue` command, followed by theorems about the
embedded definitions.

Conventions of the embedding.

* Go strings are Lean `String`s (sequences of Unicode scalar values; a Go
  string that is not valid UTF-8 has no counterpart); Go byte slices are
  `List UInt8`.
* `time.Duration` is an `Int` counting nanoseconds; Go's `int` is an `Int`
  wrapped to 64 bits by `wrapInt`.
* Library functions the package calls (`strings`, `path/filepath`, `os`,
  `encoding/json`) are modelled next to the code that uses them:
  `strings.ToLower` through the table of lower cases, `filepath.Clean` element
  by element, the file system as a map from cleaned paths to nodes.
* Stateful code passes the state explicitly.  What the program does (its calls
  to the ACME client, to the rate limiter and to the storage functions, and the
  lines it logs) is appended, in program order, to a trace of `Event`s.
* Collaborators outside the repository (the ACME client, other processes using
  the workspace while the program sleeps) are described by an `Env` of answers;
  theorems quantify over every `Env`.
* The label `Obtain` and the `goto`s of `ObtainCerts` become a control state
  `Ctl` and a function `step` for one pass from label to label; `run` iterates
  `step`, since a CA that keeps throttling keeps the loop going for ever.
-/

namespace Certs

/-! ## Time -/

/-- Go's `time.Duration`: a count of nanoseconds. -/
abbrev Duration := Int

def Second : Duration := 1000000000
def Minute : Duration := 60 * Second
def Hour : Duration := 60 * Minute

/-- Two's complement wrap-around of Go's 64-bit `int`. -/
def wrapInt (x : Int) : Int := (x + 2 ^ 63) % 2 ^ 64 - 2 ^ 63

/-! ## Log lines -/

/-- The lines the package writes with `log.Println` and `log.Printf`, kept
structured (the arguments of the format string) instead of rendered. -/
inductive LogLine where
  /-- `[ERROR] Unexpected interval:` in `BackOff`. -/
  | unexpectedInterval (interval : Duration)
  /-- `[INFO] Skipping a bundle with no domains specified`. -/
  | skipEmpty
  /-- `[INFO] Existing certificate and key for %s. Skipping bundle: %v`. -/
  | existing (domain : String) (domains : List String)
  /-- `[WARNING][%s] Rate limited: %v - backing off and retrying in %v`. -/
  | rateLimited (domain : String) (err : String) (interval : Duration)
  /-- `Retrying certificate for %v`. -/
  | retrying (domains : List String)
  /-- `[WARNING][%s] Updated legal terms: %v`. -/
  | updatedTerms (domain : String) (err : String)
deriving DecidableEq, Repr

/-! ## ratelimit.go -/

/-- The `rateLimiter` struct: how long to wait, and how many times we have
waited at this interval. -/
structure rateLimiter where
  interval : Duration
  count : Int
deriving DecidableEq, Repr

/-- `BackOff` tells the rate limiter to throttle another step.  Returns the new
state and the lines written to the log. -/
def rateLimiter.BackOff (rl : rateLimiter) : rateLimiter × List LogLine :=
  if rl.interval = 0 then
    ({ count := 1, interval := 10 * Second }, [])
  else if rl.interval = 10 * Second then
    let count := wrapInt (rl.count + 1)
    if count > 3 then ({ count := 1, interval := 30 * Second }, [])
    else ({ rl with count := count }, [])
  else if rl.interval = 30 * Second then
    let count := wrapInt (rl.count + 1)
    if count > 2 then ({ count := 1, interval := 1 * Minute }, [])
    else ({ rl with count := count }, [])
  else if rl.interval = 1 * Minute then
    let count := wrapInt (rl.count + 1)
    if count > 5 then ({ count := 1, interval := 5 * Minute }, [])
    else ({ rl with count := count }, [])
  else if rl.interval = 5 * Minute then
    let count := wrapInt (rl.count + 1)
    if count > 2 then ({ count := 1, interval := 10 * Minute }, [])
    else ({ rl with count := count }, [])
  else if rl.interval = 10 * Minute then
    let count := wrapInt (rl.count + 1)
    if count > 3 then ({ count := 1, interval := 30 * Minute }, [])
    else ({ rl with count := count }, [])
  else if rl.interval = 30 * Minute then
    let count := wrapInt (rl.count + 1)
    if count > 2 then ({ count := 1, interval := 1 * Hour }, [])
    else ({ rl with count := count }, [])
  else if rl.interval = 1 * Hour then
    ({ rl with count := wrapInt (rl.count + 1) }, [])
  else
    (rl, [LogLine.unexpectedInterval rl.interval])

/-- `Resume` resets the interval back to 0. -/
def rateLimiter.Resume (rl : rateLimiter) : rateLimiter :=
  { rl with interval := 0 }

/-- The state of a `rateLimiter{}` literal. -/
def rateLimiter.zero : rateLimiter := { interval := 0, count := 0 }

/-- The state after `k` consecutive `BackOff` calls. -/
def rateLimiter.backOffs : Nat → rateLimiter → rateLimiter
  | 0, rl => rl
  | k + 1, rl => (rateLimiter.backOffs k rl).BackOff.1

/-! ## Strings (package `strings`) -/

/-- One run of the table `unicode.CaseRanges`, read for the lower case: the code
points `lo`, `lo + stride`, ..., up to `hi`, have the lower case `lower`,
`lower + stride`, ... -/
structure CaseRange where
  lo : Nat
  hi : Nat
  stride : Nat
  lower : Nat
deriving DecidableEq, Repr

/-- The run holds the code point. -/
def CaseRange.covers (r : CaseRange) (n : Nat) : Bool :=
  decide (r.lo ≤ n) && decide (n ≤ r.hi) && decide ((n - r.lo) % r.stride = 0)

/-- The code points above ASCII whose lower case is another code point: the
simple case mapping of the Unicode character database (version 14.0.0), which
is what `unicode.CaseRanges` holds. -/
def caseRanges : List CaseRange :=
  [CaseRange.mk 0x00C0  0x00D6  1  0x00E0,
   CaseRange.mk 0x00D8  0x00DE  1  0x00F8,
   CaseRange.mk 0x0100  0x012E  2  0x0101,
   CaseRange.mk 0x0130  0x0130  1  0x0069,
   CaseRange.mk 0x0132  0x0136  2  0x0133,
   CaseRange.mk 0x0139  0x0147  2  0x013A,
   CaseRange.mk 0x014A  0x0176  2  0x014B,
   CaseRange.mk 0x0178  0x0178  1  0x00FF,
   CaseRange.mk 0x0179  0x017D  2  0x017A,
   CaseRange.mk 0x0181  0x0181  1  0x0253,
   CaseRange.mk 0x0182  0x0184  2  0x0183,
   CaseRange.mk 0x0186  0x0186  1  0x0254,
   CaseRange.mk 0x0187  0x0187  1  0x0188,
   CaseRange.mk 0x0189  0x018A  1  0x0256,
   CaseRange.mk 0x018B  0x018B  1  0x018C,
   CaseRange.mk 0x018E  0x018E  1  0x01DD,
   CaseRange.mk 0x018F  0x018F  1  0x0259,
   CaseRange.mk 0x0190  0x0190  1  0x025B,
   CaseRange.mk 0x0191  0x0191  1  0x0192,
   CaseRange.mk 0x0193  0x0193  1  0x0260,
   CaseRange.mk 0x0194  0x0194  1  0x0263,
   CaseRange.mk 0x0196  0x0196  1  0x0269,
   CaseRange.mk 0x0197  0x0197  1  0x0268,
   CaseRange.mk 0x0198  0x0198  1  0x0199,
   CaseRange.mk 0x019C  0x019C  1  0x026F,
   CaseRange.mk 0x019D  0x019D  1  0x0272,
   CaseRange.mk 0x019F  0x019F  1  0x0275,
   CaseRange.mk 0x01A0  0x01A4  2  0x01A1,
   CaseRange.mk 0x01A6  0x01A6  1  0x0280,
   CaseRange.mk 0x01A7  0x01A7  1  0x01A8,
   CaseRange.mk 0x01A9  0x01A9  1  0x0283,
   CaseRange.mk 0x01AC  0x01AC  1  0x01AD,
   CaseRange.mk 0x01AE  0x01AE  1  0x0288,
   CaseRange.mk 0x01AF  0x01AF  1  0x01B0,
   CaseRange.mk 0x01B1  0x01B2  1  0x028A,
   CaseRange.mk 0x01B3  0x01B5  2  0x01B4,
   CaseRange.mk 0x01B7  0x01B7  1  0x0292,
   CaseRange.mk 0x01B8  0x01B8  1  0x01B9,
   CaseRange.mk 0x01BC  0x01BC  1  0x01BD,
   CaseRange.mk 0x01C4  0x01C4  1  0x01C6,
   CaseRange.mk 0x01C5  0x01C5  1  0x01C6,
   CaseRange.mk 0x01C7  0x01C7  1  0x01C9,
   CaseRange.mk 0x01C8  0x01C8  1  0x01C9,
   CaseRange.mk 0x01CA  0x01CA  1  0x01CC,
   CaseRange.mk 0x01CB  0x01DB  2  0x01CC,
   CaseRange.mk 0x01DE  0x01EE  2  0x01DF,
   CaseRange.mk 0x01F1  0x01F1  1  0x01F3,
   CaseRange.mk 0x01F2  0x01F4  2  0x01F3,
   CaseRange.mk 0x01F6  0x01F6  1  0x0195,
   CaseRange.mk 0x01F7  0x01F7  1  0x01BF,
   CaseRange.mk 0x01F8  0x021E  2  0x01F9,
   CaseRange.mk 0x0220  0x0220  1  0x019E,
   CaseRange.mk 0x0222  0x0232  2  0x0223,
   CaseRange.mk 0x023A  0x023A  1  0x2C65,
   CaseRange.mk 0x023B  0x023B  1  0x023C,
   CaseRange.mk 0x023D  0x023D  1  0x019A,
   CaseRange.mk 0x023E  0x023E  1  0x2C66,
   CaseRange.mk 0x0241  0x0241  1  0x0242,
   CaseRange.mk 0x0243  0x0243  1  0x0180,
   CaseRange.mk 0x0244  0x0244  1  0x0289,
   CaseRange.mk 0x0245  0x0245  1  0x028C,
   CaseRange.mk 0x0246  0x024E  2  0x0247,
   CaseRange.mk 0x0370  0x0372  2  0x0371,
   CaseRange.mk 0x0376  0x0376  1  0x0377,
   CaseRange.mk 0x037F  0x037F  1  0x03F3,
   CaseRange.mk 0x0386  0x0386  1  0x03AC,
   CaseRange.mk 0x0388  0x038A  1  0x03AD,
   CaseRange.mk 0x038C  0x038C  1  0x03CC,
   CaseRange.mk 0x038E  0x038F  1  0x03CD,
   CaseRange.mk 0x0391  0x03A1  1  0x03B1,
   CaseRange.mk 0x03A3  0x03AB  1  0x03C3,
   CaseRange.mk 0x03CF  0x03CF  1  0x03D7,
   CaseRange.mk 0x03D8  0x03EE  2  0x03D9,
   CaseRange.mk 0x03F4  0x03F4  1  0x03B8,
   CaseRange.mk 0x03F7  0x03F7  1  0x03F8,
   CaseRange.mk 0x03F9  0x03F9  1  0x03F2,
   CaseRange.mk 0x03FA  0x03FA  1  0x03FB,
   CaseRange.mk 0x03FD  0x03FF  1  0x037B,
   CaseRange.mk 0x0400  0x040F  1  0x0450,
   CaseRange.mk 0x0410  0x042F  1  0x0430,
   CaseRange.mk 0x0460  0x0480  2  0x0461,
   CaseRange.mk 0x048A  0x04BE  2  0x048B,
   CaseRange.mk 0x04C0  0x04C0  1  0x04CF,
   CaseRange.mk 0x04C1  0x04CD  2  0x04C2,
   CaseRange.mk 0x04D0  0x052E  2  0x04D1,
   CaseRange.mk 0x0531  0x0556  1  0x0561,
   CaseRange.mk 0x10A0  0x10C5  1  0x2D00,
   CaseRange.mk 0x10C7  0x10C7  1  0x2D27,
   CaseRange.mk 0x10CD  0x10CD  1  0x2D2D,
   CaseRange.mk 0x13A0  0x13EF  1  0xAB70,
   CaseRange.mk 0x13F0  0x13F5  1  0x13F8,
   CaseRange.mk 0x1C90  0x1CBA  1  0x10D0,
   CaseRange.mk 0x1CBD  0x1CBF  1  0x10FD,
   CaseRange.mk 0x1E00  0x1E94  2  0x1E01,
   CaseRange.mk 0x1E9E  0x1E9E  1  0x00DF,
   CaseRange.mk 0x1EA0  0x1EFE  2  0x1EA1,
   CaseRange.mk 0x1F08  0x1F0F  1  0x1F00,
   CaseRange.mk 0x1F18  0x1F1D  1  0x1F10,
   CaseRange.mk 0x1F28  0x1F2F  1  0x1F20,
   CaseRange.mk 0x1F38  0x1F3F  1  0x1F30,
   CaseRange.mk 0x1F48  0x1F4D  1  0x1F40,
   CaseRange.mk 0x1F59  0x1F5F  2  0x1F51,
   CaseRange.mk 0x1F68  0x1F6F  1  0x1F60,
   CaseRange.mk 0x1F88  0x1F8F  1  0x1F80,
   CaseRange.mk 0x1F98  0x1F9F  1  0x1F90,
   CaseRange.mk 0x1FA8  0x1FAF  1  0x1FA0,
   CaseRange.mk 0x1FB8  0x1FB9  1  0x1FB0,
   CaseRange.mk 0x1FBA  0x1FBB  1  0x1F70,
   CaseRange.mk 0x1FBC  0x1FBC  1  0x1FB3,
   CaseRange.mk 0x1FC8  0x1FCB  1  0x1F72,
   CaseRange.mk 0x1FCC  0x1FCC  1  0x1FC3,
   CaseRange.mk 0x1FD8  0x1FD9  1  0x1FD0,
   CaseRange.mk 0x1FDA  0x1FDB  1  0x1F76,
   CaseRange.mk 0x1FE8  0x1FE9  1  0x1FE0,
   CaseRange.mk 0x1FEA  0x1FEB  1  0x1F7A,
   CaseRange.mk 0x1FEC  0x1FEC  1  0x1FE5,
   CaseRange.mk 0x1FF8  0x1FF9  1  0x1F78,
   CaseRange.mk 0x1FFA  0x1FFB  1  0x1F7C,
   CaseRange.mk 0x1FFC  0x1FFC  1  0x1FF3,
   CaseRange.mk 0x2126  0x2126  1  0x03C9,
   CaseRange.mk 0x212A  0x212A  1  0x006B,
   CaseRange.mk 0x212B  0x212B  1  0x00E5,
   CaseRange.mk 0x2132  0x2132  1  0x214E,
   CaseRange.mk 0x2160  0x216F  1  0x2170,
   CaseRange.mk 0x2183  0x2183  1  0x2184,
   CaseRange.mk 0x24B6  0x24CF  1  0x24D0,
   CaseRange.mk 0x2C00  0x2C2F  1  0x2C30,
   CaseRange.mk 0x2C60  0x2C60  1  0x2C61,
   CaseRange.mk 0x2C62  0x2C62  1  0x026B,
   CaseRange.mk 0x2C63  0x2C63  1  0x1D7D,
   CaseRange.mk 0x2C64  0x2C64  1  0x027D,
   CaseRange.mk 0x2C67  0x2C6B  2  0x2C68,
   CaseRange.mk 0x2C6D  0x2C6D  1  0x0251,
   CaseRange.mk 0x2C6E  0x2C6E  1  0x0271,
   CaseRange.mk 0x2C6F  0x2C6F  1  0x0250,
   CaseRange.mk 0x2C70  0x2C70  1  0x0252,
   CaseRange.mk 0x2C72  0x2C72  1  0x2C73,
   CaseRange.mk 0x2C75  0x2C75  1  0x2C76,
   CaseRange.mk 0x2C7E  0x2C7F  1  0x023F,
   CaseRange.mk 0x2C80  0x2CE2  2  0x2C81,
   CaseRange.mk 0x2CEB  0x2CED  2  0x2CEC,
   CaseRange.mk 0x2CF2  0x2CF2  1  0x2CF3,
   CaseRange.mk 0xA640  0xA66C  2  0xA641,
   CaseRange.mk 0xA680  0xA69A  2  0xA681,
   CaseRange.mk 0xA722  0xA72E  2  0xA723,
   CaseRange.mk 0xA732  0xA76E  2  0xA733,
   CaseRange.mk 0xA779  0xA77B  2  0xA77A,
   CaseRange.mk 0xA77D  0xA77D  1  0x1D79,
   CaseRange.mk 0xA77E  0xA786  2  0xA77F,
   CaseRange.mk 0xA78B  0xA78B  1  0xA78C,
   CaseRange.mk 0xA78D  0xA78D  1  0x0265,
   CaseRange.mk 0xA790  0xA792  2  0xA791,
   CaseRange.mk 0xA796  0xA7A8  2  0xA797,
   CaseRange.mk 0xA7AA  0xA7AA  1  0x0266,
   CaseRange.mk 0xA7AB  0xA7AB  1  0x025C,
   CaseRange.mk 0xA7AC  0xA7AC  1  0x0261,
   CaseRange.mk 0xA7AD  0xA7AD  1  0x026C,
   CaseRange.mk 0xA7AE  0xA7AE  1  0x026A,
   CaseRange.mk 0xA7B0  0xA7B0  1  0x029E,
   CaseRange.mk 0xA7B1  0xA7B1  1  0x0287,
   CaseRange.mk 0xA7B2  0xA7B2  1  0x029D,
   CaseRange.mk 0xA7B3  0xA7B3  1  0xAB53,
   CaseRange.mk 0xA7B4  0xA7C2  2  0xA7B5,
   CaseRange.mk 0xA7C4  0xA7C4  1  0xA794,
   CaseRange.mk 0xA7C5  0xA7C5  1  0x0282,
   CaseRange.mk 0xA7C6  0xA7C6  1  0x1D8E,
   CaseRange.mk 0xA7C7  0xA7C9  2  0xA7C8,
   CaseRange.mk 0xA7D0  0xA7D0  1  0xA7D1,
   CaseRange.mk 0xA7D6  0xA7D8  2  0xA7D7,
   CaseRange.mk 0xA7F5  0xA7F5  1  0xA7F6,
   CaseRange.mk 0xFF21  0xFF3A  1  0xFF41,
   CaseRange.mk 0x10400  0x10427  1  0x10428,
   CaseRange.mk 0x104B0  0x104D3  1  0x104D8,
   CaseRange.mk 0x10570  0x1057A  1  0x10597,
   CaseRange.mk 0x1057C  0x1058A  1  0x105A3,
   CaseRange.mk 0x1058C  0x10592  1  0x105B3,
   CaseRange.mk 0x10594  0x10595  1  0x105BB,
   CaseRange.mk 0x10C80  0x10CB2  1  0x10CC0,
   CaseRange.mk 0x118A0  0x118BF  1  0x118C0,
   CaseRange.mk 0x16E40  0x16E5F  1  0x16E60,
   CaseRange.mk 0x1E900  0x1E921  1  0x1E922]

/-- `unicode.ToLower`: the ASCII letters directly, the other code points through
the table. -/
def toLowerRune (c : Char) : Char :=
  if c.toNat ≤ 127 then c.toLower
  else
    match caseRanges.find? (fun r => r.covers c.toNat) with
    | some r => Char.ofNat (r.lower + (c.toNat - r.lo))
    | none => c

/-- `strings.ToLower`: every character mapped to its lower case. -/
def ToLower (s : String) : String := ⟨s.data.map toLowerRune⟩

/-- `strings.Contains`. -/
def Contains (s substr : String) : Bool := decide (substr.data <:+: s.data)

/-- `strings.Index` for a one-character separator: the position of its first
occurrence, or `-1`.  (The separator used by this package is the ASCII `@`, so
positions in characters and slices at them agree with Go's byte positions.) -/
def Index (s : String) (sep : Char) : Int :=
  if sep ∈ s.data then (s.data.indexOf sep : Int) else -1

/-- `strings.Join`. -/
def stringsJoin (elems : List String) (sep : String) : String :=
  ⟨List.intercalate sep.data (elems.map String.data)⟩

/-! ## Paths (package `path/filepath`, Unix) -/

/-- The elements of a path between its separators. -/
def splitSlash : List Char → List (List Char)
  | [] => [[]]
  | c :: cs =>
    if c = '/' then [] :: splitSlash cs
    else
      match splitSlash cs with
      | [] => [[c]]
      | e :: es => (c :: e) :: es

/-- The element loop of `filepath.Clean`: `out` holds the elements written so
far, last one first.  Empty and `.` elements are dropped; a `..` element removes
the last written element when there is one to backtrack over, is dropped at the
root, and is written otherwise. -/
def cleanElems (rooted : Bool) : List (List Char) → List (List Char) → List (List Char)
  | out, [] => out
  | out, e :: es =>
    if e = [] ∨ e = ['.'] then cleanElems rooted out es
    else if e = ['.', '.'] then
      match out with
      | top :: below =>
        if top = ['.', '.'] then
          (if rooted then cleanElems rooted out es else cleanElems rooted (e :: out) es)
        else cleanElems rooted below es
      | [] => if rooted then cleanElems rooted [] es else cleanElems rooted [e] es
    else cleanElems rooted (e :: out) es

/-- `filepath.Clean`. -/
def Clean (path : String) : String :=
  if path = "" then "."
  else
    let rooted := path.data.head? = some '/'
    let body := List.intercalate ['/'] (cleanElems rooted [] (splitSlash path.data)).reverse
    if rooted then ⟨'/' :: body⟩
    else if body = [] then "."
    else ⟨body⟩

/-- `filepath.Join`: the elements from the first non-empty one on, joined by
the separator and cleaned; the empty string when every element is empty. -/
def Join : List String → String
  | [] => ""
  | e :: es => if e ≠ "" then Clean (stringsJoin (e :: es) "/") else Join es

/-- `filepath.Dir`: all but the last element of the path, cleaned. -/
def Dir (path : String) : String :=
  Clean ⟨(path.data.reverse.dropWhile (fun c => c ≠ '/')).reverse⟩

/-! ## storage.go -/

/-- `Storage` is a root directory and facilitates forming file paths derived
from it. -/
abbrev Storage := String

/-- `DefaultWorkspace`. -/
def DefaultWorkspace : Storage := "./certs_data"

/-- The name of the folder for accounts where the email address was not
provided. -/
def emptyEmail : String := "default"

/-- `Sites` gets the directory that stores site certificate and keys. -/
def Storage.Sites (s : Storage) : String := Join [s, "sites"]

/-- `Site` returns the path to the folder containing assets for domain. -/
def Storage.Site (s : Storage) (domain : String) : String :=
  Join [Storage.Sites s, ToLower domain]

/-- `SiteCertFile` returns the path to the certificate file for domain. -/
def Storage.SiteCertFile (s : Storage) (domain : String) : String :=
  Join [Storage.Site s domain, ToLower domain ++ ".crt"]

/-- `SiteKeyFile` returns the path to domain's private key file. -/
def Storage.SiteKeyFile (s : Storage) (domain : String) : String :=
  Join [Storage.Site s domain, ToLower domain ++ ".key"]

/-- `SiteMetaFile` returns the path to the domain's asset metadata file. -/
def Storage.SiteMetaFile (s : Storage) (domain : String) : String :=
  Join [Storage.Site s domain, ToLower domain ++ ".json"]

/-- `Users` gets the directory that stores account folders. -/
def Storage.Users (s : Storage) : String := Join [s, "users"]

/-- `User` gets the account folder for the user with email. -/
def Storage.User (s : Storage) (email : String) : String :=
  let email := if email = "" then emptyEmail else email
  Join [Storage.Users s, ToLower email]

/-- `emailUsername` returns the username portion of an email address (part
before `@`) or the original input if it can not find the `@` symbol. -/
def emailUsername (email : String) : String :=
  let at_ := Index email '@'
  if at_ = -1 then email
  else if at_ = 0 then ⟨email.data.drop 1⟩
  else ⟨email.data.take at_.toNat⟩

/-- `UserRegFile` gets the path to the registration file for the user with the
given email address. -/
def Storage.UserRegFile (s : Storage) (email : String) : String :=
  let email := if email = "" then emptyEmail else email
  let fileName := emailUsername email
  let fileName := if fileName = "" then "registration" else fileName
  Join [Storage.User s email, ToLower fileName ++ ".json"]

/-- `UserKeyFile` gets the path to the private key file for the user with the
given email address. -/
def Storage.UserKeyFile (s : Storage) (email : String) : String :=
  let email := if email = "" then emptyEmail else email
  let fileName := emailUsername email
  let fileName := if fileName = "" then "private" else fileName
  Join [Storage.User s email, ToLower fileName ++ ".key"]

/-! ## Errors -/

/-- The error numbers the file system model reports. -/
inductive Errno where
  | ENOENT | EEXIST | ENOTDIR | EISDIR | EACCES | ENOSPC
deriving DecidableEq, Repr

/-- Go's `*os.PathError`. -/
structure PathError where
  Op : String
  Path : String
  Err : Errno
deriving DecidableEq, Repr

def Errno.Error : Errno → String
  | .ENOENT => "no such file or directory"
  | .EEXIST => "file exists"
  | .ENOTDIR => "not a directory"
  | .EISDIR => "is a directory"
  | .EACCES => "permission denied"
  | .ENOSPC => "no space left on device"

def PathError.Error (e : PathError) : String :=
  e.Op ++ " " ++ e.Path ++ ": " ++ e.Err.Error

/-- An `error` value handed back by the ACME client: its message, and whether
its dynamic type is `acme.TOSError`. -/
structure Failure where
  msg : String
  isTOS : Bool
deriving DecidableEq, Repr

/-- The `error` values this package returns. -/
inductive Error where
  /-- `fmt.Errorf` with the rendered message. -/
  | errorf (msg : String)
  /-- An error of the operating system, returned as it is. -/
  | path (e : PathError)
  /-- `ObtainError`: failures keyed by domain name, in the order in which a
  `range` over the map visits them. -/
  | ObtainError (failures : List (String × Failure))
  /-- A run-time panic: the program crashes instead of returning. -/
  | panic (msg : String)
deriving DecidableEq, Repr

/-- `ObtainError.Error` returns a formatted, descriptive error message of
failures in `e`. -/
def ObtainErrorMessage : List (String × Failure) → String
  | [] => ""
  | (domain, err) :: more =>
    "[" ++ domain ++ "] failed to get certificate: " ++ err.msg ++ "\n" ++ ObtainErrorMessage more

set_option linter.dupNamespace false in
/-- The `Error()` method of an `error` value. -/
def Error.Error : Error → String
  | .errorf msg => msg
  | .path e => e.Error
  | .ObtainError failures => ObtainErrorMessage failures
  | .panic msg => msg

/-- The verb `%v` applied to a slice of strings. -/
def formatStrings (xs : List String) : String := "[" ++ stringsJoin xs " " ++ "]"

/-! ## The file system (package `os`, `io/ioutil`) -/

abbrev Bytes := List UInt8

/-- The bytes of a Go string: its UTF-8 encoding. -/
def stringBytes (s : String) : Bytes := s.data.flatMap String.utf8EncodeChar

/-- Permission bits as passed to the operating system. -/
abbrev FileMode := Nat

/-- What a path names. -/
inductive Node where
  | file (data : Bytes) (perm : FileMode)
  | dir (perm : FileMode)
deriving DecidableEq, Repr

/-- The file system: the node at each (cleaned) path; the paths at which the
operating system refuses to make a directory or to open a file for writing
(read-only mounts, permissions); and the room the device has left for the
content of a file at a path, in bytes (`none` when there is room enough).
Reads and `Stat` are decided by `node` alone. -/
structure FS where
  node : String → Option Node
  denied : String → Bool
  room : String → Option Nat

/-- A file system with nothing in it. -/
def FS.empty : FS :=
  { node := fun _ => none, denied := fun _ => false, room := fun _ => none }

/-- The directories that exist without having been made: the working
directory, the root, and chains of `..` above the working directory. -/
def implicitDir (path : String) : Bool :=
  path = "." ∨ path = "/" ∨ (splitSlash path.data).all (fun e => e = ['.', '.'])

/-- The node a path resolves to. -/
def FS.lookup (fs : FS) (path : String) : Option Node :=
  if implicitDir path then some (Node.dir 0o755) else fs.node path

/-- The file system with `path` naming `n`. -/
def FS.set (fs : FS) (path : String) (n : Node) : FS :=
  { fs with node := fun q => if q = path then some n else fs.node q }

/-- `os.Stat`. -/
def FS.Stat (fs : FS) (name : String) : Except PathError Node :=
  match fs.lookup name with
  | some n => .ok n
  | none => .error ⟨"stat", name, .ENOENT⟩

/-- `os.Mkdir`. -/
def FS.Mkdir (fs : FS) (name : String) (perm : FileMode) : Except PathError FS :=
  match fs.lookup name with
  | some _ => .error ⟨"mkdir", name, .EEXIST⟩
  | none =>
    match fs.lookup (Dir name) with
    | none => .error ⟨"mkdir", name, .ENOENT⟩
    | some (.file _ _) => .error ⟨"mkdir", name, .ENOTDIR⟩
    | some (.dir _) =>
      if fs.denied name then .error ⟨"mkdir", name, .EACCES⟩
      else .ok (fs.set name (.dir perm))

/-- The parent `os.MkdirAll` makes first: the path without its last element
and the separator before it, when that leaves more than the root. -/
def mkdirParent (path : String) : Option String :=
  let trimmed := path.data.reverse.dropWhile (fun c => c = '/')
  let rest := trimmed.dropWhile (fun c => c ≠ '/')
  if rest.length > 1 then some ⟨(rest.drop 1).reverse⟩ else none

/-- `os.MkdirAll`, the recursion on the parent bounded by `fuel`.  Directories
made before a failure stay, so the file system is returned next to the error. -/
def FS.MkdirAllFuel : Nat → FS → String → FileMode → Option PathError × FS
  | fuel, fs, path, perm =>
    match fs.lookup path with
    | some (.dir _) => (none, fs)
    | some (.file _ _) => (some ⟨"mkdir", path, .ENOTDIR⟩, fs)
    | none =>
      let made : Option PathError × FS :=
        match fuel, mkdirParent path with
        | fuel + 1, some parent => FS.MkdirAllFuel fuel fs parent perm
        | _, _ => (none, fs)
      match made with
      | (some e, fs1) => (some e, fs1)
      | (none, fs1) =>
        match fs1.Mkdir path perm with
        | .ok fs2 => (none, fs2)
        | .error e =>
          match fs1.lookup path with
          | some (.dir _) => (none, fs1)
          | _ => (some e, fs1)

/-- `os.MkdirAll`: every parent is strictly shorter than its path, so the
length of the path is fuel enough. -/
def FS.MkdirAll (fs : FS) (path : String) (perm : FileMode) : Option PathError × FS :=
  FS.MkdirAllFuel path.length fs path perm

/-- `os.OpenFile(name, O_WRONLY|O_CREATE|O_TRUNC, perm)`: the file is created
with `perm` if it is not there, and emptied. -/
def FS.OpenFile (fs : FS) (name : String) (perm : FileMode) : Except PathError FS :=
  match fs.lookup name with
  | some (.dir _) => .error ⟨"open", name, .EISDIR⟩
  | some (.file _ old) =>
    if fs.denied name then .error ⟨"open", name, .EACCES⟩
    else .ok (fs.set name (.file [] old))
  | none =>
    match fs.lookup (Dir name) with
    | none => .error ⟨"open", name, .ENOENT⟩
    | some (.file _ _) => .error ⟨"open", name, .ENOTDIR⟩
    | some (.dir _) =>
      if fs.denied name then .error ⟨"open", name, .EACCES⟩
      else .ok (fs.set name (.file [] perm))

/-- `File.Write` on a file just opened by `OpenFile` or `Create`: the bytes
become its content; when the device has no room for all of them, the bytes that
fit are written and the write fails. -/
def FS.Write (fs : FS) (name : String) (data : Bytes) : Option PathError × FS :=
  match fs.node name with
  | some (.file _ perm) =>
    match fs.room name with
    | none => (none, fs.set name (.file data perm))
    | some n =>
      if data.length ≤ n then (none, fs.set name (.file data perm))
      else (some ⟨"write", name, .ENOSPC⟩, fs.set name (.file (data.take n) perm))
  | _ => (none, fs)

/-- `ioutil.WriteFile`: open the file (created with `perm` if it is not there,
emptied otherwise), write `data`, close.  After a failed write the file is
there, with the bytes that were written.  Closing is taken to succeed. -/
def FS.WriteFile (fs : FS) (filename : String) (data : Bytes) (perm : FileMode) :
    Option PathError × FS :=
  match fs.OpenFile filename perm with
  | .error e => (some e, fs)
  | .ok fs => fs.Write filename data

/-- `ioutil.ReadFile`. -/
def FS.ReadFile (fs : FS) (filename : String) : Except PathError Bytes :=
  match fs.lookup filename with
  | some (.file data _) => .ok data
  | some (.dir _) => .error ⟨"read", filename, .EISDIR⟩
  | none => .error ⟨"open", filename, .ENOENT⟩

/-- Whether a directory above `path` is a file: the walk goes up through the
directories that are missing and stops at the first node that is there. -/
def FS.fileAbove : Nat → FS → String → Bool
  | 0, _, _ => false
  | fuel + 1, fs, path =>
    match fs.lookup (Dir path) with
    | some (.file _ _) => true
    | some (.dir _) => false
    | none => FS.fileAbove fuel fs (Dir path)

/-- `os.Open`: open for reading.  When nothing is at the path the error is
`ENOTDIR` if a directory above it is a file and `ENOENT` otherwise.  The process
is taken to be allowed to read what is in the store. -/
def FS.Open (fs : FS) (name : String) : Except PathError Node :=
  match fs.lookup name with
  | some n => .ok n
  | none =>
    if fs.fileAbove name.length name then .error ⟨"open", name, .ENOTDIR⟩
    else .error ⟨"open", name, .ENOENT⟩

/-- `os.IsNotExist`, on the errors of this file system. -/
def IsNotExist (e : PathError) : Bool := decide (e.Err = .ENOENT)

/-- `os.Create`: open for writing, created with mode 0666 or truncated. -/
def FS.Create (fs : FS) (name : String) : Except PathError FS :=
  fs.OpenFile name 0o666

/-- `File.Chmod` on an open file. -/
def FS.Chmod (fs : FS) (name : String) (mode : FileMode) : FS :=
  match fs.node name with
  | some (.file data _) => fs.set name (.file data mode)
  | _ => fs

/-! ## JSON (package `encoding/json`) -/

/-- A hexadecimal digit, lower case. -/
def hexDigit (n : Nat) : Char :=
  if n < 10 then Char.ofNat (48 + n) else Char.ofNat (87 + n)

/-- How the encoder writes one character of a string: quotes, backslashes and
control characters are escaped, and so are `<`, `>`, `&` and the line and
paragraph separators (the encoder escapes HTML by default). -/
def jsonEscape (c : Char) : List Char :=
  if c = '"' then ['\\', '"']
  else if c = '\\' then ['\\', '\\']
  else if c = '\n' then ['\\', 'n']
  else if c = '\r' then ['\\', 'r']
  else if c = '\t' then ['\\', 't']
  else if c.toNat < 0x20 ∨ c = '<' ∨ c = '>' ∨ c = '&' then
    ['\\', 'u', '0', '0', hexDigit (c.toNat / 16), hexDigit (c.toNat % 16)]
  else if c.toNat = 0x2028 then ['\\', 'u', '2', '0', '2', '8']
  else if c.toNat = 0x2029 then ['\\', 'u', '2', '0', '2', '9']
  else [c]

/-- A string as a JSON string literal. -/
def jsonQuote (s : String) : List Char :=
  '"' :: (s.data.flatMap jsonEscape ++ ['"'])

/-- `json.MarshalIndent(v, "", "\t")` of a struct whose fields are rendered
already: one `"key": value` line per field, indented by one tab. -/
def marshalIndentObject : List (String × List Char) → List Char
  | [] => ['{', '}']
  | fields =>
    ['{', '\n'] ++
      List.intercalate [',', '\n']
        (fields.map (fun kv => '\t' :: (jsonQuote kv.1 ++ [':', ' '] ++ kv.2))) ++
      ['\n', '}']

/-- The value of a hexadecimal digit. -/
def hexValue (c : Char) : Option Nat :=
  if '0' ≤ c ∧ c ≤ '9' then some (c.toNat - 48)
  else if 'a' ≤ c ∧ c ≤ 'f' then some (c.toNat - 87)
  else if 'A' ≤ c ∧ c ≤ 'F' then some (c.toNat - 55)
  else none

/-- The decoder's reading of the inside of a string literal, up to and
including the closing quote: the decoded characters and what follows the
literal.  Escapes of surrogate halves are not modelled (no result). -/
def jsonUnquoteBody : List Char → List Char → Option (List Char × List Char)
  | _, [] => none
  | acc, c :: rest =>
    if c = '"' then some (acc.reverse, rest)
    else if c = '\\' then
      match rest with
      | [] => none
      | e :: rest =>
        if e = 'u' then
          match rest with
          | a :: b :: c :: d :: rest =>
            match hexValue a, hexValue b, hexValue c, hexValue d with
            | some a, some b, some c, some d =>
              let n := ((a * 16 + b) * 16 + c) * 16 + d
              if 0xD800 ≤ n ∧ n ≤ 0xDFFF then none
              else jsonUnquoteBody (Char.ofNat n :: acc) rest
            | _, _, _, _ => none
          | _ => none
        else if e = '"' ∨ e = '\\' ∨ e = '/' then jsonUnquoteBody (e :: acc) rest
        else if e = 'b' then jsonUnquoteBody (Char.ofNat 8 :: acc) rest
        else if e = 'f' then jsonUnquoteBody (Char.ofNat 12 :: acc) rest
        else if e = 'n' then jsonUnquoteBody ('\n' :: acc) rest
        else if e = 'r' then jsonUnquoteBody ('\r' :: acc) rest
        else if e = 't' then jsonUnquoteBody ('\t' :: acc) rest
        else none
    else if c.toNat < 0x20 then none
    else jsonUnquoteBody (c :: acc) rest

/-- Skip JSON white space. -/
def skipSpace : List Char → List Char
  | c :: rest => if c = ' ' ∨ c = '\t' ∨ c = '\n' ∨ c = '\r' then skipSpace rest else c :: rest
  | [] => []

/-- Read a string literal, after white space. -/
def jsonString (input : List Char) : Option (String × List Char) :=
  match skipSpace input with
  | '"' :: rest =>
    match jsonUnquoteBody [] rest with
    | some (cs, rest) => some (⟨cs⟩, rest)
    | none => none
  | _ => none

/-- Read the members `"key": "value"` of an object after its opening brace, up
to the closing brace (nothing but white space may follow it).  Values other
than strings are not modelled (no result). -/
def jsonMembers : Nat → List Char → Option (List (String × String))
  | 0, _ => none
  | fuel + 1, input =>
    match jsonString input with
    | none => none
    | some (key, rest) =>
      match skipSpace rest with
      | ':' :: rest =>
        match jsonString rest with
        | none => none
        | some (value, rest) =>
          match skipSpace rest with
          | ',' :: rest =>
            match jsonMembers fuel rest with
            | some more => some ((key, value) :: more)
            | none => none
          | '}' :: rest => if skipSpace rest = [] then some [(key, value)] else none
          | _ => none
      | _ => none

/-- Read a JSON object whose values are strings: its members in document
order. -/
def jsonObject (input : List Char) : Option (List (String × String)) :=
  match skipSpace input with
  | '{' :: rest =>
    match skipSpace rest with
    | '}' :: rest => if skipSpace rest = [] then some [] else none
    | _ => jsonMembers input.length rest
  | _ => none

/-- The value the decoder stores for the field tagged `key`: that of the last
member with this key, and the zero value when there is none. -/
def jsonField (members : List (String × String)) (key : String) : String :=
  match members.reverse.find? (fun kv => kv.1 = key) with
  | some kv => kv.2
  | none => ""

/-! ## The ACME library (package `acme`), as far as this package uses it -/

/-- `acme.CertificateResource`, with the fields this repository uses; the key
and the certificate are tagged `json:"-"`. -/
structure CertificateResource where
  Domain : String
  CertURL : String
  CertStableURL : String
  PrivateKey : Bytes
  Certificate : Bytes
deriving DecidableEq, Repr

/-- `json.MarshalIndent(&cert, "", "\t")`. -/
def CertificateResource.MarshalIndent (cert : CertificateResource) : String :=
  ⟨marshalIndentObject
    [("domain", jsonQuote cert.Domain),
     ("certUrl", jsonQuote cert.CertURL),
     ("certStableUrl", jsonQuote cert.CertStableURL)]⟩

/-- `json.Unmarshal` of a metadata document into a `CertificateResource`. -/
def CertificateResource.Unmarshal (doc : String) : Option CertificateResource :=
  match jsonObject doc.data with
  | none => none
  | some members =>
    some
      { Domain := jsonField members "domain"
        CertURL := jsonField members "certUrl"
        CertStableURL := jsonField members "certStableUrl"
        PrivateKey := []
        Certificate := [] }

/-- `acme.RegistrationResource`: this package only stores it, so it is kept as
the JSON text the encoder writes for it inside the account record. -/
structure RegistrationResource where
  json : String
deriving DecidableEq, Repr

/-- `rsa.PrivateKey`, as its PKCS#1 DER form (`x509.MarshalPKCS1PrivateKey`). -/
structure PrivateKey where
  der : Bytes
deriving DecidableEq, Repr

/-! ## crypto.go -/

/-- `saveRSAPrivateKey` saves a PEM-encoded RSA private key to file.  `pem` is
`pem.Encode` for a block of the given type.  A nil key makes
`x509.MarshalPKCS1PrivateKey` panic before the file is created. -/
def saveRSAPrivateKey (pem : String → Bytes → Bytes) (fs : FS) (key : Option PrivateKey)
    (file : String) : Option Error × FS :=
  match key with
  | none => (some (.panic "invalid memory address or nil pointer dereference"), fs)
  | some key =>
    let pemKey := pem "RSA PRIVATE KEY" key.der
    match fs.Create file with
    | .error e => (some (.path e), fs)
    | .ok fs =>
      let fs := fs.Chmod file 0o600
      match fs.Write file pemKey with
      | (some e, fs) => (some (.path e), fs)
      | (none, fs) => (none, fs)

/-- `saveCertResource` saves the certificate resource to disk.  This includes
the certificate file itself, the private key, and the metadata file.  What was
written before a failure stays. -/
def saveCertResource (Workspace : Storage) (fs : FS) (cert : CertificateResource) :
    Option Error × FS :=
  match fs.MkdirAll (Storage.Site Workspace cert.Domain) 0o700 with
  | (some e, fs) => (some (.path e), fs)
  | (none, fs) =>
    -- Save cert
    match fs.WriteFile (Storage.SiteCertFile Workspace cert.Domain) cert.Certificate 0o600 with
    | (some e, fs) => (some (.path e), fs)
    | (none, fs) =>
      -- Save private key
      match fs.WriteFile (Storage.SiteKeyFile Workspace cert.Domain) cert.PrivateKey 0o600 with
      | (some e, fs) => (some (.path e), fs)
      | (none, fs) =>
        -- Save cert metadata
        let jsonBytes := stringBytes cert.MarshalIndent
        match fs.WriteFile (Storage.SiteMetaFile Workspace cert.Domain) jsonBytes 0o600 with
        | (some e, fs) => (some (.path e), fs)
        | (none, fs) => (none, fs)

/-- `existingCertAndKey` returns true if the host has a certificate and private
key in storage already, false otherwise. -/
def existingCertAndKey (Workspace : Storage) (fs : FS) (host : String) : Bool :=
  match fs.Stat (Storage.SiteCertFile Workspace host) with
  | .error _ => false
  | .ok _ =>
    match fs.Stat (Storage.SiteKeyFile Workspace host) with
    | .error _ => false
    | .ok _ => true

/-! ## user.go -/

/-- `User` is type that can interact with an ACME server.  The rate limiter is
the embedded field (tagged `json:"-"`). -/
structure User where
  rateLimiter : Certs.rateLimiter
  Email : String
  Registration : Option RegistrationResource
  key : Option PrivateKey
deriving DecidableEq, Repr

/-- `json.MarshalIndent(user, "", "\t")`: the exported fields `Email` and
`Registration`. -/
def User.MarshalIndent (user : User) : String :=
  ⟨marshalIndentObject
    [("Email", jsonQuote user.Email),
     ("Registration",
        match user.Registration with
        | none => "null".data
        | some reg => reg.json.data)]⟩

/-- `saveUser` persists a user's key and account registration to the file
system.  It does NOT register the user via ACME. -/
def saveUser (pem : String → Bytes → Bytes) (Workspace : Storage) (fs : FS) (user : User) :
    Option Error × FS :=
  -- make user account folder
  match fs.MkdirAll (Storage.User Workspace user.Email) 0o700 with
  | (some e, fs) => (some (.path e), fs)
  | (none, fs) =>
    -- save private key file
    match saveRSAPrivateKey pem fs user.key (Storage.UserKeyFile Workspace user.Email) with
    | (some e, fs) => (some e, fs)
    | (none, fs) =>
      -- save registration file
      let jsonBytes := stringBytes user.MarshalIndent
      match fs.WriteFile (Storage.UserRegFile Workspace user.Email) jsonBytes 0o600 with
      | (some e, fs) => (some (.path e), fs)
      | (none, fs) => (none, fs)

/-- What the program does, in program order: the calls it makes to the ACME
client, to the rate limiter and to the storage functions, and the lines it
logs. -/
inductive Event where
  | log (line : LogLine)
  /-- `acme.NewClient(ServerURL, u, rsaKeySize)`. -/
  | NewClient (caURL : String)
  /-- `client.Register()`. -/
  | Register
  /-- `client.AgreeToTOS()`. -/
  | AgreeToTOS
  /-- `client.ObtainCertificate(domains, true, nil)`. -/
  | ObtainCertificate (domains : List String)
  /-- `u.BackOff()`. -/
  | BackOff
  /-- `u.Wait()`, sleeping for the interval. -/
  | Wait (interval : Duration)
  /-- `u.Resume()`. -/
  | Resume
  /-- `existingCertAndKey(host)` and what it returned. -/
  | existingCertAndKey (host : String) (found : Bool)
  /-- `saveCertResource(cert)`. -/
  | saveCertResource (cert : CertificateResource)
  /-- `saveUser(u)`. -/
  | saveUser (email : String)
deriving DecidableEq, Repr

/-- The package variables and the answers of the collaborators. -/
structure Env where
  /-- `ServerURL` is the URL to the ACME CA's directory. -/
  ServerURL : String
  /-- `Agree` is whether the user agrees to the CA's service agreement. -/
  Agree : Bool
  /-- `Workspace` is where this program stores assets. -/
  Workspace : Storage
  /-- The error `acme.NewClient` returns, if any. -/
  NewClient : Option Failure
  /-- What `client.Register()` returns. -/
  Register : Except Failure RegistrationResource
  /-- The error the `n`-th call (from 0) of `client.AgreeToTOS()` returns, if
  any. -/
  AgreeToTOS : Nat → Option Failure
  /-- What the `n`-th call (from 0) of `client.ObtainCertificate` returns for
  the given domains: the resource, and the failures in the order in which a
  `range` over the map visits them. -/
  ObtainCertificate : Nat → List String → CertificateResource × List (String × Failure)
  /-- What other processes do to the file system during the `n`-th (from 0)
  sleep of the given length. -/
  Sleep : Nat → Duration → FS → FS
  /-- `pem.Encode` of a block of the given type. -/
  pem : String → Bytes → Bytes

/-- The state the program runs on. -/
structure State where
  fs : FS
  /-- The receiver `u`. -/
  user : User
  trace : List Event
  /-- How many times `client.AgreeToTOS()` has been called. -/
  agreed : Nat
  /-- How many times `client.ObtainCertificate` has been called. -/
  obtained : Nat
  /-- How many times the program has slept. -/
  slept : Nat

/-- Append events to the trace. -/
def State.emit (st : State) (events : List Event) : State :=
  { st with trace := st.trace ++ events }

/-- `newClient` makes a new ACME client for the user `u`, including registering
the user, agreeing to terms, and saving the user data to storage if the user
was not already registered. -/
def newClient (env : Env) (st : State) : Option Error × State :=
  let st := st.emit [.NewClient env.ServerURL]
  match env.NewClient with
  | some err => (some (.errorf ("creating ACME client: " ++ err.msg)), st)
  | none =>
    match st.user.Registration with
    | some _ => (none, st)
    | none =>
      if !env.Agree then
        (some (.errorf ("cannot register user '" ++ st.user.Email ++ "' without --agree")), st)
      else
        let st := st.emit [.Register]
        match env.Register with
        | .error err => (some (.errorf ("registration error: " ++ err.msg)), st)
        | .ok reg =>
          let st := { st with user := { st.user with Registration := some reg } }
          let answer := env.AgreeToTOS st.agreed
          let st := { st.emit [.AgreeToTOS] with agreed := st.agreed + 1 }
          match answer with
          | some err => (some (.errorf ("error agreeing to terms: " ++ err.msg)), st)
          | none =>
            let st := st.emit [.saveUser st.user.Email]
            match saveUser env.pem env.Workspace st.fs st.user with
            | (some (.panic msg), fs) => (some (.panic msg), { st with fs := fs })
            | (some err, fs) =>
              (some (.errorf ("could not save user: " ++ err.Error)), { st with fs := fs })
            | (none, fs) => (none, { st with fs := fs })

/-- Where `ObtainCerts` is in its loop over the bundles. -/
inductive Ctl where
  /-- At the head of `for _, domains := range bundles`, these bundles left. -/
  | forLoop (bundles : List (List String))
  /-- At the label `Obtain` for the bundle `primary :: others` (a bundle that
  reaches the label is not empty), `rest` being the bundles after it. -/
  | Obtain (primary : String) (others : List String) (rest : List (List String))
  /-- Returned, with this error (`none` is `nil`). -/
  | ret (err : Option Error)
deriving DecidableEq, Repr

/-- What the `range` over the failures reacts to. -/
inductive Reaction where
  /-- A failure whose message contains `rateLimited`. -/
  | rateLimited (domain : String) (err : Failure)
  /-- A failure that is an `acme.TOSError`. -/
  | tos (domain : String) (err : Failure)
deriving DecidableEq, Repr

/-- The `range` over the failures: the first failure, in the order of the
iteration, that is a rate limit or a terms-of-service error; failures of other
kinds are passed over. -/
def firstReaction : List (String × Failure) → Option Reaction
  | [] => none
  | (domain, err) :: more =>
    if Contains err.msg "rateLimited" then some (.rateLimited domain err)
    else if err.isTOS then some (.tos domain err)
    else firstReaction more

/-- One pass through the body of the loop of `ObtainCerts`: from the head of
the loop to the label `Obtain` or to the next bundle, or from the label
`Obtain` to the next `goto Obtain`, `continue`, `return` or end of the body. -/
def step (env : Env) : Ctl × State → Ctl × State
  | (.ret err, st) => (.ret err, st)
  | (.forLoop [], st) => (.ret none, st)
  | (.forLoop ([] :: rest), st) =>
    (.forLoop rest, st.emit [.log .skipEmpty])
  | (.forLoop ((primary :: others) :: rest), st) => (.Obtain primary others rest, st)
  | (.Obtain primary others rest, st) =>
    let domains := primary :: others
    -- certificate and key could have appeared since we last checked
    let found := existingCertAndKey env.Workspace st.fs primary
    let st := st.emit [.existingCertAndKey primary found]
    if found then
      (.forLoop rest, st.emit [.log (.existing primary domains)])
    else
      let (certRes, failures) := env.ObtainCertificate st.obtained domains
      let st := { st.emit [.ObtainCertificate domains] with obtained := st.obtained + 1 }
      if failures.length > 0 then
        match firstReaction failures with
        | some (.rateLimited domain err) =>
          let (rl, lines) := st.user.rateLimiter.BackOff
          let st := { st.emit (.BackOff :: lines.map .log) with
                      user := { st.user with rateLimiter := rl } }
          let st := st.emit [.log (.rateLimited domain err.msg st.user.rateLimiter.interval)]
          let st := { st.emit [.Wait st.user.rateLimiter.interval] with
                      fs := env.Sleep st.slept st.user.rateLimiter.interval st.fs
                      slept := st.slept + 1 }
          (.Obtain primary others rest, st.emit [.log (.retrying domains)])
        | some (.tos domain err) =>
          let st := st.emit [.log (.updatedTerms domain err.msg)]
          let answer := env.AgreeToTOS st.agreed
          let st := { st.emit [.AgreeToTOS] with agreed := st.agreed + 1 }
          match answer with
          | some err =>
            (.ret (some (.errorf
              ("error agreeing to updated terms for " ++ domain ++ ": " ++ err.msg))), st)
          | none => (.Obtain primary others rest, st)
        | none => (.ret (some (.ObtainError failures)), st)
      else
        -- immediately save each certificate as we obtain it
        let st := st.emit [.saveCertResource certRes]
        match saveCertResource env.Workspace st.fs certRes with
        | (some err, fs) =>
          (.ret (some (.errorf
            ("error saving assets for " ++ formatStrings domains ++ ": " ++ err.Error))),
            { st with fs := fs })
        | (none, fs) =>
          -- open throttle if it wasn't already
          let st := { st.emit [.Resume] with
                      fs := fs
                      user := { st.user with rateLimiter := st.user.rateLimiter.Resume } }
          (.forLoop rest, st)

/-- `fuel` passes of `step` (a pass changes nothing once the function has
returned). -/
def run (env : Env) : Nat → Ctl × State → Ctl × State
  | 0, c => c
  | fuel + 1, c => run env fuel (step env c)

/-- `ObtainCerts` obtains certificates in bundles, where each slice in the slice
is a list of domains to put onto the certificate.  The loop is given `fuel`
passes; the result is `Ctl.ret err` when the function has returned within
them. -/
def ObtainCerts (env : Env) (fuel : Nat) (st : State) (bundles : List (List String)) :
    Ctl × State :=
  if env.ServerURL = "" then
    (.ret (some (.errorf "must set ServerURL before obtaining certificates")), st)
  else
    match newClient env st with
    | (some err, st) => (.ret (some err), st)
    | (none, st) => run env fuel (.forLoop bundles, st)

/-! ## Loading a user (crypto.go, user.go) -/

/-- `pem.Block`: the type of the block and its decoded bytes. -/
structure Block where
  blockType : String
  Bytes : Certs.Bytes
deriving DecidableEq, Repr

/-- The decoders of the standard library that loading a user goes through, and
the key generator. -/
structure Codec where
  /-- `pem.Decode`: the first PEM block of the input; `none` is the nil block it
  returns when the input holds no PEM block. -/
  pemDecode : Bytes → Option Block
  /-- `x509.ParsePKCS1PrivateKey`: the key, or the message of the error. -/
  ParsePKCS1PrivateKey : Bytes → Except String PrivateKey
  /-- `json.NewDecoder(regFile).Decode(&user)` on the content of the file: the
  exported fields `Email` and `Registration`, or the message of the error. -/
  decodeUser : Bytes → Except String (String × Option RegistrationResource)
  /-- `rsa.GenerateKey(rand.Reader, rsaKeySize)`. -/
  GenerateKey : Except String PrivateKey

/-- `loadRSAPrivateKey` loads a PEM-encoded RSA private key from file.  The block
`pem.Decode` returns is dereferenced as it is: on a nil block, `keyBlock.Bytes`
panics. -/
def loadRSAPrivateKey (codec : Codec) (fs : FS) (file : String) : Except Error PrivateKey :=
  match fs.ReadFile file with
  | .error e => .error (.path e)
  | .ok keyBytes =>
    match codec.pemDecode keyBytes with
    | none => .error (.panic "invalid memory address or nil pointer dereference")
    | some keyBlock =>
      match codec.ParsePKCS1PrivateKey keyBlock.Bytes with
      | .error msg => .error (.errorf msg)
      | .ok key => .ok key

/-- `newUser` creates a new User for the given email address with a new private
key. -/
def newUser (codec : Codec) (email : String) : Except Error User :=
  match codec.GenerateKey with
  | .error msg => .error (.errorf msg)
  | .ok privateKey =>
    .ok { rateLimiter := rateLimiter.zero, Email := email, Registration := none,
          key := some privateKey }

/-- `GetUser` loads the user with the given email from disk.  If the user does
not exist, it will create a new one; any other error of `os.Open` is returned.
Opening a directory succeeds and reading from it fails. -/
def GetUser (codec : Codec) (Workspace : Storage) (fs : FS) (email : String) :
    Except Error User :=
  -- open user file
  match fs.Open (Storage.UserRegFile Workspace email) with
  | .error err =>
    if IsNotExist err then
      -- create a new user
      newUser codec email
    else .error (.path err)
  | .ok (.dir _) =>
    .error (.path ⟨"read", Storage.UserRegFile Workspace email, .EISDIR⟩)
  | .ok (.file data _) =>
    -- load user information
    match codec.decodeUser data with
    | .error msg => .error (.errorf msg)
    | .ok (Email, Registration) =>
      -- load their private key
      match loadRSAPrivateKey codec fs (Storage.UserKeyFile Workspace email) with
      | .error err => .error err
      | .ok key =>
        .ok { rateLimiter := rateLimiter.zero, Email := Email, Registration := Registration,
              key := some key }

/-! ## cmd/issue.go -/

/-- `defaultDelimiter`. -/
def defaultDelimiter : String := ","

/-- `standardDelimiter`: the delimiter a flag value stands for.  `len(delim)` is
the number of bytes of the string and `delim[0]` its first byte. -/
def standardDelimiter (delim : String) : Except Error Char :=
  let delim := ToLower delim
  let delim := if delim = "" then defaultDelimiter else delim
  if delim = "." ∨ delim = "\n" ∨ delim = "\r" ∨ delim = "\"" ∨ delim = "'" then
    .error (.errorf ("'" ++ delim ++ "' is not a valid delimiter for this program"))
  else if delim = "\\t" ∨ delim = "tab" then .ok '\t'
  else if delim = "asc30" then .ok (Char.ofNat 30) -- record separator
  else if delim = "asc31" then .ok (Char.ofNat 31) -- unit separator
  else if (stringBytes delim).length ≠ 1 then
    .error (.errorf ("'" ++ delim ++ "' is not a valid delimiter; can only be 1 character"))
  else .ok (Char.ofNat ((stringBytes delim).headD 0).toNat)

/-! ## Notions used to state properties of traces -/

/-- An `ObtainCertificate` call is guarded when it is for a bundle
`primary :: others` and the event before it is an `existingCertAndKey primary`
that returned false; any other event is guarded. -/
def guardedBy (prev : Option Event) : Event → Prop
  | .ObtainCertificate domains =>
    ∃ primary others, domains = primary :: others ∧
      prev = some (Event.existingCertAndKey primary false)
  | _ => True

/-- Every event of the list is guarded by the event before it, `prev` being the
event before the list. -/
def obtainsGuarded : Option Event → List Event → Prop
  | _, [] => True
  | prev, e :: es => guardedBy prev e ∧ obtainsGuarded (some e) es

/-- A failure is a rate limit when its message contains `rateLimited`. -/
def Failure.rateLimited (err : Failure) : Bool := Contains err.msg "rateLimited"

/-! ## Notions used to state properties of the rate limiter and of paths -/

/-- A call on a rate limiter. -/
inductive Call where
  | BackOff
  | Resume
deriving DecidableEq, Repr

/-- The state after the calls, made in this order. -/
def rateLimiter.calls : List Call → rateLimiter → rateLimiter
  | [], rl => rl
  | Call.BackOff :: more, rl => rateLimiter.calls more rl.BackOff.1
  | Call.Resume :: more, rl => rateLimiter.calls more rl.Resume

/-- The rate limiter is resumed, or it is at an interval of the schedule with a
count between 1 and the uses allotted to the interval, reached by no more than
`n` calls (`BackOff` needs 3 calls to leave 10s, 5 to leave 30s, and so on). -/
def rateLimiter.within (n : Nat) (rl : rateLimiter) : Prop :=
  rl.interval = 0 ∨
  (rl.interval = 10 * Second ∧ 1 ≤ rl.count ∧ rl.count ≤ 3 ∧ rl.count ≤ n) ∨
  (rl.interval = 30 * Second ∧ 1 ≤ rl.count ∧ rl.count ≤ 2 ∧ rl.count + 3 ≤ n) ∨
  (rl.interval = 1 * Minute ∧ 1 ≤ rl.count ∧ rl.count ≤ 5 ∧ rl.count + 5 ≤ n) ∨
  (rl.interval = 5 * Minute ∧ 1 ≤ rl.count ∧ rl.count ≤ 2 ∧ rl.count + 10 ≤ n) ∨
  (rl.interval = 10 * Minute ∧ 1 ≤ rl.count ∧ rl.count ≤ 3 ∧ rl.count + 12 ≤ n) ∨
  (rl.interval = 30 * Minute ∧ 1 ≤ rl.count ∧ rl.count ≤ 2 ∧ rl.count + 15 ≤ n) ∨
  (rl.interval = 1 * Hour ∧ 1 ≤ rl.count ∧ rl.count + 17 ≤ n)

/-- The elements `filepath.Clean` has written, last one first, are in order:
none is empty, `.` or holds a separator, and `..` elements lie only at the
bottom, and only when the path is not rooted. -/
def cleanStack (rooted : Bool) : List (List Char) → Prop
  | [] => True
  | e :: below =>
    e ≠ [] ∧ e ≠ ['.'] ∧ '/' ∉ e ∧
      (if e = ['.', '.'] then rooted = false ∧ ∀ x ∈ below, x = ['.', '.']
       else cleanStack rooted below)

/-- A name that is one proper element of a path: not empty, not `.` or `..`,
and without a separator. -/
def pathElement (name : String) : Prop :=
  name ≠ "" ∧ name ≠ "." ∧ name ≠ ".." ∧ '/' ∉ name.data

/-- `filepath.Base`: the last element of the path, trailing separators
removed; `.` for the empty path and the separator for a path of separators
only.  It is what a file at the path is named. -/
def Base (path : String) : String :=
  if path = "" then "."
  else
    let trimmed := path.data.reverse.dropWhile (fun c => c = '/')
    if trimmed = [] then "/"
    else ⟨(trimmed.takeWhile (fun c => c ≠ '/')).reverse⟩

/-- What `n` consecutive `BackOff` calls produce, call by call: the state after
each call and the lines it logged. -/
def rateLimiter.backOffStates : Nat → rateLimiter → List (rateLimiter × List LogLine)
  | 0, _ => []
  | n + 1, rl => rl.BackOff :: rateLimiter.backOffStates n rl.BackOff.1

/-- The lower cases of the run `r` lie outside the run `q`: beyond its ends, or
between its code points. -/
def CaseRange.apart (r q : CaseRange) : Bool :=
  decide (r.lower + (r.hi - r.lo) < q.lo) || decide (q.hi < r.lower) ||
    (decide (q.stride = 2) && (decide (r.stride = 2) || decide (r.lo = r.hi)) &&
      decide ((r.lower + q.lo) % 2 = 1))

/-- The lower cases of the run are code points that are their own lower case:
they are characters, none is an ASCII capital, and none is in a run of the
table. -/
def CaseRange.settled (r : CaseRange) : Bool :=
  (decide (r.lower + (r.hi - r.lo) < 0xD800) ||
    (decide (0xE000 ≤ r.lower) && decide (r.lower + (r.hi - r.lo) < 0x110000))) &&
  (decide (r.lower + (r.hi - r.lo) < 65) || decide (90 < r.lower)) &&
  caseRanges.all (fun q => r.apart q)

/-! ## Sample inputs -/

/-- The resource of `TestSaveCertResource`, for any domain. -/
def sampleCert (domain : String) : CertificateResource :=
  { Domain := domain
    CertURL := "https://example.com/cert"
    CertStableURL := "https://example.com/cert/stable"
    PrivateKey := stringBytes "private key"
    Certificate := stringBytes "certificate" }

/-- An unregistered user, as `newUser` makes it. -/
def sampleUser : User :=
  { rateLimiter := rateLimiter.zero
    Email := "me@mine.com"
    Registration := none
    key := some ⟨[48, 130]⟩ }

/-- A failure the CA reports when it throttles. -/
def rateLimitedFailure : Failure :=
  { msg := "acme: Error 429 - urn:acme:error:rateLimited - too many requests", isTOS := false }

/-- A failure of type `acme.TOSError`. -/
def tosFailure : Failure :=
  { msg := "acme: Error 403 - urn:acme:error:unauthorized - must agree to terms", isTOS := true }

/-- A failure of another kind. -/
def otherFailure : Failure :=
  { msg := "acme: Error 400 - urn:acme:error:connection - could not connect", isTOS := false }

/-- A CA that answers every request with `answer`, and a quiet file system. -/
def sampleEnv (answer : CertificateResource × List (String × Failure)) : Env :=
  { ServerURL := "https://acme-staging.api.letsencrypt.org/directory"
    Agree := true
    Workspace := "./certs_data"
    NewClient := none
    Register := .ok ⟨"\x7b\x7d"⟩
    AgreeToTOS := fun _ => none
    ObtainCertificate := fun _ _ => answer
    Sleep := fun _ _ fs => fs
    pem := fun _ der => der }

/-- The state `ObtainCerts` is entered in, on the given file system. -/
def sampleState (fs : FS) : State :=
  { fs := fs, user := sampleUser, trace := [], agreed := 0, obtained := 0, slept := 0 }

/-- A workspace in which `a.com` has been issued. -/
def sampleStore : FS := (saveCertResource "./certs_data" FS.empty (sampleCert "a.com")).2

/-- A workspace holding the certificate of `a.com` and nothing else of it. -/
def sampleStoreCertOnly : FS :=
  ((FS.empty.MkdirAll "certs_data/sites/a.com" 0o700).2.WriteFile
      "certs_data/sites/a.com/a.com.crt" (stringBytes "certificate") 0o600).2

/-- A CA that throttles every request, while another process issues the
certificate of `a.com` into the workspace during the first sleep. -/
def throttlingEnv : Env :=
  { sampleEnv (sampleCert "a.com", [("a.com", rateLimitedFailure)]) with
    Sleep := fun _ _ fs => (saveCertResource "./certs_data" fs (sampleCert "a.com")).2 }

/-- Decoders for the samples: an input that starts with five dashes is taken as
one PEM block holding the rest, anything else holds no PEM block; every block
parses as a key; every registration file decodes to the sample account. -/
def sampleCodec : Codec :=
  { pemDecode := fun bytes =>
      if bytes.take 5 = stringBytes "-----" then some ⟨"RSA PRIVATE KEY", bytes.drop 5⟩ else none
    ParsePKCS1PrivateKey := fun der => .ok ⟨der⟩
    decodeUser := fun _ => .ok ("me@mine.com", some ⟨"\x7b\x7d"⟩)
    GenerateKey := .ok ⟨[48, 130]⟩ }

/-- A workspace with the account of `me@mine.com` in which the key file holds
text that is not PEM. -/
def brokenKeyStore : FS :=
  ((FS.empty.set (Storage.UserRegFile "./certs_data" "me@mine.com")
      (Node.file (stringBytes "\x7b\x7d") 0o600)).set
    (Storage.UserKeyFile "./certs_data" "me@mine.com")
      (Node.file (stringBytes "not a key") 0o600))

/-- The state `ObtainCerts` is entered in with a registered user, as `GetUser`
loads it. -/
def registeredState (fs : FS) : State :=
  { sampleState fs with user := { sampleUser with Registration := some ⟨"\x7b\x7d"⟩ } }

/-- A workspace on which the key file of `a.com` cannot be written. -/
def deniedKeyStore : FS :=
  { FS.empty with denied := fun path => path = "certs_data/sites/a.com/a.com.key" }

/-- A workspace on which the device has no room for the key file of `a.com`. -/
def fullKeyStore : FS :=
  { FS.empty with
    room := fun path => if path = "certs_data/sites/a.com/a.com.key" then some 0 else none }

/-- The state `ObtainCerts` is in after two rate limits: a registered user whose
rate limiter is at 10s with a count of 2. -/
def throttledState (fs : FS) : State :=
  { registeredState fs with
    user := { (registeredState fs).user with rateLimiter := ⟨10 * Second, 2⟩ } }

/-- A CA that throttles the first request and issues `a.com` at the second, and
a quiet file system. -/
def throttledOnceEnv : Env :=
  { sampleEnv (sampleCert "a.com", []) with
    ObtainCertificate := fun n _ =>
      if n = 0 then (sampleCert "a.com", [("a.com", rateLimitedFailure)])
      else (sampleCert "a.com", []) }

/-! # Theorems -/

/-! ## The rate limiter -/

theorem backOffs_le17 (k : Nat) (hk : k ≤ 17) :
    rateLimiter.backOffs k rateLimiter.zero =
      if k = 0 then rateLimiter.zero else
      if k ≤ 3 then ⟨10 * Second, k⟩ else
      if k ≤ 5 then ⟨30 * Second, k - 3⟩ else
      if k ≤ 10 then ⟨1 * Minute, k - 5⟩ else
      if k ≤ 12 then ⟨5 * Minute, k - 10⟩ else
      if k ≤ 15 then ⟨10 * Minute, k - 12⟩ else ⟨30 * Minute, k - 15⟩ := by
  interval_cases k <;> rfl

theorem BackOff_hour (rl : rateLimiter) (h : rl.interval = 1 * Hour) :
    rl.BackOff.1.interval = 1 * Hour := by
  obtain ⟨i, c⟩ := rl
  simp only at h
  subst h
  simp [rateLimiter.BackOff, Hour, Minute, Second]

theorem backOffs_ge18 (k : Nat) (hk : 18 ≤ k) :
    (rateLimiter.backOffs k rateLimiter.zero).interval = 1 * Hour := by
  induction k, hk using Nat.le_induction with
  | base =>
    have h17 := backOffs_le17 17 (le_refl _)
    rw [show (18 : Nat) = 17 + 1 from rfl, rateLimiter.backOffs, h17]
    rfl
  | succ n _ ih => exact BackOff_hour _ ih

/-- C1: starting from the zero state, the interval after the `k`-th consecutive
`BackOff` is 10s for `k` = 1..3, 30s for 4..5, 1m for 6..10, 5m for 11..12, 10m
for 13..15, 30m for 16..17, and 1h for every `k ≥ 18`. -/
theorem BackOff_schedule (k : Nat) :
    (1 ≤ k ∧ k ≤ 3 → (rateLimiter.backOffs k rateLimiter.zero).interval = 10 * Second) ∧
    (4 ≤ k ∧ k ≤ 5 → (rateLimiter.backOffs k rateLimiter.zero).interval = 30 * Second) ∧
    (6 ≤ k ∧ k ≤ 10 → (rateLimiter.backOffs k rateLimiter.zero).interval = 1 * Minute) ∧
    (11 ≤ k ∧ k ≤ 12 → (rateLimiter.backOffs k rateLimiter.zero).interval = 5 * Minute) ∧
    (13 ≤ k ∧ k ≤ 15 → (rateLimiter.backOffs k rateLimiter.zero).interval = 10 * Minute) ∧
    (16 ≤ k ∧ k ≤ 17 → (rateLimiter.backOffs k rateLimiter.zero).interval = 30 * Minute) ∧
    (18 ≤ k → (rateLimiter.backOffs k rateLimiter.zero).interval = 1 * Hour) := by
  refine ⟨?_, ?_, ?_, ?_, ?_, ?_, ?_⟩
  · rintro ⟨h1, h2⟩; interval_cases k <;> rfl
  · rintro ⟨h1, h2⟩; interval_cases k <;> rfl
  · rintro ⟨h1, h2⟩; interval_cases k <;> rfl
  · rintro ⟨h1, h2⟩; interval_cases k <;> rfl
  · rintro ⟨h1, h2⟩; interval_cases k <;> rfl
  · rintro ⟨h1, h2⟩; interval_cases k <;> rfl
  · intro h
    exact backOffs_ge18 k h

/-- Witness of C1: the 117th call (the test's 17 calls and 100 more) leaves the
interval at one hour, and the 17th leaves it at thirty minutes. -/
theorem BackOff_schedule_witness :
    (rateLimiter.backOffs 117 rateLimiter.zero).interval = 1 * Hour ∧
    (rateLimiter.backOffs 17 rateLimiter.zero).interval = 30 * Minute :=
  ⟨(BackOff_schedule 117).2.2.2.2.2.2 (by decide),
   (BackOff_schedule 17).2.2.2.2.2.1 (by decide)⟩

/-! ## Traces -/

theorem obtainsGuarded_weaken : ∀ (prev : Option Event) (es : List Event),
    obtainsGuarded none es → obtainsGuarded prev es
  | _, [], _ => trivial
  | _, e :: es, h => by
    refine ⟨?_, h.2⟩
    cases e <;> first | trivial | (obtain ⟨⟨p, o, _, hp⟩, _⟩ := h; cases hp)

theorem obtainsGuarded_append : ∀ (prev : Option Event) (a b : List Event),
    obtainsGuarded prev a → obtainsGuarded none b → obtainsGuarded prev (a ++ b)
  | prev, [], b, _, hb => obtainsGuarded_weaken prev b hb
  | _, e :: es, b, ha, hb => ⟨ha.1, obtainsGuarded_append (some e) es b ha.2 hb⟩

theorem obtainsGuarded_split : ∀ (prev : Option Event) (pre : List Event)
    (domains : List String) (post : List Event),
    obtainsGuarded prev (pre ++ Event.ObtainCertificate domains :: post) →
    ∃ primary others, domains = primary :: others ∧
      (pre.getLast? <|> prev) = some (Event.existingCertAndKey primary false)
  | prev, [], domains, post, h => by
    obtain ⟨⟨p, o, hd, hp⟩, _⟩ := h
    exact ⟨p, o, hd, by simpa using hp⟩
  | _, [e], domains, post, h => by
    obtain ⟨p, o, hd, hp⟩ := obtainsGuarded_split (some e) [] domains post h.2
    exact ⟨p, o, hd, by simpa using hp⟩
  | prev, e :: e' :: es, domains, post, h => by
    obtain ⟨p, o, hd, hp⟩ := obtainsGuarded_split (some e) (e' :: es) domains post h.2
    refine ⟨p, o, hd, ?_⟩
    rw [List.getLast?_cons_cons]
    cases hl : (e' :: es).getLast? with
    | none => simp at hl
    | some x => simpa [hl] using hp

theorem obtainsGuarded_logs (prev : Option Event) (lines : List LogLine) :
    obtainsGuarded prev (lines.map Event.log) := by
  induction lines generalizing prev with
  | nil => trivial
  | cons l ls ih => exact ⟨trivial, ih _⟩

/-! ## The range over the failures -/

theorem firstReaction_eq_none_iff (failures : List (String × Failure)) :
    firstReaction failures = none ↔
      ∀ f ∈ failures, f.2.rateLimited = false ∧ f.2.isTOS = false := by
  induction failures with
  | nil => simp [firstReaction]
  | cons f more ih =>
    obtain ⟨domain, err⟩ := f
    by_cases h1 : Contains err.msg "rateLimited" = true
    · simp [firstReaction, h1, Failure.rateLimited]
    · by_cases h2 : err.isTOS = true
      · simp [firstReaction, h1, h2, Failure.rateLimited]
      · simp [firstReaction, h1, h2, Failure.rateLimited, ih]

theorem firstReaction_rateLimited (pre post : List (String × Failure)) (domain : String)
    (err : Failure) (herr : err.rateLimited = true)
    (hpre : ∀ f ∈ pre, f.2.rateLimited = false ∧ f.2.isTOS = false) :
    firstReaction (pre ++ (domain, err) :: post) = some (Reaction.rateLimited domain err) := by
  induction pre with
  | nil =>
    have : Contains err.msg "rateLimited" = true := herr
    simp [firstReaction, this]
  | cons f more ih =>
    obtain ⟨d, e⟩ := f
    have h := hpre (d, e) (List.mem_cons_self _ _)
    have h1 : Contains e.msg "rateLimited" = false := h.1
    have h2 : e.isTOS = false := h.2
    simp only [List.cons_append, firstReaction, h1, h2]
    simpa using ih (fun f hf => hpre f (List.mem_cons_of_mem _ hf))

theorem firstReaction_tos (failures : List (String × Failure))
    (hrate : ∀ f ∈ failures, f.2.rateLimited = false)
    (htos : ∃ f ∈ failures, f.2.isTOS = true) :
    ∃ domain err, (domain, err) ∈ failures ∧ err.isTOS = true ∧
      firstReaction failures = some (Reaction.tos domain err) := by
  induction failures with
  | nil => obtain ⟨f, hf, _⟩ := htos; cases hf
  | cons f more ih =>
    obtain ⟨d, e⟩ := f
    have h1 : Contains e.msg "rateLimited" = false := hrate (d, e) (List.mem_cons_self _ _)
    by_cases h2 : e.isTOS = true
    · exact ⟨d, e, List.mem_cons_self _ _, h2, by simp [firstReaction, h1, h2]⟩
    · have hmore : ∃ f ∈ more, f.2.isTOS = true := by
        obtain ⟨f, hf, hft⟩ := htos
        rcases List.mem_cons.mp hf with rfl | hf
        · exact absurd hft h2
        · exact ⟨f, hf, hft⟩
      obtain ⟨d', e', hmem, he', hre⟩ :=
        ih (fun f hf => hrate f (List.mem_cons_of_mem _ hf)) hmore
      exact ⟨d', e', List.mem_cons_of_mem _ hmem, he', by simp [firstReaction, h1, h2, hre]⟩

/-! ## One pass of the loop of `ObtainCerts` -/

theorem run_ret (env : Env) (fuel : Nat) (err : Option Error) (st : State) :
    run env fuel (Ctl.ret err, st) = (Ctl.ret err, st) := by
  induction fuel with
  | zero => rfl
  | succ n ih => simpa [run, step] using ih

theorem run_succ (env : Env) (fuel : Nat) (c : Ctl × State) :
    run env (fuel + 1) c = run env fuel (step env c) := rfl

theorem step_skipEmpty (env : Env) (rest : List (List String)) (st : State) :
    step env (Ctl.forLoop ([] :: rest), st) =
      (Ctl.forLoop rest, st.emit [Event.log LogLine.skipEmpty]) := by
  simp [step]

theorem step_existing (env : Env) (primary : String) (others : List String)
    (rest : List (List String)) (st : State)
    (hfound : existingCertAndKey env.Workspace st.fs primary = true) :
    step env (Ctl.Obtain primary others rest, st) =
      (Ctl.forLoop rest,
        st.emit [Event.existingCertAndKey primary true,
                 Event.log (LogLine.existing primary (primary :: others))]) := by
  simp [step, hfound, State.emit]

theorem step_rateLimited (env : Env) (primary : String) (others : List String)
    (rest : List (List String)) (st : State)
    (cert : CertificateResource) (failures : List (String × Failure))
    (domain : String) (err : Failure)
    (hfound : existingCertAndKey env.Workspace st.fs primary = false)
    (hans : env.ObtainCertificate st.obtained (primary :: others) = (cert, failures))
    (hre : firstReaction failures = some (Reaction.rateLimited domain err)) :
    step env (Ctl.Obtain primary others rest, st) =
      (Ctl.Obtain primary others rest,
        { fs := env.Sleep st.slept st.user.rateLimiter.BackOff.1.interval st.fs
          user := { st.user with rateLimiter := st.user.rateLimiter.BackOff.1 }
          trace := st.trace ++
            ([Event.existingCertAndKey primary false,
              Event.ObtainCertificate (primary :: others),
              Event.BackOff] ++ st.user.rateLimiter.BackOff.2.map Event.log ++
             [Event.log (LogLine.rateLimited domain err.msg st.user.rateLimiter.BackOff.1.interval),
              Event.Wait st.user.rateLimiter.BackOff.1.interval,
              Event.log (LogLine.retrying (primary :: others))])
          agreed := st.agreed
          obtained := st.obtained + 1
          slept := st.slept + 1 }) := by
  have hne : failures ≠ [] := by
    rintro rfl; simp [firstReaction] at hre
  have hlen : 0 < failures.length := List.length_pos.mpr hne
  simp [step, hfound, hans, hre, hlen, State.emit]

theorem step_tos_agreed (env : Env) (primary : String) (others : List String)
    (rest : List (List String)) (st : State)
    (cert : CertificateResource) (failures : List (String × Failure))
    (domain : String) (err : Failure)
    (hfound : existingCertAndKey env.Workspace st.fs primary = false)
    (hans : env.ObtainCertificate st.obtained (primary :: others) = (cert, failures))
    (hre : firstReaction failures = some (Reaction.tos domain err))
    (hagree : env.AgreeToTOS st.agreed = none) :
    step env (Ctl.Obtain primary others rest, st) =
      (Ctl.Obtain primary others rest,
        { st with
          trace := st.trace ++
            [Event.existingCertAndKey primary false,
             Event.ObtainCertificate (primary :: others),
             Event.log (LogLine.updatedTerms domain err.msg),
             Event.AgreeToTOS]
          agreed := st.agreed + 1
          obtained := st.obtained + 1 }) := by
  have hne : failures ≠ [] := by
    rintro rfl; simp [firstReaction] at hre
  have hlen : 0 < failures.length := List.length_pos.mpr hne
  simp [step, hfound, hans, hre, hlen, State.emit, hagree]

theorem step_tos_refused (env : Env) (primary : String) (others : List String)
    (rest : List (List String)) (st : State)
    (cert : CertificateResource) (failures : List (String × Failure))
    (domain : String) (err refusal : Failure)
    (hfound : existingCertAndKey env.Workspace st.fs primary = false)
    (hans : env.ObtainCertificate st.obtained (primary :: others) = (cert, failures))
    (hre : firstReaction failures = some (Reaction.tos domain err))
    (hagree : env.AgreeToTOS st.agreed = some refusal) :
    step env (Ctl.Obtain primary others rest, st) =
      (Ctl.ret (some (Error.errorf
          ("error agreeing to updated terms for " ++ domain ++ ": " ++ refusal.msg))),
        { st with
          trace := st.trace ++
            [Event.existingCertAndKey primary false,
             Event.ObtainCertificate (primary :: others),
             Event.log (LogLine.updatedTerms domain err.msg),
             Event.AgreeToTOS]
          agreed := st.agreed + 1
          obtained := st.obtained + 1 }) := by
  have hne : failures ≠ [] := by
    rintro rfl; simp [firstReaction] at hre
  have hlen : 0 < failures.length := List.length_pos.mpr hne
  simp [step, hfound, hans, hre, hlen, State.emit, hagree]

theorem step_obtainError (env : Env) (primary : String) (others : List String)
    (rest : List (List String)) (st : State)
    (cert : CertificateResource) (failures : List (String × Failure))
    (hfound : existingCertAndKey env.Workspace st.fs primary = false)
    (hans : env.ObtainCertificate st.obtained (primary :: others) = (cert, failures))
    (hne : failures ≠ [])
    (hre : firstReaction failures = none) :
    step env (Ctl.Obtain primary others rest, st) =
      (Ctl.ret (some (Error.ObtainError failures)),
        { st with
          trace := st.trace ++
            [Event.existingCertAndKey primary false,
             Event.ObtainCertificate (primary :: others)]
          obtained := st.obtained + 1 }) := by
  have hlen : 0 < failures.length := List.length_pos.mpr hne
  simp [step, hfound, hans, hre, hlen, State.emit]

theorem step_saved (env : Env) (primary : String) (others : List String)
    (rest : List (List String)) (st : State)
    (cert : CertificateResource) (fs : FS)
    (hfound : existingCertAndKey env.Workspace st.fs primary = false)
    (hans : env.ObtainCertificate st.obtained (primary :: others) = (cert, []))
    (hsave : saveCertResource env.Workspace st.fs cert = (none, fs)) :
    step env (Ctl.Obtain primary others rest, st) =
      (Ctl.forLoop rest,
        { st with
          fs := fs
          user := { st.user with rateLimiter := st.user.rateLimiter.Resume }
          trace := st.trace ++
            [Event.existingCertAndKey primary false,
             Event.ObtainCertificate (primary :: others),
             Event.saveCertResource cert,
             Event.Resume]
          obtained := st.obtained + 1 }) := by
  simp [step, hfound, hans, State.emit, hsave]

theorem step_save_failed (env : Env) (primary : String) (others : List String)
    (rest : List (List String)) (st : State)
    (cert : CertificateResource) (fs : FS) (err : Error)
    (hfound : existingCertAndKey env.Workspace st.fs primary = false)
    (hans : env.ObtainCertificate st.obtained (primary :: others) = (cert, []))
    (hsave : saveCertResource env.Workspace st.fs cert = (some err, fs)) :
    step env (Ctl.Obtain primary others rest, st) =
      (Ctl.ret (some (Error.errorf
          ("error saving assets for " ++ formatStrings (primary :: others) ++ ": " ++ err.Error))),
        { st with
          fs := fs
          trace := st.trace ++
            [Event.existingCertAndKey primary false,
             Event.ObtainCertificate (primary :: others),
             Event.saveCertResource cert]
          obtained := st.obtained + 1 }) := by
  simp [step, hfound, hans, State.emit, hsave]

theorem step_trace_guarded (env : Env) (c : Ctl) (st : State) :
    ∃ chunk, (step env (c, st)).2.trace = st.trace ++ chunk ∧ obtainsGuarded none chunk := by
  cases c with
  | ret err => exact ⟨[], by simp [step], trivial⟩
  | forLoop bundles =>
    match bundles with
    | [] => exact ⟨[], by simp [step], trivial⟩
    | [] :: rest =>
      exact ⟨[Event.log LogLine.skipEmpty], by simp [step, State.emit], trivial, trivial⟩
    | (p :: o) :: rest => exact ⟨[], by simp [step], trivial⟩
  | Obtain primary others rest =>
    have hcheck : guardedBy (some (Event.existingCertAndKey primary false))
        (Event.ObtainCertificate (primary :: others)) := ⟨primary, others, rfl, rfl⟩
    cases hfound : existingCertAndKey env.Workspace st.fs primary with
    | true =>
      rw [step_existing env primary others rest st hfound]
      exact ⟨_, rfl, trivial, trivial, trivial⟩
    | false =>
      rcases hans : env.ObtainCertificate st.obtained (primary :: others) with ⟨cert, failures⟩
      by_cases hne : failures = []
      · subst hne
        cases hsave : saveCertResource env.Workspace st.fs cert with
        | mk err fs =>
          cases err with
          | none =>
            rw [step_saved env primary others rest st cert fs hfound hans hsave]
            exact ⟨_, rfl, trivial, hcheck, trivial, trivial, trivial⟩
          | some err =>
            rw [step_save_failed env primary others rest st cert fs err hfound hans hsave]
            exact ⟨_, rfl, trivial, hcheck, trivial, trivial⟩
      · cases hre : firstReaction failures with
        | none =>
          rw [step_obtainError env primary others rest st cert failures hfound hans hne hre]
          exact ⟨_, rfl, trivial, hcheck, trivial⟩
        | some r =>
          cases r with
          | rateLimited domain err =>
            rw [step_rateLimited env primary others rest st cert failures domain err
              hfound hans hre]
            refine ⟨_, rfl, ?_⟩
            refine obtainsGuarded_append none _ _ (obtainsGuarded_append none _ _ ?_ ?_) ?_
            · exact ⟨trivial, hcheck, trivial, trivial⟩
            · exact obtainsGuarded_logs _ _
            · exact ⟨trivial, trivial, trivial, trivial⟩
          | tos domain err =>
            cases hagree : env.AgreeToTOS st.agreed with
            | none =>
              rw [step_tos_agreed env primary others rest st cert failures domain err
                hfound hans hre hagree]
              exact ⟨_, rfl, trivial, hcheck, trivial, trivial, trivial⟩
            | some refusal =>
              rw [step_tos_refused env primary others rest st cert failures domain err refusal
                hfound hans hre hagree]
              exact ⟨_, rfl, trivial, hcheck, trivial, trivial, trivial⟩

theorem run_trace_guarded (env : Env) (fuel : Nat) (c : Ctl) (st : State) :
    ∃ chunk, (run env fuel (c, st)).2.trace = st.trace ++ chunk ∧
      obtainsGuarded none chunk := by
  induction fuel generalizing c st with
  | zero => exact ⟨[], by simp [run], trivial⟩
  | succ n ih =>
    obtain ⟨chunk, h1, g1⟩ := step_trace_guarded env c st
    obtain ⟨chunk', h2, g2⟩ := ih (step env (c, st)).1 (step env (c, st)).2
    refine ⟨chunk ++ chunk', ?_, obtainsGuarded_append none _ _ g1 g2⟩
    rw [run_succ, h2, h1, List.append_assoc]

theorem newClient_trace_guarded (env : Env) (st : State) :
    ∃ chunk, (newClient env st).2.trace = st.trace ++ chunk ∧ obtainsGuarded none chunk := by
  unfold newClient
  simp only [State.emit]
  split
  · exact ⟨_, rfl, trivial, trivial⟩
  · split
    · exact ⟨_, rfl, trivial, trivial⟩
    · split
      · exact ⟨_, rfl, trivial, trivial⟩
      · split
        · exact ⟨[Event.NewClient env.ServerURL, Event.Register], by simp, trivial, trivial, trivial⟩
        · split
          · exact ⟨[Event.NewClient env.ServerURL, Event.Register, Event.AgreeToTOS], by simp,
              trivial, trivial, trivial, trivial⟩
          · split <;>
            exact ⟨[Event.NewClient env.ServerURL, Event.Register, Event.AgreeToTOS,
                Event.saveUser st.user.Email], by simp, trivial, trivial, trivial, trivial, trivial⟩

theorem ObtainCerts_trace_guarded (env : Env) (fuel : Nat) (st : State)
    (bundles : List (List String)) :
    ∃ chunk, (ObtainCerts env fuel st bundles).2.trace = st.trace ++ chunk ∧
      obtainsGuarded none chunk := by
  unfold ObtainCerts
  split
  · exact ⟨[], by simp, trivial⟩
  · obtain ⟨chunk, h1, g1⟩ := newClient_trace_guarded env st
    split
    · rename_i err st1 heq
      rw [heq] at h1
      exact ⟨chunk, h1, g1⟩
    · rename_i st1 heq
      rw [heq] at h1
      obtain ⟨chunk', h2, g2⟩ := run_trace_guarded env fuel (Ctl.forLoop bundles) st1
      refine ⟨chunk ++ chunk', ?_, obtainsGuarded_append none _ _ g1 g2⟩
      rw [h2, h1, List.append_assoc]

/-! ## `ObtainCerts`: skipping -/

theorem step_obtain_event (env : Env) (c : Ctl) (st : State) (domains : List String)
    (h : Event.ObtainCertificate domains ∈ (step env (c, st)).2.trace.drop st.trace.length) :
    ∃ primary others rest,
      c = Ctl.Obtain primary others rest ∧ domains = primary :: others ∧
      existingCertAndKey env.Workspace st.fs primary = false := by
  cases c with
  | ret err => simp [step] at h
  | forLoop bundles =>
    match bundles with
    | [] => simp [step] at h
    | [] :: rest => simp [step, State.emit] at h
    | (p :: o) :: rest => simp [step] at h
  | Obtain primary others rest =>
    cases hfound : existingCertAndKey env.Workspace st.fs primary with
    | true =>
      rw [step_existing env primary others rest st hfound] at h
      simp [State.emit] at h
    | false =>
      refine ⟨primary, others, rest, rfl, ?_, hfound⟩
      rcases hans : env.ObtainCertificate st.obtained (primary :: others) with ⟨cert, failures⟩
      by_cases hne : failures = []
      · subst hne
        cases hsave : saveCertResource env.Workspace st.fs cert with
        | mk err fs =>
          cases err with
          | none =>
            rw [step_saved env primary others rest st cert fs hfound hans hsave] at h
            simpa using h
          | some err =>
            rw [step_save_failed env primary others rest st cert fs err hfound hans hsave] at h
            simpa using h
      · cases hre : firstReaction failures with
        | none =>
          rw [step_obtainError env primary others rest st cert failures hfound hans hne hre] at h
          simpa using h
        | some r =>
          cases r with
          | rateLimited domain err =>
            rw [step_rateLimited env primary others rest st cert failures domain err
              hfound hans hre] at h
            simpa using h
          | tos domain err =>
            cases hagree : env.AgreeToTOS st.agreed with
            | none =>
              rw [step_tos_agreed env primary others rest st cert failures domain err
                hfound hans hre hagree] at h
              simpa using h
            | some refusal =>
              rw [step_tos_refused env primary others rest st cert failures domain err refusal
                hfound hans hre hagree] at h
              simpa using h

/-- C2: an empty bundle is skipped (a log line, no call, no error, on to the
next bundle); a bundle whose primary domain has a certificate and a key when it
is checked is skipped likewise, whatever its other domains; a pass calls the CA
client's obtain operation only from the label `Obtain` of a non-empty bundle
whose primary domain has no certificate and key in the store of that moment;
and in every run of `ObtainCerts` each such call comes right after a check of
the primary domain of its bundle that found nothing. -/
theorem ObtainCerts_skips (env : Env) :
    (∀ (rest : List (List String)) (st : State),
      step env (Ctl.forLoop ([] :: rest), st) =
        (Ctl.forLoop rest, st.emit [Event.log LogLine.skipEmpty])) ∧
    (∀ (primary : String) (others : List String) (rest : List (List String)) (st : State),
      existingCertAndKey env.Workspace st.fs primary = true →
      step env (Ctl.Obtain primary others rest, st) =
        (Ctl.forLoop rest,
          st.emit [Event.existingCertAndKey primary true,
                   Event.log (LogLine.existing primary (primary :: others))])) ∧
    (∀ (c : Ctl) (st : State) (domains : List String),
      Event.ObtainCertificate domains ∈ (step env (c, st)).2.trace.drop st.trace.length →
      ∃ primary others rest,
        c = Ctl.Obtain primary others rest ∧ domains = primary :: others ∧
        existingCertAndKey env.Workspace st.fs primary = false) ∧
    (∀ (fuel : Nat) (st : State) (bundles : List (List String))
        (pre : List Event) (domains : List String) (post : List Event),
      (ObtainCerts env fuel st bundles).2.trace =
        st.trace ++ (pre ++ Event.ObtainCertificate domains :: post) →
      ∃ primary others earlier, domains = primary :: others ∧
        pre = earlier ++ [Event.existingCertAndKey primary false]) := by
  refine ⟨step_skipEmpty env, step_existing env, step_obtain_event env, ?_⟩
  intro fuel st bundles pre domains post h
  obtain ⟨chunk, hchunk, hg⟩ := ObtainCerts_trace_guarded env fuel st bundles
  rw [hchunk] at h
  have hc := List.append_cancel_left h
  rw [hc] at hg
  obtain ⟨p, o, hd, hp⟩ := obtainsGuarded_split none pre domains post hg
  have hlast : pre.getLast? = some (Event.existingCertAndKey p false) := by
    simpa using hp
  obtain ⟨earlier, he⟩ := List.getLast?_eq_some_iff.mp hlast
  exact ⟨p, o, earlier, hd, he⟩

/-- Witness of C2: with `a.com` issued, the bundle `a.com, www.a.com` is skipped
and the loop goes on to the bundles after it. -/
theorem ObtainCerts_skips_witness :
    existingCertAndKey "./certs_data" sampleStore "a.com" = true ∧
    step (sampleEnv (sampleCert "b.com", [])) (Ctl.Obtain "a.com" ["www.a.com"] [[], ["b.com"]],
        sampleState sampleStore) =
      (Ctl.forLoop [[], ["b.com"]],
        (sampleState sampleStore).emit
          [Event.existingCertAndKey "a.com" true,
           Event.log (LogLine.existing "a.com" ["a.com", "www.a.com"])]) :=
  ⟨by decide,
   (ObtainCerts_skips (sampleEnv (sampleCert "b.com", []))).2.1 "a.com" ["www.a.com"]
     [[], ["b.com"]] (sampleState sampleStore) (by decide)⟩

/-! ## `ObtainCerts`: rate limits -/

set_option maxRecDepth 100000 in
/-- C3, as stated, fails: the CA answers with a terms-of-service failure for
`a.com` and a rate limit for `b.com`, visited in this order.  The pass agrees to
the terms and retries; `BackOff` and `Wait` are not called and the rate limiter
is as it was. -/
theorem ObtainCerts_rateLimited_counterexample :
    existingCertAndKey "./certs_data" FS.empty "a.com" = false ∧
    (∃ f ∈ [("a.com", tosFailure), ("b.com", rateLimitedFailure)], f.2.rateLimited = true) ∧
    (step (sampleEnv (sampleCert "a.com", [("a.com", tosFailure), ("b.com", rateLimitedFailure)]))
        (Ctl.Obtain "a.com" ["b.com"] [], sampleState FS.empty)).2.trace =
      [Event.existingCertAndKey "a.com" false,
       Event.ObtainCertificate ["a.com", "b.com"],
       Event.log (LogLine.updatedTerms "a.com" tosFailure.msg),
       Event.AgreeToTOS] ∧
    (step (sampleEnv (sampleCert "a.com", [("a.com", tosFailure), ("b.com", rateLimitedFailure)]))
        (Ctl.Obtain "a.com" ["b.com"] [], sampleState FS.empty)).2.user.rateLimiter =
      rateLimiter.zero := by
  refine ⟨by decide, ⟨("b.com", rateLimitedFailure), by simp, by decide⟩, ?_, ?_⟩ <;> decide

/-- C3, amended: when the first failure, in the order of the iteration, that is
a rate limit or a terms-of-service failure is a rate limit (no terms-of-service
failure is visited before it), the pass calls `BackOff` once, then `Wait` for
the new interval, and is back at the existence check of the same bundle, with
the same bundles left and no error. -/
theorem ObtainCerts_rateLimited (env : Env) (primary : String) (others : List String)
    (rest : List (List String)) (st : State)
    (cert : CertificateResource) (pre post : List (String × Failure))
    (domain : String) (err : Failure)
    (hfound : existingCertAndKey env.Workspace st.fs primary = false)
    (hans : env.ObtainCertificate st.obtained (primary :: others) =
      (cert, pre ++ (domain, err) :: post))
    (herr : err.rateLimited = true)
    (hpre : ∀ f ∈ pre, f.2.rateLimited = false ∧ f.2.isTOS = false) :
    step env (Ctl.Obtain primary others rest, st) =
      (Ctl.Obtain primary others rest,
        { fs := env.Sleep st.slept st.user.rateLimiter.BackOff.1.interval st.fs
          user := { st.user with rateLimiter := st.user.rateLimiter.BackOff.1 }
          trace := st.trace ++
            ([Event.existingCertAndKey primary false,
              Event.ObtainCertificate (primary :: others),
              Event.BackOff] ++ st.user.rateLimiter.BackOff.2.map Event.log ++
             [Event.log (LogLine.rateLimited domain err.msg st.user.rateLimiter.BackOff.1.interval),
              Event.Wait st.user.rateLimiter.BackOff.1.interval,
              Event.log (LogLine.retrying (primary :: others))])
          agreed := st.agreed
          obtained := st.obtained + 1
          slept := st.slept + 1 }) :=
  step_rateLimited env primary others rest st cert _ domain err hfound hans
    (firstReaction_rateLimited pre post domain err herr hpre)

set_option maxRecDepth 100000 in
/-- Witness of the amended C3: another failure for `a.com`, then a rate limit
for `b.com`. -/
theorem ObtainCerts_rateLimited_witness :
    (step (sampleEnv (sampleCert "a.com", [("a.com", otherFailure), ("b.com", rateLimitedFailure)]))
        (Ctl.Obtain "a.com" ["b.com"] [["c.com"]], sampleState FS.empty)).1 =
      Ctl.Obtain "a.com" ["b.com"] [["c.com"]] :=
  congrArg Prod.fst
    (ObtainCerts_rateLimited
      (sampleEnv (sampleCert "a.com", [("a.com", otherFailure), ("b.com", rateLimitedFailure)]))
      "a.com" ["b.com"] [["c.com"]] (sampleState FS.empty) (sampleCert "a.com")
      [("a.com", otherFailure)] [] "b.com" rateLimitedFailure
      (by decide) rfl (by decide) (by decide))

/-! ## `ObtainCerts`: failures that abort the run -/

theorem step_ObtainError_inv (env : Env) (c : Ctl) (st : State) (m : List (String × Failure))
    (h : (step env (c, st)).1 = Ctl.ret (some (Error.ObtainError m))) :
    c = Ctl.ret (some (Error.ObtainError m)) ∨
    ∃ primary others rest cert,
      c = Ctl.Obtain primary others rest ∧
      existingCertAndKey env.Workspace st.fs primary = false ∧
      env.ObtainCertificate st.obtained (primary :: others) = (cert, m) ∧
      m ≠ [] ∧ firstReaction m = none := by
  cases c with
  | ret err => left; simpa [step] using h
  | forLoop bundles =>
    match bundles with
    | [] => simp [step] at h
    | [] :: rest => simp [step] at h
    | (p :: o) :: rest => simp [step] at h
  | Obtain primary others rest =>
    right
    cases hfound : existingCertAndKey env.Workspace st.fs primary with
    | true => rw [step_existing env primary others rest st hfound] at h; cases h
    | false =>
      rcases hans : env.ObtainCertificate st.obtained (primary :: others) with ⟨cert, failures⟩
      by_cases hne : failures = []
      · subst hne
        cases hsave : saveCertResource env.Workspace st.fs cert with
        | mk err fs =>
          cases err with
          | none =>
            rw [step_saved env primary others rest st cert fs hfound hans hsave] at h; cases h
          | some err =>
            rw [step_save_failed env primary others rest st cert fs err hfound hans hsave] at h
            cases h
      · cases hre : firstReaction failures with
        | none =>
          rw [step_obtainError env primary others rest st cert failures hfound hans hne hre] at h
          have hm : failures = m := by
            simpa using h
          subst hm
          exact ⟨primary, others, rest, cert, rfl, hfound, hans, hne, hre⟩
        | some r =>
          cases r with
          | rateLimited domain err =>
            rw [step_rateLimited env primary others rest st cert failures domain err
              hfound hans hre] at h
            cases h
          | tos domain err =>
            cases hagree : env.AgreeToTOS st.agreed with
            | none =>
              rw [step_tos_agreed env primary others rest st cert failures domain err
                hfound hans hre hagree] at h
              cases h
            | some refusal =>
              rw [step_tos_refused env primary others rest st cert failures domain err refusal
                hfound hans hre hagree] at h
              cases h

theorem run_ObtainError_inv (env : Env) (fuel : Nat) (c : Ctl) (st : State)
    (m : List (String × Failure))
    (h : (run env fuel (c, st)).1 = Ctl.ret (some (Error.ObtainError m))) :
    c = Ctl.ret (some (Error.ObtainError m)) ∨
    ∃ earlier domains n,
      (run env fuel (c, st)).2.trace = earlier ++ [Event.ObtainCertificate domains] ∧
      (run env fuel (c, st)).2.obtained = n + 1 ∧
      (env.ObtainCertificate n domains).2 = m ∧
      m ≠ [] ∧ firstReaction m = none := by
  induction fuel generalizing c st with
  | zero => left; simpa [run] using h
  | succ k ih =>
    rw [run_succ] at h ⊢
    rcases hs : step env (c, st) with ⟨c1, st1⟩
    rw [hs] at h
    rcases ih c1 st1 h with hc1 | hlater
    · have hstep : (step env (c, st)).1 = Ctl.ret (some (Error.ObtainError m)) := by
        rw [hs]; exact hc1
      rcases step_ObtainError_inv env c st m hstep with hc | ⟨p, o, rest, cert, hc, hf, ha, hne, hre⟩
      · left; exact hc
      · right
        subst hc hc1
        rw [run_ret]
        rw [step_obtainError env p o rest st cert m hf ha hne hre] at hs
        have hst1 : st1 = { st with
            trace := st.trace ++
              [Event.existingCertAndKey p false, Event.ObtainCertificate (p :: o)]
            obtained := st.obtained + 1 } := by
          simpa using (congrArg Prod.snd hs).symm
        subst hst1
        exact ⟨st.trace ++ [Event.existingCertAndKey p false], p :: o, st.obtained,
          by simp, rfl, by rw [ha], hne, hre⟩
    · right; exact hlater

theorem newClient_not_ObtainError (env : Env) (st : State) (m : List (String × Failure)) :
    (newClient env st).1 ≠ some (Error.ObtainError m) := by
  unfold newClient
  simp only [State.emit]
  split
  · simp
  · split
    · simp
    · split
      · simp
      · split
        · simp
        · split
          · simp
          · split <;> simp

/-- C4: at the label `Obtain` of a bundle that is not stored yet, the pass
returns an `ObtainError` exactly when the CA client answered with a non-empty
failure map in which no failure is a rate limit and none a terms-of-service
failure; the error then is that whole map, nothing is saved and nothing further
happens in the run; and `ObtainCerts` returns an `ObtainError` in no other way:
the last thing it did then was the call to the CA client that answered with
that map. -/
theorem ObtainCerts_ObtainError (env : Env) :
    (∀ (primary : String) (others : List String) (rest : List (List String)) (st : State)
        (cert : CertificateResource) (failures : List (String × Failure)),
      existingCertAndKey env.Workspace st.fs primary = false →
      env.ObtainCertificate st.obtained (primary :: others) = (cert, failures) →
      ((∃ m, (step env (Ctl.Obtain primary others rest, st)).1 =
            Ctl.ret (some (Error.ObtainError m))) ↔
        (failures ≠ [] ∧ ∀ f ∈ failures, f.2.rateLimited = false ∧ f.2.isTOS = false))) ∧
    (∀ (primary : String) (others : List String) (rest : List (List String)) (st : State)
        (cert : CertificateResource) (failures : List (String × Failure)) (fuel : Nat),
      existingCertAndKey env.Workspace st.fs primary = false →
      env.ObtainCertificate st.obtained (primary :: others) = (cert, failures) →
      failures ≠ [] →
      (∀ f ∈ failures, f.2.rateLimited = false ∧ f.2.isTOS = false) →
      run env (fuel + 1) (Ctl.Obtain primary others rest, st) =
        (Ctl.ret (some (Error.ObtainError failures)),
          { st with
            trace := st.trace ++
              [Event.existingCertAndKey primary false,
               Event.ObtainCertificate (primary :: others)]
            obtained := st.obtained + 1 })) ∧
    (∀ (fuel : Nat) (st : State) (bundles : List (List String)) (m : List (String × Failure)),
      (ObtainCerts env fuel st bundles).1 = Ctl.ret (some (Error.ObtainError m)) →
      ∃ earlier domains n,
        (ObtainCerts env fuel st bundles).2.trace =
          earlier ++ [Event.ObtainCertificate domains] ∧
        (ObtainCerts env fuel st bundles).2.obtained = n + 1 ∧
        (env.ObtainCertificate n domains).2 = m ∧
        m ≠ [] ∧ ∀ f ∈ m, f.2.rateLimited = false ∧ f.2.isTOS = false) := by
  refine ⟨?_, ?_, ?_⟩
  · intro primary others rest st cert failures hfound hans
    constructor
    · rintro ⟨m, hm⟩
      rcases step_ObtainError_inv env _ st m hm with hc | ⟨p, o, r, cert', hc, _, ha, hne, hre⟩
      · cases hc
      · cases hc
        rw [hans] at ha
        have hfm : failures = m := by
          simpa using congrArg Prod.snd ha
        subst hfm
        exact ⟨hne, (firstReaction_eq_none_iff _).mp hre⟩
    · rintro ⟨hne, hall⟩
      exact ⟨failures, by
        rw [step_obtainError env primary others rest st cert failures hfound hans hne
          ((firstReaction_eq_none_iff _).mpr hall)]⟩
  · intro primary others rest st cert failures fuel hfound hans hne hall
    rw [run_succ, step_obtainError env primary others rest st cert failures hfound hans hne
      ((firstReaction_eq_none_iff _).mpr hall), run_ret]
  · intro fuel st bundles m h
    unfold ObtainCerts at h ⊢
    split at h
    · cases h
    · rename_i hurl
      simp only [hurl, if_false]
      rcases hnc : newClient env st with ⟨err, st1⟩
      rw [hnc] at h
      cases err with
      | some err =>
        simp only at h
        have := newClient_not_ObtainError env st m
        rw [hnc] at this
        simp only [Ctl.ret.injEq] at h
        exact absurd h this
      | none =>
        simp only at h ⊢
        rcases run_ObtainError_inv env fuel _ st1 m h with hc | ⟨earlier, domains, n, h1, h2, h3, h4, h5⟩
        · cases hc
        · exact ⟨earlier, domains, n, h1, h2, h3, h4, (firstReaction_eq_none_iff _).mp h5⟩

set_option maxRecDepth 100000 in
/-- Witness of C4: two failures of another kind abort the run with both of
them, and the file system is as it was. -/
theorem ObtainCerts_ObtainError_witness :
    run (sampleEnv (sampleCert "a.com", [("a.com", otherFailure), ("b.com", otherFailure)])) 3
        (Ctl.Obtain "a.com" ["b.com"] [["c.com"]], sampleState FS.empty) =
      (Ctl.ret (some (Error.ObtainError [("a.com", otherFailure), ("b.com", otherFailure)])),
        { sampleState FS.empty with
          trace := (sampleState FS.empty).trace ++
            [Event.existingCertAndKey "a.com" false,
             Event.ObtainCertificate ["a.com", "b.com"]]
          obtained := (sampleState FS.empty).obtained + 1 }) :=
  (ObtainCerts_ObtainError
      (sampleEnv (sampleCert "a.com", [("a.com", otherFailure), ("b.com", otherFailure)]))).2.1
    "a.com" ["b.com"] [["c.com"]] (sampleState FS.empty) (sampleCert "a.com")
    [("a.com", otherFailure), ("b.com", otherFailure)] 2
    (by decide) rfl (by decide) (by decide)

/-! ## `ObtainCerts`: outdated terms -/

/-- C5: when the failures hold a terms-of-service failure and no rate limit, the
pass calls `AgreeToTOS` once; if that succeeds it is back at the existence check
of the same bundle, the user (and so the rate limiter) and the file system as
they were; if it fails the run returns an error there and then, nothing having
been saved. -/
theorem ObtainCerts_termsOutdated (env : Env) (primary : String) (others : List String)
    (rest : List (List String)) (st : State)
    (cert : CertificateResource) (failures : List (String × Failure))
    (hfound : existingCertAndKey env.Workspace st.fs primary = false)
    (hans : env.ObtainCertificate st.obtained (primary :: others) = (cert, failures))
    (hrate : ∀ f ∈ failures, f.2.rateLimited = false)
    (htos : ∃ f ∈ failures, f.2.isTOS = true) :
    ∃ domain err, (domain, err) ∈ failures ∧ err.isTOS = true ∧
      (env.AgreeToTOS st.agreed = none →
        step env (Ctl.Obtain primary others rest, st) =
          (Ctl.Obtain primary others rest,
            { st with
              trace := st.trace ++
                [Event.existingCertAndKey primary false,
                 Event.ObtainCertificate (primary :: others),
                 Event.log (LogLine.updatedTerms domain err.msg),
                 Event.AgreeToTOS]
              agreed := st.agreed + 1
              obtained := st.obtained + 1 })) ∧
      (∀ (refusal : Failure) (fuel : Nat), env.AgreeToTOS st.agreed = some refusal →
        run env (fuel + 1) (Ctl.Obtain primary others rest, st) =
          (Ctl.ret (some (Error.errorf
              ("error agreeing to updated terms for " ++ domain ++ ": " ++ refusal.msg))),
            { st with
              trace := st.trace ++
                [Event.existingCertAndKey primary false,
                 Event.ObtainCertificate (primary :: others),
                 Event.log (LogLine.updatedTerms domain err.msg),
                 Event.AgreeToTOS]
              agreed := st.agreed + 1
              obtained := st.obtained + 1 })) := by
  obtain ⟨domain, err, hmem, herr, hre⟩ := firstReaction_tos failures hrate htos
  refine ⟨domain, err, hmem, herr, ?_, ?_⟩
  · intro hagree
    exact step_tos_agreed env primary others rest st cert failures domain err hfound hans hre
      hagree
  · intro refusal fuel hagree
    rw [run_succ, step_tos_refused env primary others rest st cert failures domain err refusal
      hfound hans hre hagree, run_ret]

set_option maxRecDepth 100000 in
/-- Witness of C5: a failure of another kind for `a.com` and outdated terms for
`b.com`. -/
theorem ObtainCerts_termsOutdated_witness :
    ∃ domain err, (domain, err) ∈ [("a.com", otherFailure), ("b.com", tosFailure)] ∧
      err.isTOS = true ∧
      step (sampleEnv (sampleCert "a.com", [("a.com", otherFailure), ("b.com", tosFailure)]))
          (Ctl.Obtain "a.com" ["b.com"] [], sampleState FS.empty) =
        (Ctl.Obtain "a.com" ["b.com"] [],
          { sampleState FS.empty with
            trace := (sampleState FS.empty).trace ++
              [Event.existingCertAndKey "a.com" false,
               Event.ObtainCertificate ["a.com", "b.com"],
               Event.log (LogLine.updatedTerms domain err.msg),
               Event.AgreeToTOS]
            agreed := (sampleState FS.empty).agreed + 1
            obtained := (sampleState FS.empty).obtained + 1 }) := by
  obtain ⟨domain, err, hmem, herr, hok, _⟩ :=
    ObtainCerts_termsOutdated
      (sampleEnv (sampleCert "a.com", [("a.com", otherFailure), ("b.com", tosFailure)]))
      "a.com" ["b.com"] [] (sampleState FS.empty) (sampleCert "a.com")
      [("a.com", otherFailure), ("b.com", tosFailure)]
      (by decide) rfl (by decide) ⟨("b.com", tosFailure), by simp, rfl⟩
  exact ⟨domain, err, hmem, herr, hok rfl⟩

/-! ## `ObtainCerts`: success -/

/-! ## `ObtainCerts`: configuration -/

/-- C7: with an empty `ServerURL`, `ObtainCerts` returns an error and the state
is untouched: no event at all (no client made, no call to register, agree or
obtain), the same file system, the same user. -/
theorem ObtainCerts_no_ServerURL (env : Env) (fuel : Nat) (st : State)
    (bundles : List (List String)) (h : env.ServerURL = "") :
    ObtainCerts env fuel st bundles =
      (Ctl.ret (some (Error.errorf "must set ServerURL before obtaining certificates")), st) := by
  simp [ObtainCerts, h]

/-- Witness of C7. -/
theorem ObtainCerts_no_ServerURL_witness :
    ObtainCerts { sampleEnv (sampleCert "a.com", []) with ServerURL := "" } 5
        (sampleState FS.empty) [["a.com"]] =
      (Ctl.ret (some (Error.errorf "must set ServerURL before obtaining certificates")),
        sampleState FS.empty) :=
  ObtainCerts_no_ServerURL { sampleEnv (sampleCert "a.com", []) with ServerURL := "" } 5
    (sampleState FS.empty) [["a.com"]] rfl

/-! ## `newClient` -/

theorem newClient_failed_NewClient (env : Env) (st : State) (err : Failure)
    (hclient : env.NewClient = some err) :
    newClient env st =
      (some (Error.errorf ("creating ACME client: " ++ err.msg)),
        st.emit [Event.NewClient env.ServerURL]) := by
  simp [newClient, hclient]

theorem newClient_not_agreed (env : Env) (st : State)
    (hclient : env.NewClient = none) (hreg : st.user.Registration = none)
    (hagree : env.Agree = false) :
    newClient env st =
      (some (Error.errorf ("cannot register user '" ++ st.user.Email ++ "' without --agree")),
        st.emit [Event.NewClient env.ServerURL]) := by
  simp [newClient, State.emit, hclient, hreg, hagree]

theorem newClient_registered (env : Env) (st : State) (reg : RegistrationResource)
    (hclient : env.NewClient = none) (hreg : st.user.Registration = some reg) :
    newClient env st = (none, st.emit [Event.NewClient env.ServerURL]) := by
  simp [newClient, State.emit, hclient, hreg]

set_option maxRecDepth 100000 in
/-- C8, as stated, fails: the user is not registered and `Agree` is false, but
`acme.NewClient` fails first, and the error of `newClient` does not name the
user. -/
theorem newClient_without_agree_counterexample :
    sampleUser.Registration = none ∧
    (newClient { sampleEnv (sampleCert "a.com", []) with
        Agree := false, NewClient := some otherFailure } (sampleState FS.empty)).1 =
      some (Error.errorf ("creating ACME client: " ++ otherFailure.msg)) ∧
    Contains ("creating ACME client: " ++ otherFailure.msg) sampleUser.Email = false := by
  refine ⟨rfl, ?_, by decide⟩
  rw [newClient_failed_NewClient _ _ otherFailure rfl]

/-- C8, amended: for a user without registration and with `Agree` false,
`newClient` fails having made no call but `acme.NewClient`, the user and the
file system as they were; when `acme.NewClient` itself succeeded, the message of
the error contains the user's email, and `ObtainCerts` (with a `ServerURL`)
returns that error.  For a registered user `newClient` makes no call but
`acme.NewClient` either, whatever `Agree` is. -/
theorem newClient_without_agree (env : Env) (st : State) :
    (st.user.Registration = none → env.Agree = false →
      (∃ err, newClient env st = (some err, st.emit [Event.NewClient env.ServerURL])) ∧
      (env.NewClient = none →
        ∃ before after,
          newClient env st =
            (some (Error.errorf (before ++ st.user.Email ++ after)),
              st.emit [Event.NewClient env.ServerURL]) ∧
          (env.ServerURL ≠ "" → ∀ fuel bundles,
            ObtainCerts env fuel st bundles =
              (Ctl.ret (some (Error.errorf (before ++ st.user.Email ++ after))),
                st.emit [Event.NewClient env.ServerURL])))) ∧
    (∀ reg, st.user.Registration = some reg →
      ∃ err, newClient env st = (err, st.emit [Event.NewClient env.ServerURL])) := by
  refine ⟨?_, ?_⟩
  · intro hreg hagree
    refine ⟨?_, ?_⟩
    · cases hclient : env.NewClient with
      | some err => exact ⟨_, newClient_failed_NewClient env st err hclient⟩
      | none => exact ⟨_, newClient_not_agreed env st hclient hreg hagree⟩
    · intro hclient
      have h := newClient_not_agreed env st hclient hreg hagree
      refine ⟨"cannot register user '", "' without --agree", h, ?_⟩
      intro hurl fuel bundles
      simp [ObtainCerts, hurl, h]
  · intro reg hreg
    cases hclient : env.NewClient with
    | some err => exact ⟨_, newClient_failed_NewClient env st err hclient⟩
    | none => exact ⟨_, newClient_registered env st reg hclient hreg⟩

/-- Witness of the amended C8: the unregistered sample user, without `--agree`. -/
theorem newClient_without_agree_witness :
    ∃ before after,
      newClient { sampleEnv (sampleCert "a.com", []) with Agree := false }
          (sampleState FS.empty) =
        (some (Error.errorf (before ++ "me@mine.com" ++ after)),
          (sampleState FS.empty).emit
            [Event.NewClient "https://acme-staging.api.letsencrypt.org/directory"]) := by
  obtain ⟨before, after, h, _⟩ :=
    ((newClient_without_agree { sampleEnv (sampleCert "a.com", []) with Agree := false }
      (sampleState FS.empty)).1 rfl rfl).2 rfl
  exact ⟨before, after, h⟩

/-! ## Paths -/

theorem splitSlash_ext (ext : List Char) (hext : '/' ∉ ext) : splitSlash ext = [ext] := by
  induction ext with
  | nil => rfl
  | cons c cs ih =>
    have hc : c ≠ '/' := fun h => hext (h ▸ List.mem_cons_self _ _)
    have hcs : '/' ∉ cs := fun h => hext (List.mem_cons_of_mem _ h)
    simp [splitSlash, hc, ih hcs]

theorem splitSlash_append_ext (q ext : List Char) (hext : '/' ∉ ext) :
    ∃ init last, splitSlash (q ++ ext) = init ++ [last ++ ext] := by
  induction q with
  | nil => exact ⟨[], [], by simpa using splitSlash_ext ext hext⟩
  | cons c cs ih =>
    obtain ⟨init, last, h⟩ := ih
    by_cases hc : c = '/'
    · exact ⟨[] :: init, last, by simp [splitSlash, hc, h]⟩
    · cases init with
      | nil => exact ⟨[], c :: last, by simp [splitSlash, hc, h]⟩
      | cons e es => exact ⟨(c :: e) :: es, last, by simp [splitSlash, hc, h]⟩

theorem cleanElems_last (rooted : Bool) (out init : List (List Char)) (l : List Char)
    (h0 : l ≠ []) (h1 : l ≠ ['.']) (h2 : l ≠ ['.', '.']) :
    ∃ below, cleanElems rooted out (init ++ [l]) = l :: below := by
  induction init generalizing out with
  | nil => exact ⟨out, by simp [cleanElems, h0, h1, h2]⟩
  | cons e es ih =>
    simp only [List.cons_append, cleanElems]
    split
    · exact ih _
    · split
      · split
        · split
          · split
            · exact ih _
            · exact ih _
          · exact ih _
        · split
          · exact ih _
          · exact ih _
      · exact ih _

theorem intercalate_append_singleton (sep : List Char) (xs : List (List Char)) (l : List Char) :
    l <:+ List.intercalate sep (xs ++ [l]) := by
  induction xs with
  | nil => simp [List.intercalate]
  | cons x xs ih =>
    cases hxs : xs ++ [l] with
    | nil => simp at hxs
    | cons y ys =>
      rw [hxs] at ih
      simp only [List.cons_append, hxs]
      simp only [List.intercalate, List.intersperse, List.flatten_cons] at ih ⊢
      exact (ih.trans (List.suffix_append _ _)).trans (List.suffix_append _ _)


theorem Clean_suffix (q ext : List Char) (hext : '/' ∉ ext) (hlen : 3 ≤ ext.length) :
    ext <:+ (Clean ⟨q ++ ext⟩).data := by
  obtain ⟨init, last, hsplit⟩ := splitSlash_append_ext q ext hext
  have hne : (⟨q ++ ext⟩ : String) ≠ "" := by
    intro h
    have := congrArg (fun s : String => s.data.length) h
    have h0 : ("" : String).data.length = 0 := rfl
    simp only [List.length_append, h0] at this
    omega
  have hl0 : last ++ ext ≠ [] := by
    intro h; have := congrArg List.length h
    simp only [List.length_append, List.length_nil] at this; omega
  have hl1 : last ++ ext ≠ ['.'] := by
    intro h; have := congrArg List.length h
    simp only [List.length_append, List.length_cons, List.length_nil] at this; omega
  have hl2 : last ++ ext ≠ ['.', '.'] := by
    intro h; have := congrArg List.length h
    simp only [List.length_append, List.length_cons, List.length_nil] at this; omega
  have hsuf : ∀ rooted, ext <:+ List.intercalate ['/']
      (cleanElems rooted [] (splitSlash (q ++ ext))).reverse := by
    intro rooted
    obtain ⟨below, hb⟩ := cleanElems_last rooted [] init (last ++ ext) hl0 hl1 hl2
    rw [hsplit, hb, List.reverse_cons]
    exact (List.suffix_append last ext).trans (intercalate_append_singleton _ _ _)
  unfold Clean
  simp only [hne, if_false]
  split
  · exact (hsuf _).trans (List.suffix_cons _ _)
  · split
    · rename_i hbody
      have := hsuf (decide ((q ++ ext).head? = some '/'))
      rw [hbody] at this
      have := List.IsSuffix.length_le this
      simp only [List.length_nil] at this
      omega
    · exact hsuf _

theorem Join_suffix (a b ext : String) (hext : '/' ∉ ext.data) (hlen : 3 ≤ ext.length) :
    ext.data <:+ (Join [a, b ++ ext]).data := by
  have hne : b ++ ext ≠ "" := by
    intro h
    have := congrArg (fun s : String => s.data.length) h
    have h0 : ("" : String).data.length = 0 := rfl
    simp only [String.data_append, List.length_append, h0] at this
    have hl : ext.length = ext.data.length := rfl
    omega
  by_cases ha : a = ""
  · subst ha
    have : Join ["", b ++ ext] = Clean ⟨b.data ++ ext.data⟩ := by
      simp [Join, hne, stringsJoin, List.intercalate]
    rw [this]
    exact Clean_suffix _ _ hext hlen
  · have : Join [a, b ++ ext] = Clean ⟨(a.data ++ '/' :: b.data) ++ ext.data⟩ := by
      simp [Join, ha, stringsJoin, List.intercalate]
    rw [this]
    exact Clean_suffix _ _ hext hlen

theorem suffix_ne (p : List Char) (e1 e2 : List Char) (h1 : e1 <:+ p) (h2 : e2 <:+ p)
    (hle : e1.length ≤ e2.length) (hne : ¬ e1 <:+ e2) : False :=
  hne (List.suffix_of_suffix_length_le h1 h2 hle)

theorem SiteCertFile_ne_SiteKeyFile (s : Storage) (domain : String) :
    Storage.SiteCertFile s domain ≠ Storage.SiteKeyFile s domain := by
  intro h
  have h1 := Join_suffix (Storage.Site s domain) (ToLower domain) ".crt" (by decide) (by decide)
  have h2 := Join_suffix (Storage.Site s domain) (ToLower domain) ".key" (by decide) (by decide)
  unfold Storage.SiteCertFile Storage.SiteKeyFile at h
  rw [h] at h1
  exact suffix_ne _ _ _ h1 h2 (by decide) (by decide)

theorem SiteCertFile_ne_SiteMetaFile (s : Storage) (domain : String) :
    Storage.SiteCertFile s domain ≠ Storage.SiteMetaFile s domain := by
  intro h
  have h1 := Join_suffix (Storage.Site s domain) (ToLower domain) ".crt" (by decide) (by decide)
  have h2 := Join_suffix (Storage.Site s domain) (ToLower domain) ".json" (by decide) (by decide)
  unfold Storage.SiteCertFile Storage.SiteMetaFile at h
  rw [h] at h1
  exact suffix_ne _ _ _ h1 h2 (by decide) (by decide)

theorem SiteKeyFile_ne_SiteMetaFile (s : Storage) (domain : String) :
    Storage.SiteKeyFile s domain ≠ Storage.SiteMetaFile s domain := by
  intro h
  have h1 := Join_suffix (Storage.Site s domain) (ToLower domain) ".key" (by decide) (by decide)
  have h2 := Join_suffix (Storage.Site s domain) (ToLower domain) ".json" (by decide) (by decide)
  unfold Storage.SiteKeyFile Storage.SiteMetaFile at h
  rw [h] at h1
  exact suffix_ne _ _ _ h1 h2 (by decide) (by decide)

/-! ## JSON strings -/

theorem hexValue_hexDigit (k : Nat) (hk : k < 16) : hexValue (hexDigit k) = some k := by
  interval_cases k <;> decide



theorem unquote_cons (acc : List Char) (c : Char) (rest : List Char) :
    jsonUnquoteBody acc (c :: rest) =
    if c = '"' then some (acc.reverse, rest)
    else if c = '\\' then
      match rest with
      | [] => none
      | e :: rest =>
        if e = 'u' then
          match rest with
          | a :: b :: c :: d :: rest =>
            match hexValue a, hexValue b, hexValue c, hexValue d with
            | some a, some b, some c, some d =>
              let n := ((a * 16 + b) * 16 + c) * 16 + d
              if 0xD800 ≤ n ∧ n ≤ 0xDFFF then none
              else jsonUnquoteBody (Char.ofNat n :: acc) rest
            | _, _, _, _ => none
          | _ => none
        else if e = '"' ∨ e = '\\' ∨ e = '/' then jsonUnquoteBody (e :: acc) rest
        else if e = 'b' then jsonUnquoteBody (Char.ofNat 8 :: acc) rest
        else if e = 'f' then jsonUnquoteBody (Char.ofNat 12 :: acc) rest
        else if e = 'n' then jsonUnquoteBody ('\n' :: acc) rest
        else if e = 'r' then jsonUnquoteBody ('\r' :: acc) rest
        else if e = 't' then jsonUnquoteBody ('\t' :: acc) rest
        else none
    else if c.toNat < 0x20 then none
    else jsonUnquoteBody (c :: acc) rest := by
  conv_lhs => rw [jsonUnquoteBody.eq_def]


theorem unquote_u00 (n : Nat) (hn : n < 128) (acc tail : List Char) :
    jsonUnquoteBody acc
        ('\\' :: 'u' :: '0' :: '0' :: hexDigit (n / 16) :: hexDigit (n % 16) :: tail) =
      jsonUnquoteBody (Char.ofNat n :: acc) tail := by
  have h0 : hexValue '0' = some 0 := by decide
  have h1 : hexValue (hexDigit (n / 16)) = some (n / 16) := hexValue_hexDigit _ (by omega)
  have h2 : hexValue (hexDigit (n % 16)) = some (n % 16) := hexValue_hexDigit _ (by omega)
  have hn' : ((0 * 16 + 0) * 16 + n / 16) * 16 + n % 16 = n := by omega
  rw [unquote_cons]
  simp only [show ('\\' : Char) ≠ '"' by decide, if_false, if_true, h0, h1, h2, hn']
  have hs : ¬ (0xD800 ≤ n ∧ n ≤ 0xDFFF) := by omega
  simp [hs]

theorem unquote_u202 (d : Nat) (hd : d = 8 ∨ d = 9) (acc tail : List Char) :
    jsonUnquoteBody acc ('\\' :: 'u' :: '2' :: '0' :: '2' :: Char.ofNat (48 + d) :: tail) =
      jsonUnquoteBody (Char.ofNat (0x2020 + d) :: acc) tail := by
  rw [unquote_cons]
  rcases hd with rfl | rfl <;>
  simp [show hexValue '2' = some 2 by decide, show hexValue '0' = some 0 by decide,
    show hexValue (Char.ofNat 56) = some 8 by decide,
    show hexValue (Char.ofNat 57) = some 9 by decide]

theorem unquote_escape (c : Char) (acc tail : List Char) :
    jsonUnquoteBody acc (jsonEscape c ++ tail) = jsonUnquoteBody (c :: acc) tail := by
  unfold jsonEscape
  split
  · subst_vars; simp [unquote_cons]
  · split
    · subst_vars; simp [unquote_cons]
    · split
      · subst_vars; simp [unquote_cons]
      · split
        · subst_vars; simp [unquote_cons]
        · split
          · subst_vars; simp [unquote_cons]
          · split
            · rename_i h
              have hn : c.toNat < 128 := by
                rcases h with h | rfl | rfl | rfl
                · omega
                · decide
                · decide
                · decide
              have := unquote_u00 c.toNat hn acc tail
              rw [Char.ofNat_toNat] at this
              simpa using this
            · split
              · rename_i h
                have hc : c = Char.ofNat (0x2020 + 8) := by
                  rw [← Char.ofNat_toNat c, h]
                rw [hc]
                exact unquote_u202 8 (Or.inl rfl) acc tail
              · split
                · rename_i h
                  have hc : c = Char.ofNat (0x2020 + 9) := by
                    rw [← Char.ofNat_toNat c, h]
                  rw [hc]
                  exact unquote_u202 9 (Or.inr rfl) acc tail
                · rename_i h1 h2 h3 h4 h5 h6 h7 h8
                  have : ¬ c.toNat < 32 := fun h => h6 (Or.inl h)
                  simp [unquote_cons, h1, h2, this]

theorem unquote_flatMap (s : List Char) (acc rest : List Char) :
    jsonUnquoteBody acc (s.flatMap jsonEscape ++ '"' :: rest) = some (acc.reverse ++ s, rest) := by
  induction s generalizing acc with
  | nil => simp [unquote_cons]
  | cons c cs ih =>
    rw [List.flatMap_cons, List.append_assoc, unquote_escape, ih]
    simp

/-! ## JSON objects -/

theorem jsonString_quote (s : String) (rest : List Char) :
    jsonString (jsonQuote s ++ rest) = some (s, rest) := by
  simp [jsonString, jsonQuote, skipSpace, unquote_flatMap]

theorem jsonString_space (c : Char) (input : List Char)
    (hc : c = ' ' ∨ c = '\t' ∨ c = '\n' ∨ c = '\r') :
    jsonString (c :: input) = jsonString input := by
  simp [jsonString, skipSpace, hc]

theorem jsonMembers_more (fuel : Nat) (key value : String) (rest : List Char) :
    jsonMembers (fuel + 1)
        ('\n' :: '\t' :: (jsonQuote key ++ [':', ' '] ++ jsonQuote value ++ ',' :: rest)) =
      (jsonMembers fuel rest).map (fun more => (key, value) :: more) := by
  have h1 : jsonString ('\n' :: '\t' :: (jsonQuote key ++ [':', ' '] ++ jsonQuote value ++
      ',' :: rest)) = some (key, [':', ' '] ++ jsonQuote value ++ ',' :: rest) := by
    rw [jsonString_space _ _ (by simp), jsonString_space _ _ (by simp)]
    simpa using jsonString_quote key ([':', ' '] ++ jsonQuote value ++ ',' :: rest)
  have h2 : jsonString (' ' :: (jsonQuote value ++ ',' :: rest)) = some (value, ',' :: rest) := by
    rw [jsonString_space _ _ (by simp)]
    exact jsonString_quote value _
  rw [jsonMembers, h1]
  simp [skipSpace, h2]
  cases jsonMembers fuel rest <;> rfl

theorem jsonMembers_last (fuel : Nat) (key value : String) :
    jsonMembers (fuel + 1)
        ('\n' :: '\t' :: (jsonQuote key ++ [':', ' '] ++ jsonQuote value ++ ['\n', '}'])) =
      some [(key, value)] := by
  have h1 : jsonString ('\n' :: '\t' :: (jsonQuote key ++ [':', ' '] ++ jsonQuote value ++
      ['\n', '}'])) = some (key, [':', ' '] ++ jsonQuote value ++ ['\n', '}']) := by
    rw [jsonString_space _ _ (by simp), jsonString_space _ _ (by simp)]
    simpa using jsonString_quote key ([':', ' '] ++ jsonQuote value ++ ['\n', '}'])
  have h2 : jsonString (' ' :: (jsonQuote value ++ ['\n', '}'])) = some (value, ['\n', '}']) := by
    rw [jsonString_space _ _ (by simp)]
    exact jsonString_quote value _
  rw [jsonMembers, h1]
  simp [skipSpace, h2]

theorem jsonObject_members (rest body : List Char) (h : skipSpace rest = '"' :: body) :
    jsonObject ('{' :: rest) = jsonMembers (rest.length + 1) rest := by
  have h0 : skipSpace ('{' :: rest) = '{' :: rest := by simp [skipSpace]
  unfold jsonObject
  rw [h0]
  simp only [h, List.length_cons]
  split
  · rename_i heq
    simp at heq
  · rfl

theorem jsonObject_three (k1 v1 k2 v2 k3 v3 : String) :
    jsonObject (marshalIndentObject
        [(k1, jsonQuote v1), (k2, jsonQuote v2), (k3, jsonQuote v3)]) =
      some [(k1, v1), (k2, v2), (k3, v3)] := by
  have hdoc : marshalIndentObject [(k1, jsonQuote v1), (k2, jsonQuote v2), (k3, jsonQuote v3)] =
      '{' :: '\n' :: '\t' :: (jsonQuote k1 ++ [':', ' '] ++ jsonQuote v1 ++
        ',' :: '\n' :: '\t' :: (jsonQuote k2 ++ [':', ' '] ++ jsonQuote v2 ++
        ',' :: '\n' :: '\t' :: (jsonQuote k3 ++ [':', ' '] ++ jsonQuote v3 ++ ['\n', '}']))) := by
    simp [marshalIndentObject, List.intercalate]
  rw [hdoc]
  have hskip : ∀ more : List Char, ∃ body,
      skipSpace ('\n' :: '\t' :: (jsonQuote k1 ++ more)) = '"' :: body := by
    intro more
    exact ⟨k1.data.flatMap jsonEscape ++ '"' :: more, by simp [skipSpace, jsonQuote]⟩
  obtain ⟨body, hbody⟩ := hskip ([':', ' '] ++ jsonQuote v1 ++
        ',' :: '\n' :: '\t' :: (jsonQuote k2 ++ [':', ' '] ++ jsonQuote v2 ++
        ',' :: '\n' :: '\t' :: (jsonQuote k3 ++ [':', ' '] ++ jsonQuote v3 ++ ['\n', '}'])))
  rw [jsonObject_members _ body (by simpa using hbody)]
  simp only [List.length_cons]
  rw [jsonMembers_more, jsonMembers_more, jsonMembers_last]
  rfl

theorem Unmarshal_MarshalIndent (cert : CertificateResource) :
    CertificateResource.Unmarshal cert.MarshalIndent =
      some { cert with PrivateKey := [], Certificate := [] } := by
  rw [CertificateResource.Unmarshal, CertificateResource.MarshalIndent, jsonObject_three]
  simp [jsonField]

/-! ## The file system -/

theorem lookup_set_same (fs : FS) (path : String) (n : Node) (h : implicitDir path = false) :
    (fs.set path n).lookup path = some n := by
  simp [FS.lookup, FS.set, h]

theorem lookup_set_other (fs : FS) (path q : String) (n : Node) (h : q ≠ path) :
    (fs.set path n).lookup q = fs.lookup q := by
  simp [FS.lookup, FS.set, h]

theorem set_set (fs : FS) (path : String) (n1 n2 : Node) :
    (fs.set path n1).set path n2 = fs.set path n2 := by
  simp only [FS.set]
  congr 1
  funext q
  by_cases hq : q = path
  · simp only [hq, if_true]
  · simp only [hq, if_false]

theorem OpenFile_ok (fs fs0 : FS) (name : String) (perm : FileMode)
    (h : fs.OpenFile name perm = Except.ok fs0) :
    implicitDir name = false ∧ ∃ mode, fs0 = fs.set name (Node.file [] mode) := by
  have himp : implicitDir name = false := by
    cases hi : implicitDir name with
    | false => rfl
    | true => simp [FS.OpenFile, FS.lookup, hi] at h
  refine ⟨himp, ?_⟩
  unfold FS.OpenFile at h
  split at h
  · cases h
  · split at h
    · cases h
    · cases h; exact ⟨_, rfl⟩
  · split at h
    · cases h
    · cases h
    · split at h
      · cases h
      · cases h; exact ⟨_, rfl⟩

theorem OpenFile_error (fs : FS) (name : String) (perm : FileMode) (e : PathError)
    (h : fs.OpenFile name perm = Except.error e) : e.Op = "open" := by
  unfold FS.OpenFile at h
  split at h
  · cases h; rfl
  · split at h
    · cases h; rfl
    · cases h
  · split at h
    · cases h; rfl
    · cases h; rfl
    · split at h
      · cases h; rfl
      · cases h

theorem Write_set (fs : FS) (name : String) (data : Bytes) (mode : FileMode) :
    ((fs.set name (Node.file [] mode)).Write name data =
        (none, fs.set name (Node.file data mode))) ∨
      ∃ n, n < data.length ∧
        (fs.set name (Node.file [] mode)).Write name data =
          (some ⟨"write", name, Errno.ENOSPC⟩, fs.set name (Node.file (data.take n) mode)) := by
  have hnode : (fs.set name (Node.file [] mode)).node name = some (Node.file [] mode) := by
    simp [FS.set]
  have hroom : (fs.set name (Node.file [] mode)).room name = fs.room name := rfl
  unfold FS.Write
  rw [hnode]
  simp only [hroom, set_set]
  cases fs.room name with
  | none => exact Or.inl rfl
  | some n =>
    simp only
    by_cases hn : data.length ≤ n
    · rw [if_pos hn]; exact Or.inl rfl
    · rw [if_neg hn]; exact Or.inr ⟨n, by omega, rfl⟩

theorem WriteFile_ok (fs fs' : FS) (filename : String) (data : Bytes) (perm : FileMode)
    (h : fs.WriteFile filename data perm = (none, fs')) :
    implicitDir filename = false ∧ ∃ mode, fs' = fs.set filename (Node.file data mode) := by
  unfold FS.WriteFile at h
  cases ho : fs.OpenFile filename perm with
  | error e => rw [ho] at h; cases h
  | ok fs0 =>
    rw [ho] at h
    simp only at h
    obtain ⟨himp, mode, rfl⟩ := OpenFile_ok fs fs0 filename perm ho
    refine ⟨himp, mode, ?_⟩
    rcases Write_set fs filename data mode with hw | ⟨n, _, hw⟩
    · rw [hw] at h
      exact (congrArg Prod.snd h).symm
    · rw [hw] at h
      cases h

theorem WriteFile_failed (fs fs' : FS) (filename : String) (data : Bytes) (perm : FileMode)
    (e : PathError) (h : fs.WriteFile filename data perm = (some e, fs')) :
    (e.Op = "open" ∧ fs' = fs) ∨
    (e = ⟨"write", filename, Errno.ENOSPC⟩ ∧ implicitDir filename = false ∧
      ∃ mode n, n < data.length ∧ fs' = fs.set filename (Node.file (data.take n) mode)) := by
  unfold FS.WriteFile at h
  cases ho : fs.OpenFile filename perm with
  | error e0 =>
    rw [ho] at h
    cases h
    exact Or.inl ⟨OpenFile_error fs filename perm _ ho, rfl⟩
  | ok fs0 =>
    rw [ho] at h
    simp only at h
    obtain ⟨himp, mode, rfl⟩ := OpenFile_ok fs fs0 filename perm ho
    rcases Write_set fs filename data mode with hw | ⟨n, hn, hw⟩
    · rw [hw] at h
      cases h
    · rw [hw] at h
      cases h
      exact Or.inr ⟨rfl, himp, mode, n, hn, rfl⟩

theorem ReadFile_WriteFile (fs fs' : FS) (filename : String) (data : Bytes) (perm : FileMode)
    (h : fs.WriteFile filename data perm = (none, fs')) :
    fs'.ReadFile filename = Except.ok data := by
  obtain ⟨himp, mode, rfl⟩ := WriteFile_ok fs fs' filename data perm h
  simp [FS.ReadFile, lookup_set_same _ _ _ himp]

theorem ReadFile_WriteFile_other (fs fs' : FS) (filename q : String) (data : Bytes)
    (perm : FileMode) (h : fs.WriteFile filename data perm = (none, fs')) (hq : q ≠ filename) :
    fs'.ReadFile q = fs.ReadFile q := by
  obtain ⟨_, mode, rfl⟩ := WriteFile_ok fs fs' filename data perm h
  simp [FS.ReadFile, lookup_set_other _ _ _ _ hq]

theorem saveCertResource_ok (Workspace : Storage) (fs fs' : FS) (cert : CertificateResource)
    (h : saveCertResource Workspace fs cert = (none, fs')) :
    ∃ fs1 fs2 fs3,
      fs.MkdirAll (Storage.Site Workspace cert.Domain) 0o700 = (none, fs1) ∧
      fs1.WriteFile (Storage.SiteCertFile Workspace cert.Domain) cert.Certificate 0o600 =
        (none, fs2) ∧
      fs2.WriteFile (Storage.SiteKeyFile Workspace cert.Domain) cert.PrivateKey 0o600 =
        (none, fs3) ∧
      fs3.WriteFile (Storage.SiteMetaFile Workspace cert.Domain)
          (stringBytes cert.MarshalIndent) 0o600 = (none, fs') := by
  unfold saveCertResource at h
  split at h
  · cases h
  · rename_i fs1 h1
    split at h
    · cases h
    · rename_i fs2 h2
      split at h
      · cases h
      · rename_i fs3 h3
        simp only at h
        split at h
        · cases h
        · rename_i fs4 h4
          cases h
          exact ⟨fs1, fs2, fs3, h1, h2, h3, h4⟩


theorem Stat_ok_iff (fs : FS) (name : String) :
    (∃ n, fs.Stat name = Except.ok n) ↔ fs.lookup name ≠ none := by
  unfold FS.Stat
  cases fs.lookup name <;> simp

theorem existingCertAndKey_eq (Workspace : Storage) (fs : FS) (host : String) :
    existingCertAndKey Workspace fs host =
      ((fs.lookup (Storage.SiteCertFile Workspace host)).isSome &&
        (fs.lookup (Storage.SiteKeyFile Workspace host)).isSome) := by
  unfold existingCertAndKey FS.Stat
  cases fs.lookup (Storage.SiteCertFile Workspace host) <;>
    cases fs.lookup (Storage.SiteKeyFile Workspace host) <;> rfl

/-! ## `existingCertAndKey` -/

/-- C9: `existingCertAndKey` is true exactly when `os.Stat` succeeds on both the
certificate file and the key file of the domain; it gives the same answer on any
two stores that differ only at the metadata file of the domain; and when either
of the two files is missing it is false. -/
theorem existingCertAndKey_iff (Workspace : Storage) (fs : FS) (domain : String) :
    (existingCertAndKey Workspace fs domain = true ↔
      (∃ n, fs.Stat (Storage.SiteCertFile Workspace domain) = Except.ok n) ∧
      (∃ n, fs.Stat (Storage.SiteKeyFile Workspace domain) = Except.ok n)) ∧
    (∀ fs' : FS,
      (∀ q, q ≠ Storage.SiteMetaFile Workspace domain → fs'.node q = fs.node q) →
      existingCertAndKey Workspace fs' domain = existingCertAndKey Workspace fs domain) ∧
    (((∀ n, fs.Stat (Storage.SiteCertFile Workspace domain) ≠ Except.ok n) ∨
      (∀ n, fs.Stat (Storage.SiteKeyFile Workspace domain) ≠ Except.ok n)) →
      existingCertAndKey Workspace fs domain = false) := by
  have hiff : existingCertAndKey Workspace fs domain = true ↔
      (∃ n, fs.Stat (Storage.SiteCertFile Workspace domain) = Except.ok n) ∧
      (∃ n, fs.Stat (Storage.SiteKeyFile Workspace domain) = Except.ok n) := by
    rw [existingCertAndKey_eq, Stat_ok_iff, Stat_ok_iff, Bool.and_eq_true,
      Option.isSome_iff_ne_none, Option.isSome_iff_ne_none]
  refine ⟨hiff, ?_, ?_⟩
  · intro fs' hsame
    have hl : ∀ q, q ≠ Storage.SiteMetaFile Workspace domain → fs'.lookup q = fs.lookup q := by
      intro q hq
      simp [FS.lookup, hsame q hq]
    rw [existingCertAndKey_eq, existingCertAndKey_eq,
      hl _ (SiteCertFile_ne_SiteMetaFile Workspace domain),
      hl _ (SiteKeyFile_ne_SiteMetaFile Workspace domain)]
  · intro h
    cases hres : existingCertAndKey Workspace fs domain with
    | false => rfl
    | true =>
      obtain ⟨⟨n1, h1⟩, ⟨n2, h2⟩⟩ := hiff.mp hres
      rcases h with h | h
      · exact absurd h1 (h n1)
      · exact absurd h2 (h n2)

/-- Witness of C9: a store holding the certificate of `a.com` and no key. -/
theorem existingCertAndKey_iff_witness :
    (∀ n, sampleStoreCertOnly.Stat (Storage.SiteKeyFile "./certs_data" "a.com") ≠ Except.ok n) ∧
    existingCertAndKey "./certs_data" sampleStoreCertOnly "a.com" = false :=
  have hkey : ∀ n, sampleStoreCertOnly.Stat (Storage.SiteKeyFile "./certs_data" "a.com") ≠
      Except.ok n := by
    intro n h
    exact (Stat_ok_iff _ _).mp ⟨n, h⟩ (by decide)
  ⟨hkey, (existingCertAndKey_iff "./certs_data" sampleStoreCertOnly "a.com").2.2 (Or.inr hkey)⟩

/-! ## `saveCertResource` -/

/-- C10: after `saveCertResource` has succeeded, the certificate file reads back
as `cert.Certificate`, the key file as `cert.PrivateKey`, and the metadata file
holds the bytes of a JSON document, indented by one tab, with the members
`domain`, `certUrl` and `certStableUrl` in this order, which decodes to the
record of these three fields of `cert` (the certificate and the key, tagged
`json:"-"`, are not in the document). -/
theorem saveCertResource_roundtrip (Workspace : Storage) (fs fs' : FS)
    (cert : CertificateResource)
    (h : saveCertResource Workspace fs cert = (none, fs')) :
    fs'.ReadFile (Storage.SiteCertFile Workspace cert.Domain) = Except.ok cert.Certificate ∧
    fs'.ReadFile (Storage.SiteKeyFile Workspace cert.Domain) = Except.ok cert.PrivateKey ∧
    fs'.ReadFile (Storage.SiteMetaFile Workspace cert.Domain) =
      Except.ok (stringBytes cert.MarshalIndent) ∧
    cert.MarshalIndent.data =
      "\x7b\n\t\"domain\": ".data ++ jsonQuote cert.Domain ++
      ",\n\t\"certUrl\": ".data ++ jsonQuote cert.CertURL ++
      ",\n\t\"certStableUrl\": ".data ++ jsonQuote cert.CertStableURL ++ "\n\x7d".data ∧
    CertificateResource.Unmarshal cert.MarshalIndent =
      some { cert with PrivateKey := [], Certificate := [] } := by
  obtain ⟨fs1, fs2, fs3, _, h2, h3, h4⟩ := saveCertResource_ok Workspace fs fs' cert h
  refine ⟨?_, ?_, ?_, ?_, Unmarshal_MarshalIndent cert⟩
  · rw [ReadFile_WriteFile_other fs3 fs' _ _ _ _ h4 (SiteCertFile_ne_SiteMetaFile _ _),
      ReadFile_WriteFile_other fs2 fs3 _ _ _ _ h3 (SiteCertFile_ne_SiteKeyFile _ _)]
    exact ReadFile_WriteFile fs1 fs2 _ _ _ h2
  · rw [ReadFile_WriteFile_other fs3 fs' _ _ _ _ h4 (SiteKeyFile_ne_SiteMetaFile _ _)]
    exact ReadFile_WriteFile fs2 fs3 _ _ _ h3
  · exact ReadFile_WriteFile fs3 fs' _ _ _ h4
  · have q1 : jsonQuote "domain" = "\"domain\"".data := by decide
    have q2 : jsonQuote "certUrl" = "\"certUrl\"".data := by decide
    have q3 : jsonQuote "certStableUrl" = "\"certStableUrl\"".data := by decide
    simp [CertificateResource.MarshalIndent, marshalIndentObject, List.intercalate, q1, q2, q3]


/-- Witness of C10: the resource of `TestSaveCertResource` saved on an empty
file system; the metadata document is the one the test expects. -/
theorem saveCertResource_roundtrip_witness :
    (saveCertResource "./certs_test_save" FS.empty (sampleCert "example.com")).1 = none ∧
    (saveCertResource "./certs_test_save" FS.empty (sampleCert "example.com")).2.ReadFile
        (Storage.SiteCertFile "./certs_test_save" "example.com") =
      Except.ok (stringBytes "certificate") ∧
    (saveCertResource "./certs_test_save" FS.empty (sampleCert "example.com")).2.ReadFile
        (Storage.SiteKeyFile "./certs_test_save" "example.com") =
      Except.ok (stringBytes "private key") ∧
    (sampleCert "example.com").MarshalIndent =
      "\x7b\n\t\"domain\": \"example.com\",\n\t\"certUrl\": \"https://example.com/cert\",\n\t\"certStableUrl\": \"https://example.com/cert/stable\"\n\x7d" :=
  have h := saveCertResource_roundtrip "./certs_test_save" FS.empty
    (saveCertResource "./certs_test_save" FS.empty (sampleCert "example.com")).2
    (sampleCert "example.com") (Prod.ext (by decide) rfl)
  ⟨by decide, h.1, h.2.1, by decide⟩

/-! ## The rate limiter: calls in any order -/

theorem wrapInt_literal (x : Int) :
    wrapInt x = (x + 9223372036854775808) % 18446744073709551616 - 9223372036854775808 := by
  unfold wrapInt
  norm_num

theorem wrapInt_eq (x : Int) (h1 : -9223372036854775808 ≤ x) (h2 : x < 9223372036854775808) :
    wrapInt x = x := by
  rw [wrapInt_literal]
  omega

theorem BackOff_same_or_one (rl : rateLimiter) :
    rl.BackOff.1.interval = rl.interval ∨ rl.BackOff.1.count = 1 := by
  unfold rateLimiter.BackOff
  split_ifs <;> simp only [] <;> (try split_ifs) <;> simp

theorem within_BackOff (n : Nat) (rl : rateLimiter) (hn : n + 1 < 9223372036854775808 + 17)
    (h : rl.within n) : rl.BackOff.1.within (n + 1) := by
  obtain ⟨i, c⟩ := rl
  unfold rateLimiter.within at h
  simp only at h
  rcases h with h | ⟨h, h1, h2, h3⟩ | ⟨h, h1, h2, h3⟩ | ⟨h, h1, h2, h3⟩ | ⟨h, h1, h2, h3⟩ |
    ⟨h, h1, h2, h3⟩ | ⟨h, h1, h2, h3⟩ | ⟨h, h1, h3⟩ <;> subst h
  · simp [rateLimiter.BackOff, rateLimiter.within, Second]
  all_goals
    have hw : wrapInt (c + 1) = c + 1 := wrapInt_eq _ (by omega) (by omega)
    simp only [rateLimiter.BackOff, hw, Second, Minute, Hour]
    norm_num
    first
      | (split_ifs <;> simp [rateLimiter.within, Second, Minute, Hour] <;> omega)
      | (simp [rateLimiter.within, Second, Minute, Hour]; omega)


theorem within_Resume (n : Nat) (rl : rateLimiter) : rl.Resume.within (n + 1) :=
  Or.inl rfl

theorem calls_append (cs ds : List Call) (rl : rateLimiter) :
    rateLimiter.calls (cs ++ ds) rl = rateLimiter.calls ds (rateLimiter.calls cs rl) := by
  induction cs generalizing rl with
  | nil => rfl
  | cons c cs ih => cases c <;> simp [rateLimiter.calls, ih]

theorem within_calls (cs : List Call) (h : cs.length < 9223372036854775808 + 17) :
    (rateLimiter.calls cs rateLimiter.zero).within cs.length := by
  induction cs using List.reverseRecOn with
  | nil => exact Or.inl rfl
  | append_singleton cs c ih =>
    have hlen : (cs ++ [c]).length = cs.length + 1 := by simp
    rw [hlen] at h ⊢
    have ih' := ih (by omega)
    rw [calls_append]
    cases c with
    | BackOff => exact within_BackOff _ _ h ih'
    | Resume => exact within_Resume _ _

theorem calls_replicate (k : Nat) (rl : rateLimiter) :
    rateLimiter.calls (List.replicate k Call.BackOff) rl = rateLimiter.backOffs k rl := by
  induction k with
  | zero => rfl
  | succ k ih =>
    rw [List.replicate_succ', calls_append, ih]
    rfl

theorem backOffs_hour_count (n : Nat) (hn : n + 1 < 9223372036854775808) :
    rateLimiter.backOffs (18 + n) rateLimiter.zero = ⟨1 * Hour, 1 + n⟩ := by
  induction n with
  | zero =>
    have h17 := backOffs_le17 17 (le_refl _)
    rw [show (18 + 0 : Nat) = 17 + 1 from rfl, rateLimiter.backOffs, h17]
    rfl
  | succ n ih =>
    rw [show 18 + (n + 1) = (18 + n) + 1 from rfl, rateLimiter.backOffs, ih (by omega)]
    have hw : wrapInt ((1 : Int) + n + 1) = 1 + n + 1 := wrapInt_eq _ (by omega) (by omega)
    simp [rateLimiter.BackOff, Hour, Minute, Second, hw]
    ring

theorem backOffs_overflow :
    rateLimiter.backOffs (9223372036854775808 + 17) rateLimiter.zero =
      ⟨1 * Hour, -9223372036854775808⟩ := by
  rw [show (9223372036854775808 + 17 : Nat) = (18 + 9223372036854775806) + 1 from rfl,
    rateLimiter.backOffs, backOffs_hour_count 9223372036854775806 (by norm_num)]
  simp [rateLimiter.BackOff, Hour, Minute, Second, wrapInt_literal]

theorem backOffs_hour (k : Nat) (rl : rateLimiter) (h : rl.interval = 1 * Hour) :
    (rateLimiter.backOffs k rl).interval = 1 * Hour := by
  induction k with
  | zero => exact h
  | succ k ih => exact BackOff_hour _ ih

/-! ## `Resume` -/

/-- C13: for every state of the rate limiter, whatever its interval (a value
outside the schedule, such as the 1s of `TestRateLimitResume`, included) and
whatever its count, the interval after `Resume` is 0. -/
theorem Resume_interval (rl : rateLimiter) :
    rl.Resume.interval = 0 ∧
    (rateLimiter.Resume { interval := 1 * Second, count := 0 }).interval = 0 :=
  ⟨rfl, rfl⟩

/-- C14, as stated, fails: after two `BackOff` calls the count is 2, and `Resume`
leaves it at 2; the state after `Resume` is not the zero state. -/
theorem Resume_count_counterexample :
    rateLimiter.calls [Call.BackOff, Call.BackOff] rateLimiter.zero = ⟨10 * Second, 2⟩ ∧
    (rateLimiter.Resume ⟨10 * Second, 2⟩).interval = 0 ∧
    (rateLimiter.Resume ⟨10 * Second, 2⟩).count = 2 ∧
    (rateLimiter.Resume ⟨10 * Second, 2⟩).count ≠ 0 ∧
    rateLimiter.Resume ⟨10 * Second, 2⟩ ≠ rateLimiter.zero := by
  decide

/-- C14, amended: for every state of the rate limiter, `Resume` sets the interval
to 0 and leaves the count as it was, so that the state afterwards is the zero
state exactly when the count was 0 already; the next `BackOff` sets the count to
1 and the interval to 10s, whatever the count was. -/
theorem Resume_keeps_count (rl : rateLimiter) :
    rl.Resume.interval = 0 ∧
    rl.Resume.count = rl.count ∧
    (rl.Resume = rateLimiter.zero ↔ rl.count = 0) ∧
    rl.Resume.BackOff.1 = ⟨10 * Second, 1⟩ := by
  obtain ⟨i, c⟩ := rl
  refine ⟨rfl, rfl, ?_, ?_⟩
  · simp [rateLimiter.Resume, rateLimiter.zero]
  · simp [rateLimiter.Resume, rateLimiter.BackOff]

/-- Witness of C14, amended: resumed from 30m with a count of 2, the count is
still 2, and the next `BackOff` gives 10s with a count of 1. -/
theorem Resume_keeps_count_witness :
    (rateLimiter.Resume ⟨30 * Minute, 2⟩).count = 2 ∧
    (rateLimiter.Resume ⟨30 * Minute, 2⟩).BackOff.1 = ⟨10 * Second, 1⟩ :=
  ⟨(Resume_keeps_count ⟨30 * Minute, 2⟩).2.1, (Resume_keeps_count ⟨30 * Minute, 2⟩).2.2.2⟩

/-! ## `BackOff`: one call -/

/-- C15: for every state whose interval is 0 or a value of the schedule (10s,
30s, 1m, 5m, 10m, 30m, 1h), and for every count, the interval after `BackOff` is
a value of the schedule, is not less than the interval before, is the same
interval or the next one of the schedule, and is not more than 1h; from 1h the
interval is 1h after any number of further `BackOff` calls. -/
theorem BackOff_escalates (rl : rateLimiter)
    (h : rl.interval = 0 ∨ rl.interval = 10 * Second ∨ rl.interval = 30 * Second ∨
      rl.interval = 1 * Minute ∨ rl.interval = 5 * Minute ∨ rl.interval = 10 * Minute ∨
      rl.interval = 30 * Minute ∨ rl.interval = 1 * Hour) :
    (rl.BackOff.1.interval = 10 * Second ∨ rl.BackOff.1.interval = 30 * Second ∨
      rl.BackOff.1.interval = 1 * Minute ∨ rl.BackOff.1.interval = 5 * Minute ∨
      rl.BackOff.1.interval = 10 * Minute ∨ rl.BackOff.1.interval = 30 * Minute ∨
      rl.BackOff.1.interval = 1 * Hour) ∧
    rl.interval ≤ rl.BackOff.1.interval ∧
    rl.BackOff.1.interval ≤ 1 * Hour ∧
    (rl.BackOff.1.interval = rl.interval ∨
      (rl.interval = 0 ∧ rl.BackOff.1.interval = 10 * Second) ∨
      (rl.interval = 10 * Second ∧ rl.BackOff.1.interval = 30 * Second) ∨
      (rl.interval = 30 * Second ∧ rl.BackOff.1.interval = 1 * Minute) ∨
      (rl.interval = 1 * Minute ∧ rl.BackOff.1.interval = 5 * Minute) ∨
      (rl.interval = 5 * Minute ∧ rl.BackOff.1.interval = 10 * Minute) ∨
      (rl.interval = 10 * Minute ∧ rl.BackOff.1.interval = 30 * Minute) ∨
      (rl.interval = 30 * Minute ∧ rl.BackOff.1.interval = 1 * Hour)) ∧
    (rl.interval = 1 * Hour → ∀ k, (rateLimiter.backOffs k rl).interval = 1 * Hour) := by
  refine ⟨?_, ?_, ?_, ?_, fun h1 k => backOffs_hour k rl h1⟩ <;>
  · obtain ⟨i, c⟩ := rl
    simp only at h
    rcases h with h | h | h | h | h | h | h | h <;> subst h <;>
      simp only [rateLimiter.BackOff, Second, Minute, Hour] <;> norm_num <;>
      (try split_ifs) <;> norm_num

/-- Witness of C15: the fourth call at 10s goes to 30s, which is between 10s and
1h. -/
theorem BackOff_escalates_witness :
    (rateLimiter.BackOff ⟨10 * Second, 3⟩).1.interval = 30 * Second ∧
    (10 * Second : Duration) ≤ (rateLimiter.BackOff ⟨10 * Second, 3⟩).1.interval ∧
    (rateLimiter.BackOff ⟨10 * Second, 3⟩).1.interval ≤ 1 * Hour :=
  have h := BackOff_escalates ⟨10 * Second, 3⟩ (Or.inr (Or.inl rfl))
  ⟨by decide, h.2.1, h.2.2.1⟩

/-! ## `BackOff`: the count -/

/-- C16, as stated, fails in its second part: the count is a 64-bit `int`, and
at 1h every `BackOff` adds one to it.  The state after 2^63 + 17 `BackOff` calls
from the zero state has the interval 1h and the count -2^63, which is less than
1. -/
theorem BackOff_count_counterexample :
    (rateLimiter.calls (List.replicate (9223372036854775808 + 17) Call.BackOff)
      rateLimiter.zero).interval = 1 * Hour ∧
    (rateLimiter.calls (List.replicate (9223372036854775808 + 17) Call.BackOff)
      rateLimiter.zero).interval ≠ 0 ∧
    (rateLimiter.calls (List.replicate (9223372036854775808 + 17) Call.BackOff)
      rateLimiter.zero).count = -9223372036854775808 ∧
    ¬ 1 ≤ (rateLimiter.calls (List.replicate (9223372036854775808 + 17) Call.BackOff)
      rateLimiter.zero).count := by
  rw [calls_replicate, backOffs_overflow]
  decide

/-- C16, amended: for every state, when a `BackOff` call changes the interval
(the step from 0 to 10s included) the count after the call is 1; and in every
state reached from the zero state by fewer than 2^63 + 17 calls of `BackOff` and
`Resume`, in any order, if the interval is not 0 then it is a value of the
schedule, the count is at least 1, at most the number of calls, and at most the
uses allotted to the interval: 3, 2, 5, 2, 3, 2 for 10s, 30s, 1m, 5m, 10m, 30m
(at 1h there is no such bound). -/
theorem BackOff_count (calls : List Call) (h : calls.length < 9223372036854775808 + 17) :
    (∀ rl : rateLimiter, rl.BackOff.1.interval ≠ rl.interval → rl.BackOff.1.count = 1) ∧
    ((rateLimiter.calls calls rateLimiter.zero).interval ≠ 0 →
      1 ≤ (rateLimiter.calls calls rateLimiter.zero).count ∧
      (rateLimiter.calls calls rateLimiter.zero).count ≤ calls.length ∧
      ((rateLimiter.calls calls rateLimiter.zero).interval = 10 * Second ∧
          (rateLimiter.calls calls rateLimiter.zero).count ≤ 3 ∨
        (rateLimiter.calls calls rateLimiter.zero).interval = 30 * Second ∧
          (rateLimiter.calls calls rateLimiter.zero).count ≤ 2 ∨
        (rateLimiter.calls calls rateLimiter.zero).interval = 1 * Minute ∧
          (rateLimiter.calls calls rateLimiter.zero).count ≤ 5 ∨
        (rateLimiter.calls calls rateLimiter.zero).interval = 5 * Minute ∧
          (rateLimiter.calls calls rateLimiter.zero).count ≤ 2 ∨
        (rateLimiter.calls calls rateLimiter.zero).interval = 10 * Minute ∧
          (rateLimiter.calls calls rateLimiter.zero).count ≤ 3 ∨
        (rateLimiter.calls calls rateLimiter.zero).interval = 30 * Minute ∧
          (rateLimiter.calls calls rateLimiter.zero).count ≤ 2 ∨
        (rateLimiter.calls calls rateLimiter.zero).interval = 1 * Hour)) := by
  refine ⟨fun rl hne => (BackOff_same_or_one rl).resolve_left hne, fun hnz => ?_⟩
  have hw := within_calls calls h
  generalize rateLimiter.calls calls rateLimiter.zero = rl at hw hnz ⊢
  rcases hw with h0 | ⟨hi, h1, h2, h3⟩ | ⟨hi, h1, h2, h3⟩ | ⟨hi, h1, h2, h3⟩ |
    ⟨hi, h1, h2, h3⟩ | ⟨hi, h1, h2, h3⟩ | ⟨hi, h1, h2, h3⟩ | ⟨hi, h1, h3⟩
  · exact absurd h0 hnz
  · exact ⟨h1, by omega, Or.inl ⟨hi, h2⟩⟩
  · exact ⟨h1, by omega, Or.inr (Or.inl ⟨hi, h2⟩)⟩
  · exact ⟨h1, by omega, Or.inr (Or.inr (Or.inl ⟨hi, h2⟩))⟩
  · exact ⟨h1, by omega, Or.inr (Or.inr (Or.inr (Or.inl ⟨hi, h2⟩)))⟩
  · exact ⟨h1, by omega, Or.inr (Or.inr (Or.inr (Or.inr (Or.inl ⟨hi, h2⟩))))⟩
  · exact ⟨h1, by omega, Or.inr (Or.inr (Or.inr (Or.inr (Or.inr (Or.inl ⟨hi, h2⟩)))))⟩
  · exact ⟨h1, by omega, Or.inr (Or.inr (Or.inr (Or.inr (Or.inr (Or.inr hi)))))⟩

/-- Witness of C16, amended: three `BackOff` calls, a `Resume` and two more
`BackOff` calls leave the rate limiter at 10s with a count of 2. -/
theorem BackOff_count_witness :
    (rateLimiter.calls [Call.BackOff, Call.BackOff, Call.BackOff, Call.Resume, Call.BackOff,
      Call.BackOff] rateLimiter.zero) = ⟨10 * Second, 2⟩ ∧
    1 ≤ (rateLimiter.calls [Call.BackOff, Call.BackOff, Call.BackOff, Call.Resume, Call.BackOff,
      Call.BackOff] rateLimiter.zero).count :=
  ⟨by decide,
    ((BackOff_count [Call.BackOff, Call.BackOff, Call.BackOff, Call.Resume, Call.BackOff,
      Call.BackOff] (by decide)).2 (by decide)).1⟩

/-! ## `strings.ToLower` -/

set_option maxRecDepth 1000000 in
theorem caseRanges_settled : caseRanges.all CaseRange.settled = true := by decide

theorem toNat_ofNat_valid (m : Nat) (h : m < 0xD800 ∨ (0xE000 ≤ m ∧ m < 0x110000)) :
    (Char.ofNat m).toNat = m := by
  have hv : m.isValidChar := by
    rcases h with h | ⟨h1, h2⟩
    · exact Or.inl h
    · exact Or.inr ⟨by omega, h2⟩
  unfold Char.ofNat
  simp only [hv, dif_pos]
  rfl

theorem toLower_of_not_upper (c : Char) (h : ¬ (c.toNat ≥ 65 ∧ c.toNat ≤ 90)) :
    c.toLower = c := by
  unfold Char.toLower
  simp only [h, if_false]

theorem toLower_ascii (c : Char) (h : c.toNat ≤ 127) :
    c.toLower.toNat ≤ 127 ∧ c.toLower.toLower = c.toLower := by
  by_cases hu : c.toNat ≥ 65 ∧ c.toNat ≤ 90
  · have hc : c = Char.ofNat c.toNat := (Char.ofNat_toNat c).symm
    obtain ⟨h1, h2⟩ := hu
    generalize c.toNat = n at hc h1 h2
    subst hc
    interval_cases n <;> decide
  · rw [toLower_of_not_upper c hu]
    exact ⟨h, toLower_of_not_upper c hu⟩

theorem toLowerRune_of_not_covered (c : Char) (h : ¬ c.toNat ≤ 127)
    (hnone : caseRanges.find? (fun r => r.covers c.toNat) = none) : toLowerRune c = c := by
  unfold toLowerRune
  simp only [h, if_false, hnone]

theorem toLowerRune_toLowerRune (c : Char) : toLowerRune (toLowerRune c) = toLowerRune c := by
  by_cases hc : c.toNat ≤ 127
  · have h1 : toLowerRune c = c.toLower := by
      unfold toLowerRune
      simp only [hc, if_true]
    obtain ⟨ha, hb⟩ := toLower_ascii c hc
    rw [h1]
    unfold toLowerRune
    simp only [ha, if_true]
    exact hb
  · cases hfind : caseRanges.find? (fun r => r.covers c.toNat) with
    | none =>
      rw [toLowerRune_of_not_covered c hc hfind, toLowerRune_of_not_covered c hc hfind]
    | some r =>
      have hmem : r ∈ caseRanges := List.mem_of_find?_eq_some hfind
      have hcov := List.find?_some hfind
      have hset : r.settled = true := (List.all_eq_true.mp caseRanges_settled) r hmem
      simp only [CaseRange.covers, Bool.and_eq_true, decide_eq_true_eq] at hcov
      obtain ⟨⟨hlo, hhi⟩, hstride⟩ := hcov
      simp only [CaseRange.settled, Bool.and_eq_true, Bool.or_eq_true, decide_eq_true_eq,
        List.all_eq_true] at hset
      obtain ⟨⟨hvalid, hupper⟩, hapart⟩ := hset
      have h1 : toLowerRune c = Char.ofNat (r.lower + (c.toNat - r.lo)) := by
        unfold toLowerRune
        simp only [hc, if_false, hfind]
      have hnat : (Char.ofNat (r.lower + (c.toNat - r.lo))).toNat = r.lower + (c.toNat - r.lo) :=
        toNat_ofNat_valid _ (by omega)
      rw [h1]
      by_cases hm : r.lower + (c.toNat - r.lo) ≤ 127
      · have h2 : toLowerRune (Char.ofNat (r.lower + (c.toNat - r.lo))) =
            (Char.ofNat (r.lower + (c.toNat - r.lo))).toLower := by
          unfold toLowerRune
          simp only [hnat, hm, if_true]
        rw [h2]
        exact toLower_of_not_upper _ (by rw [hnat]; omega)
      · apply toLowerRune_of_not_covered _ (by rw [hnat]; exact hm)
        rw [hnat, List.find?_eq_none]
        intro q hq
        have ha := hapart q hq
        simp only [CaseRange.apart, Bool.and_eq_true, Bool.or_eq_true, decide_eq_true_eq] at ha
        simp only [CaseRange.covers, Bool.and_eq_true, decide_eq_true_eq, not_and]
        intro hqlo hqs
        rcases ha with (ha | ha) | ⟨⟨hq2, hr2⟩, hpar⟩
        · omega
        · omega
        · rw [hq2] at hqs
          rcases hr2 with hr2 | hr2
          · rw [hr2] at hstride
            omega
          · omega

theorem ToLower_ToLower (s : String) : ToLower (ToLower s) = ToLower s := by
  unfold ToLower
  simp only [List.map_map]
  congr 1
  apply List.map_congr_left
  intro c _
  exact toLowerRune_toLowerRune c

/-! ## `filepath.Clean` -/

theorem splitSlash_ne_nil (l : List Char) : splitSlash l ≠ [] := by
  cases l with
  | nil => simp [splitSlash]
  | cons c cs =>
    unfold splitSlash
    split_ifs
    · simp
    · split <;> simp

theorem splitSlash_append_slash (a b : List Char) :
    splitSlash (a ++ '/' :: b) = splitSlash a ++ splitSlash b := by
  induction a with
  | nil => simp [splitSlash]
  | cons c cs ih =>
    by_cases hc : c = '/'
    · simp [splitSlash, hc, ih]
    · cases hs : splitSlash cs with
      | nil => exact absurd hs (splitSlash_ne_nil cs)
      | cons e es => simp [splitSlash, hc, ih, hs]

theorem splitSlash_no_slash (l : List Char) : ∀ e ∈ splitSlash l, '/' ∉ e := by
  induction l with
  | nil => simp [splitSlash]
  | cons c cs ih =>
    by_cases hc : c = '/'
    · simp only [splitSlash, hc, if_true]
      intro e he
      rcases List.mem_cons.mp he with rfl | he
      · simp
      · exact ih e he
    · cases hs : splitSlash cs with
      | nil => exact absurd hs (splitSlash_ne_nil cs)
      | cons x xs =>
        rw [hs] at ih
        simp only [splitSlash, hc, if_false, hs]
        intro e he
        rcases List.mem_cons.mp he with rfl | he
        · intro hmem
          rcases List.mem_cons.mp hmem with h | h
          · exact hc h.symm
          · exact ih x (List.mem_cons_self _ _) h
        · exact ih e (List.mem_cons_of_mem _ he)

theorem cleanElems_append (rooted : Bool) (out xs ys : List (List Char)) :
    cleanElems rooted out (xs ++ ys) = cleanElems rooted (cleanElems rooted out xs) ys := by
  induction xs generalizing out with
  | nil => simp [cleanElems]
  | cons e es ih =>
    simp only [List.cons_append, cleanElems]
    split
    · exact ih _
    · split
      · split
        · split
          · split
            · exact ih _
            · exact ih _
          · exact ih _
        · split
          · exact ih _
          · exact ih _
      · exact ih _

theorem cleanStack_dots (rooted : Bool) (l : List (List Char)) (hr : rooted = false)
    (h : ∀ x ∈ l, x = ['.', '.']) : cleanStack rooted l := by
  induction l with
  | nil => trivial
  | cons e es ih =>
    have he : e = ['.', '.'] := h e (List.mem_cons_self _ _)
    subst he
    refine ⟨by decide, by decide, by decide, ?_⟩
    simp only [if_true]
    exact ⟨hr, fun x hx => h x (List.mem_cons_of_mem _ hx)⟩

theorem cleanStack_below (rooted : Bool) (e : List Char) (below : List (List Char))
    (h : cleanStack rooted (e :: below)) : cleanStack rooted below := by
  obtain ⟨_, _, _, h4⟩ := h
  split_ifs at h4 with he
  · exact cleanStack_dots rooted below h4.1 h4.2
  · exact h4

theorem cleanElems_stack (rooted : Bool) (out xs : List (List Char))
    (hout : cleanStack rooted out) (hxs : ∀ e ∈ xs, '/' ∉ e) :
    cleanStack rooted (cleanElems rooted out xs) := by
  induction xs generalizing out with
  | nil => simpa [cleanElems] using hout
  | cons e es ih =>
    have hes : ∀ x ∈ es, '/' ∉ x := fun x hx => hxs x (List.mem_cons_of_mem _ hx)
    have he : '/' ∉ e := hxs e (List.mem_cons_self _ _)
    simp only [cleanElems]
    split
    · exact ih _ hout hes
    · rename_i hskip
      split
      · rename_i hdd
        split
        · rename_i top below
          split
          · rename_i htop
            split
            · exact ih _ hout hes
            · rename_i hr
              refine ih _ ?_ hes
              subst hdd htop
              obtain ⟨_, _, _, h4⟩ := hout
              simp only [if_true] at h4
              refine ⟨by decide, by decide, by decide, ?_⟩
              simp only [if_true]
              refine ⟨h4.1, ?_⟩
              intro x hx
              rcases List.mem_cons.mp hx with rfl | hx
              · rfl
              · exact h4.2 x hx
          · exact ih _ (cleanStack_below rooted top below hout) hes
        · split
          · exact ih _ trivial hes
          · rename_i hr
            refine ih _ ?_ hes
            subst hdd
            refine ⟨by decide, by decide, by decide, ?_⟩
            simp only [if_true]
            exact ⟨by simpa using hr, by simp⟩
      · rename_i hdd
        refine ih _ ?_ hes
        refine ⟨fun h => hskip (Or.inl h), fun h => hskip (Or.inr h), he, ?_⟩
        simp only [hdd, if_false]
        exact hout


theorem cleanElems_replay (rooted : Bool) (out : List (List Char))
    (h : cleanStack rooted out) : cleanElems rooted [] out.reverse = out := by
  induction out with
  | nil => rfl
  | cons e below ih =>
    rw [List.reverse_cons, cleanElems_append, ih (cleanStack_below rooted e below h)]
    obtain ⟨h1, h2, _, h4⟩ := h
    by_cases hdd : e = ['.', '.']
    · subst hdd
      simp only [if_true] at h4
      obtain ⟨hr, hall⟩ := h4
      subst hr
      cases below with
      | nil => simp [cleanElems]
      | cons top rest =>
        have : top = ['.', '.'] := hall top (List.mem_cons_self _ _)
        subst this
        simp [cleanElems]
    · simp [cleanElems, h1, h2, hdd]

theorem splitSlash_intercalate (xs : List (List Char)) (hne : xs ≠ [])
    (h : ∀ e ∈ xs, '/' ∉ e) : splitSlash (List.intercalate ['/'] xs) = xs := by
  induction xs with
  | nil => exact absurd rfl hne
  | cons x rest ih =>
    have hx : '/' ∉ x := h x (List.mem_cons_self _ _)
    cases rest with
    | nil => simpa [List.intercalate] using splitSlash_ext x hx
    | cons y ys =>
      have hrest := ih (by simp) (fun e he => h e (List.mem_cons_of_mem _ he))
      have hi : List.intercalate ['/'] (x :: y :: ys) =
          x ++ '/' :: List.intercalate ['/'] (y :: ys) := by
        simp [List.intercalate, List.intersperse]
      rw [hi, splitSlash_append_slash, splitSlash_ext x hx, hrest]
      rfl

theorem intercalate_head (xs : List (List Char)) (hne : xs ≠ [])
    (h : ∀ e ∈ xs, e ≠ [] ∧ '/' ∉ e) :
    ∃ c cs, List.intercalate ['/'] xs = c :: cs ∧ c ≠ '/' := by
  cases xs with
  | nil => exact absurd rfl hne
  | cons x rest =>
    obtain ⟨hx0, hx1⟩ := h x (List.mem_cons_self _ _)
    cases x with
    | nil => exact absurd rfl hx0
    | cons c cs =>
      have hc : c ≠ '/' := fun hc => hx1 (hc ▸ List.mem_cons_self _ _)
      cases rest with
      | nil => exact ⟨c, cs, by simp [List.intercalate], hc⟩
      | cons y ys =>
        exact ⟨c, cs ++ '/' :: List.intercalate ['/'] (y :: ys),
          by simp [List.intercalate, List.intersperse], hc⟩

theorem cleanStack_elems (rooted : Bool) (out : List (List Char)) (h : cleanStack rooted out) :
    ∀ e ∈ out, e ≠ [] ∧ '/' ∉ e := by
  induction out with
  | nil => simp
  | cons e below ih =>
    intro x hx
    rcases List.mem_cons.mp hx with rfl | hx
    · exact ⟨h.1, h.2.2.1⟩
    · exact ih (cleanStack_below rooted e below h) x hx

/-- The elements `filepath.Clean` keeps of a path, last one first. -/
theorem Clean_eq (a : String) (ha : a ≠ "") :
    Clean a =
      if a.data.head? = some '/' then
        ⟨'/' :: List.intercalate ['/']
          (cleanElems (decide (a.data.head? = some '/')) [] (splitSlash a.data)).reverse⟩
      else if List.intercalate ['/']
          (cleanElems (decide (a.data.head? = some '/')) [] (splitSlash a.data)).reverse = []
        then "."
      else ⟨List.intercalate ['/']
          (cleanElems (decide (a.data.head? = some '/')) [] (splitSlash a.data)).reverse⟩ := by
  unfold Clean
  simp only [ha, if_false]

theorem Clean_stack (a : String) :
    cleanStack (decide (a.data.head? = some '/'))
      (cleanElems (decide (a.data.head? = some '/')) [] (splitSlash a.data)) :=
  cleanElems_stack _ [] _ trivial (splitSlash_no_slash a.data)


theorem Clean_congr (a b : String) (ha : a ≠ "") (hb : b ≠ "")
    (hr : (a.data.head? = some '/') ↔ (b.data.head? = some '/'))
    (he : cleanElems (decide (a.data.head? = some '/')) [] (splitSlash a.data) =
      cleanElems (decide (a.data.head? = some '/')) [] (splitSlash b.data)) :
    Clean a = Clean b := by
  rw [Clean_eq a ha, Clean_eq b hb]
  have hd : decide (b.data.head? = some '/') = decide (a.data.head? = some '/') := by
    simp only [decide_eq_decide]; exact hr.symm
  rw [hd, he]
  by_cases h : b.data.head? = some '/'
  · rw [if_pos h, if_pos (hr.mpr h)]
  · rw [if_neg h, if_neg (fun x => h (hr.mp x))]

theorem Clean_data_ne_nil (a : String) : (Clean a).data ≠ [] := by
  by_cases ha : a = ""
  · subst ha; decide
  · rw [Clean_eq a ha]
    split_ifs with h1 h2
    · exact List.cons_ne_nil _ _
    · exact List.cons_ne_nil _ _
    · exact h2

theorem Clean_ne_empty (a : String) : Clean a ≠ "" := by
  intro h
  exact Clean_data_ne_nil a (by rw [h])

theorem Clean_rooted (a : String) (ha : a ≠ "") :
    ((Clean a).data.head? = some '/') ↔ (a.data.head? = some '/') := by
  rw [Clean_eq a ha]
  by_cases h : a.data.head? = some '/'
  · rw [if_pos h]
    simp [h]
  · rw [if_neg h]
    refine iff_of_false ?_ h
    split_ifs with h2
    · decide
    · have hstack := Clean_stack a
      have hne : (cleanElems (decide (a.data.head? = some '/')) []
          (splitSlash a.data)).reverse ≠ [] := by
        intro hnil
        rw [hnil] at h2
        exact h2 rfl
      obtain ⟨c, cs, hc, hcs⟩ := intercalate_head _ hne (by
        intro e he
        exact cleanStack_elems _ _ hstack e (List.mem_reverse.mp he))
      rw [hc]
      simpa using hcs

theorem Clean_elems (a : String) (ha : a ≠ "") :
    cleanElems (decide (a.data.head? = some '/')) [] (splitSlash (Clean a).data) =
      cleanElems (decide (a.data.head? = some '/')) [] (splitSlash a.data) := by
  have hstack := Clean_stack a
  rw [Clean_eq a ha]
  generalize hr : decide (a.data.head? = some '/') = rooted at hstack ⊢
  generalize hout : cleanElems rooted [] (splitSlash a.data) = out at hstack ⊢
  by_cases hnil : out = []
  · subst hnil
    by_cases h : a.data.head? = some '/'
    · rw [if_pos h]
      simp [List.intercalate, splitSlash, cleanElems]
    · rw [if_neg h]
      simp [List.intercalate, splitSlash, cleanElems]
  · have hrev : out.reverse ≠ [] := by simpa using hnil
    have helems : ∀ e ∈ out.reverse, e ≠ [] ∧ '/' ∉ e := fun e he =>
      cleanStack_elems _ _ hstack e (List.mem_reverse.mp he)
    have hsplit := splitSlash_intercalate out.reverse hrev (fun e he => (helems e he).2)
    obtain ⟨c, cs, hc, _⟩ := intercalate_head _ hrev helems
    have hreplay := cleanElems_replay rooted out hstack
    by_cases h : a.data.head? = some '/'
    · rw [if_pos h]
      rw [show ('/' :: List.intercalate ['/'] out.reverse) =
          [] ++ '/' :: List.intercalate ['/'] out.reverse from rfl,
        splitSlash_append_slash, hsplit, cleanElems_append]
      simpa [splitSlash, cleanElems] using hreplay
    · have hI : List.intercalate ['/'] out.reverse ≠ [] := by rw [hc]; simp
      rw [if_neg h, if_neg hI, hsplit]
      exact hreplay


theorem head?_append_of_ne_nil (x y : List Char) (hx : x ≠ []) :
    (x ++ y).head? = x.head? := by
  cases x with
  | nil => exact absurd rfl hx
  | cons c cs => rfl

theorem String_ne_empty_of_data (a : String) (h : a.data ≠ []) : a ≠ "" := by
  intro ha
  exact h (by rw [ha])

/-- Cleaning a path before an element is joined to it changes nothing. -/
theorem Clean_Clean_append (a : String) (b : List Char) (ha : a ≠ "") :
    Clean ⟨(Clean a).data ++ '/' :: b⟩ = Clean ⟨a.data ++ '/' :: b⟩ := by
  have hadata : a.data ≠ [] := fun h => ha (by
    cases a; simp only at h; subst h; rfl)
  have hhead : ((Clean a).data ++ '/' :: b).head? = some '/' ↔
      (a.data ++ '/' :: b).head? = some '/' := by
    rw [head?_append_of_ne_nil _ _ (Clean_data_ne_nil a), head?_append_of_ne_nil _ _ hadata]
    exact Clean_rooted a ha
  apply Clean_congr
  · exact String_ne_empty_of_data _ (by simp)
  · exact String_ne_empty_of_data _ (by simp)
  · exact hhead
  · simp only [splitSlash_append_slash, cleanElems_append]
    congr 1
    have hflag : decide (((Clean a).data ++ '/' :: b).head? = some '/') =
        decide (a.data.head? = some '/') := by
      rw [head?_append_of_ne_nil _ _ (Clean_data_ne_nil a)]
      simp only [decide_eq_decide]
      exact Clean_rooted a ha
    rw [hflag]
    exact Clean_elems a ha


theorem intercalate_snoc (xs : List (List Char)) (e : List Char) (hne : xs ≠ []) :
    List.intercalate ['/'] (xs ++ [e]) = List.intercalate ['/'] xs ++ '/' :: e := by
  induction xs with
  | nil => exact absurd rfl hne
  | cons x rest ih =>
    cases rest with
    | nil => simp [List.intercalate, List.intersperse]
    | cons y ys =>
      have h := ih (by simp)
      have e1 : List.intercalate ['/'] (x :: y :: ys ++ [e]) =
          x ++ '/' :: List.intercalate ['/'] (y :: ys ++ [e]) := by
        simp [List.intercalate, List.intersperse]
      have e2 : List.intercalate ['/'] (x :: y :: ys) =
          x ++ '/' :: List.intercalate ['/'] (y :: ys) := by
        simp [List.intercalate, List.intersperse]
      rw [e1, e2, h, List.append_assoc]
      rfl

/-- Joining one more proper element to a cleaned path appends it. -/
theorem Clean_append_elem (a : String) (e : List Char)
    (h0 : e ≠ []) (h1 : e ≠ ['.']) (h2 : e ≠ ['.', '.']) (hs : '/' ∉ e)
    (hroot : Clean a ≠ "/") (hdot : Clean a ≠ ".") :
    Clean ⟨(Clean a).data ++ '/' :: e⟩ = ⟨(Clean a).data ++ '/' :: e⟩ := by
  have ha : a ≠ "" := by
    intro h; subst h; exact hdot (by decide)
  have hadata : a.data ≠ [] := fun h => ha (by
    cases a; simp only at h; subst h; rfl)
  rw [Clean_Clean_append a e ha]
  have hb : (⟨a.data ++ '/' :: e⟩ : String) ≠ "" := String_ne_empty_of_data _ (by simp)
  have hstack := Clean_stack a
  rw [Clean_eq _ hb]
  simp only [head?_append_of_ne_nil _ _ hadata, splitSlash_append_slash, cleanElems_append,
    splitSlash_ext e hs]
  rw [Clean_eq a ha] at hroot hdot ⊢
  generalize hr : decide (a.data.head? = some '/') = rooted at hstack hroot hdot ⊢
  generalize hout : cleanElems rooted [] (splitSlash a.data) = out at hstack hroot hdot ⊢
  have hpush : cleanElems rooted out [e] = e :: out := by
    simp [cleanElems, h0, h1, h2]
  rw [hpush, List.reverse_cons]
  by_cases hnil : out = []
  · subst hnil
    by_cases h : a.data.head? = some '/'
    · rw [if_pos h] at hroot
      exact absurd (by simp [List.intercalate]) hroot
    · rw [if_neg h] at hdot
      exact absurd (by simp [List.intercalate]) hdot
  · have hrev : out.reverse ≠ [] := by simpa using hnil
    have helems : ∀ x ∈ out.reverse, x ≠ [] ∧ '/' ∉ x := fun x hx =>
      cleanStack_elems _ _ hstack x (List.mem_reverse.mp hx)
    obtain ⟨c, cs, hc, _⟩ := intercalate_head _ hrev helems
    have hI : List.intercalate ['/'] out.reverse ≠ [] := by rw [hc]; simp
    rw [intercalate_snoc _ _ hrev]
    by_cases h : a.data.head? = some '/'
    · rw [if_pos h, if_pos h]
      rfl
    · rw [if_neg h, if_neg h, if_neg hI, if_neg (by simp)]

theorem Join_two (a b : String) (ha : a ≠ "") :
    Join [a, b] = Clean ⟨a.data ++ '/' :: b.data⟩ := by
  simp [Join, ha, stringsJoin, List.intercalate]

theorem Join_assoc (s x y : String) (hx : x ≠ "") :
    Join [Join [s, x], y] = Join [s, x, y] := by
  by_cases hs : s = ""
  · subst hs
    have h1 : Join ["", x] = Clean x := by
      simp [Join, hx, stringsJoin, List.intercalate]
    have h2 : Join ["", x, y] = Clean ⟨x.data ++ '/' :: y.data⟩ := by
      simp [Join, hx, stringsJoin, List.intercalate]
    rw [h1, h2, Join_two _ _ (Clean_ne_empty x)]
    exact Clean_Clean_append x y.data hx
  · have h2 : Join [s, x, y] = Clean ⟨(s.data ++ '/' :: x.data) ++ '/' :: y.data⟩ := by
      simp [Join, hs, stringsJoin, List.intercalate]
    rw [Join_two s x hs, h2, Join_two _ _ (Clean_ne_empty _)]
    exact Clean_Clean_append ⟨s.data ++ '/' :: x.data⟩ y.data
      (String_ne_empty_of_data _ (by simp))

/-! ## The file system: what is there stays there -/

theorem lookup_set_keeps (fs : FS) (path q : String) (n : Node)
    (h : fs.lookup q ≠ none) : (fs.set path n).lookup q ≠ none := by
  unfold FS.lookup FS.set at *
  by_cases hi : implicitDir q = true
  · simp [hi]
  · by_cases hq : q = path
    · subst hq
      simp [hi]
    · simpa [hi, hq] using h

theorem Mkdir_keeps (fs fs' : FS) (name q : String) (perm : FileMode)
    (hm : fs.Mkdir name perm = Except.ok fs') (h : fs.lookup q ≠ none) :
    fs'.lookup q ≠ none := by
  unfold FS.Mkdir at hm
  split at hm
  · cases hm
  · split at hm
    · cases hm
    · cases hm
    · split_ifs at hm
      cases hm
      exact lookup_set_keeps fs name q _ h

theorem MkdirAllFuel_made (path q : String) (perm : FileMode)
    (made : Option PathError × FS) (h : made.2.lookup q ≠ none) :
    (match made with
      | (some e, fs1) => (some e, fs1)
      | (none, fs1) =>
        match fs1.Mkdir path perm with
        | Except.ok fs2 => ((none : Option PathError), fs2)
        | Except.error e =>
          match fs1.lookup path with
          | some (Node.dir _) => (none, fs1)
          | _ => (some e, fs1)).2.lookup q ≠ none := by
  rcases made with ⟨err, fs1⟩
  cases err with
  | some e => exact h
  | none =>
    simp only
    cases hm : fs1.Mkdir path perm with
    | ok fs2 => exact Mkdir_keeps fs1 fs2 path q perm hm h
    | error e =>
      simp only
      split <;> exact h

theorem MkdirAllFuel_keeps (fuel : Nat) (fs : FS) (path q : String) (perm : FileMode)
    (h : fs.lookup q ≠ none) : (FS.MkdirAllFuel fuel fs path perm).2.lookup q ≠ none := by
  induction fuel generalizing fs path with
  | zero =>
    rw [FS.MkdirAllFuel.eq_2 fs path perm 0 (fun _ _ h0 _ => Nat.noConfusion h0)]
    split
    · exact h
    · exact h
    · exact MkdirAllFuel_made path q perm (none, fs) h
  | succ n ih =>
    cases hp : mkdirParent path with
    | none =>
      rw [FS.MkdirAllFuel.eq_2 fs path perm (n + 1)
        (fun _ _ _ hs => by rw [hp] at hs; cases hs)]
      split
      · exact h
      · exact h
      · exact MkdirAllFuel_made path q perm (none, fs) h
    | some parent =>
      rw [FS.MkdirAllFuel.eq_1 fs path perm n parent hp]
      split
      · exact h
      · exact h
      · exact MkdirAllFuel_made path q perm _ (ih fs parent h)

theorem OpenFile_keeps (fs fs' : FS) (name q : String) (perm : FileMode)
    (hw : fs.OpenFile name perm = Except.ok fs') (h : fs.lookup q ≠ none) :
    fs'.lookup q ≠ none := by
  obtain ⟨_, mode, rfl⟩ := OpenFile_ok fs fs' name perm hw
  exact lookup_set_keeps fs name q _ h

theorem Write_keeps (fs : FS) (name q : String) (data : Bytes)
    (h : fs.lookup q ≠ none) : (fs.Write name data).2.lookup q ≠ none := by
  unfold FS.Write
  split
  · split
    · exact lookup_set_keeps fs name q _ h
    · split
      · exact lookup_set_keeps fs name q _ h
      · exact lookup_set_keeps fs name q _ h
  · exact h

theorem WriteFile_keeps (fs : FS) (name q : String) (data : Bytes) (perm : FileMode)
    (h : fs.lookup q ≠ none) : (fs.WriteFile name data perm).2.lookup q ≠ none := by
  unfold FS.WriteFile
  cases ho : fs.OpenFile name perm with
  | error e => exact h
  | ok fs0 => exact Write_keeps fs0 name q data (OpenFile_keeps fs fs0 name q perm ho h)

theorem WriteFile_keeps_eq (fs fs' : FS) (name q : String) (data : Bytes) (perm : FileMode)
    (err : Option PathError) (hw : fs.WriteFile name data perm = (err, fs'))
    (h : fs.lookup q ≠ none) : fs'.lookup q ≠ none := by
  have := WriteFile_keeps fs name q data perm h
  rw [hw] at this
  exact this

theorem Chmod_keeps (fs : FS) (name q : String) (mode : FileMode)
    (h : fs.lookup q ≠ none) : (fs.Chmod name mode).lookup q ≠ none := by
  unfold FS.Chmod
  split
  · exact lookup_set_keeps fs name q _ h
  · exact h

theorem saveRSAPrivateKey_keeps (pem : String → Bytes → Bytes) (fs : FS)
    (key : Option PrivateKey) (file q : String) (h : fs.lookup q ≠ none) :
    (saveRSAPrivateKey pem fs key file).2.lookup q ≠ none := by
  unfold saveRSAPrivateKey
  cases key with
  | none => exact h
  | some key =>
    simp only
    cases hc : fs.Create file with
    | error e => exact h
    | ok fs1 =>
      have h1 : fs1.lookup q ≠ none := OpenFile_keeps fs fs1 file q _ hc h
      have h2 := Write_keeps (fs1.Chmod file 0o600) file q (pem "RSA PRIVATE KEY" key.der)
        (Chmod_keeps _ _ _ _ h1)
      simp only
      generalize (fs1.Chmod file 0o600).Write file (pem "RSA PRIVATE KEY" key.der) = w at h2 ⊢
      rcases w with ⟨err, fs2⟩
      cases err <;> exact h2

theorem saveCertResource_keeps (ws : Storage) (fs : FS) (cert : CertificateResource)
    (q : String) (h : fs.lookup q ≠ none) :
    (saveCertResource ws fs cert).2.lookup q ≠ none := by
  unfold saveCertResource
  have h1 := MkdirAllFuel_keeps (Storage.Site ws cert.Domain).length fs
    (Storage.Site ws cert.Domain) q 0o700 h
  unfold FS.MkdirAll
  generalize FS.MkdirAllFuel (Storage.Site ws cert.Domain).length fs
    (Storage.Site ws cert.Domain) 0o700 = made at h1 ⊢
  rcases made with ⟨err, fs1⟩
  cases err with
  | some e => exact h1
  | none =>
    simp only
    rcases hw1 : fs1.WriteFile (Storage.SiteCertFile ws cert.Domain) cert.Certificate 0o600
      with ⟨e1, fs2⟩
    have h2 := WriteFile_keeps_eq _ _ _ q _ _ _ hw1 h1
    cases e1 with
    | some e => exact h2
    | none =>
      simp only
      rcases hw2 : fs2.WriteFile (Storage.SiteKeyFile ws cert.Domain) cert.PrivateKey 0o600
        with ⟨e2, fs3⟩
      have h3 := WriteFile_keeps_eq _ _ _ q _ _ _ hw2 h2
      cases e2 with
      | some e => exact h3
      | none =>
        simp only
        rcases hw3 : fs3.WriteFile (Storage.SiteMetaFile ws cert.Domain)
            (stringBytes cert.MarshalIndent) 0o600 with ⟨e3, fs4⟩
        have h4 := WriteFile_keeps_eq _ _ _ q _ _ _ hw3 h3
        cases e3 <;> exact h4

theorem saveUser_keeps (pem : String → Bytes → Bytes) (ws : Storage) (fs : FS) (user : User)
    (q : String) (h : fs.lookup q ≠ none) :
    (saveUser pem ws fs user).2.lookup q ≠ none := by
  unfold saveUser
  have h1 := MkdirAllFuel_keeps (Storage.User ws user.Email).length fs
    (Storage.User ws user.Email) q 0o700 h
  unfold FS.MkdirAll
  generalize FS.MkdirAllFuel (Storage.User ws user.Email).length fs
    (Storage.User ws user.Email) 0o700 = made at h1 ⊢
  rcases made with ⟨err, fs1⟩
  cases err with
  | some e => exact h1
  | none =>
    simp only
    have h2 := saveRSAPrivateKey_keeps pem fs1 user.key (Storage.UserKeyFile ws user.Email) q h1
    generalize saveRSAPrivateKey pem fs1 user.key (Storage.UserKeyFile ws user.Email) = saved
      at h2 ⊢
    rcases saved with ⟨e2, fs2⟩
    cases e2 with
    | some e => exact h2
    | none =>
      simp only
      rcases hw : fs2.WriteFile (Storage.UserRegFile ws user.Email)
          (stringBytes user.MarshalIndent) 0o600 with ⟨e3, fs3⟩
      have h3 := WriteFile_keeps_eq _ _ _ q _ _ _ hw h2
      cases e3 <;> exact h3

/-! ## What is stored stays stored -/

theorem existing_keeps (ws : Storage) (fs fs' : FS) (host : String)
    (hkeep : ∀ q, fs.lookup q ≠ none → fs'.lookup q ≠ none)
    (h : existingCertAndKey ws fs host = true) : existingCertAndKey ws fs' host = true := by
  rw [existingCertAndKey_eq] at h ⊢
  simp only [Bool.and_eq_true, Option.isSome_iff_ne_none] at h ⊢
  exact ⟨hkeep _ h.1, hkeep _ h.2⟩

theorem step_fs (env : Env) (c : Ctl) (st : State) :
    (step env (c, st)).2.fs = st.fs ∨
    (∃ n d, (step env (c, st)).2.fs = env.Sleep n d st.fs) ∨
    (∃ cert, (step env (c, st)).2.fs = (saveCertResource env.Workspace st.fs cert).2) := by
  cases c with
  | ret err => exact Or.inl (by simp [step])
  | forLoop bundles =>
    match bundles with
    | [] => exact Or.inl (by simp [step])
    | [] :: rest => exact Or.inl (by simp [step, State.emit])
    | (p :: o) :: rest => exact Or.inl (by simp [step])
  | Obtain primary others rest =>
    cases hfound : existingCertAndKey env.Workspace st.fs primary with
    | true =>
      rw [step_existing env primary others rest st hfound]
      exact Or.inl rfl
    | false =>
      rcases hans : env.ObtainCertificate st.obtained (primary :: others) with ⟨cert, failures⟩
      by_cases hne : failures = []
      · subst hne
        cases hsave : saveCertResource env.Workspace st.fs cert with
        | mk err fs =>
          cases err with
          | none =>
            rw [step_saved env primary others rest st cert fs hfound hans hsave]
            exact Or.inr (Or.inr ⟨cert, by rw [hsave]⟩)
          | some err =>
            rw [step_save_failed env primary others rest st cert fs err hfound hans hsave]
            exact Or.inr (Or.inr ⟨cert, by rw [hsave]⟩)
      · cases hre : firstReaction failures with
        | none =>
          rw [step_obtainError env primary others rest st cert failures hfound hans hne hre]
          exact Or.inl rfl
        | some r =>
          cases r with
          | rateLimited domain err =>
            rw [step_rateLimited env primary others rest st cert failures domain err
              hfound hans hre]
            exact Or.inr (Or.inl ⟨_, _, rfl⟩)
          | tos domain err =>
            cases hagree : env.AgreeToTOS st.agreed with
            | none =>
              rw [step_tos_agreed env primary others rest st cert failures domain err
                hfound hans hre hagree]
              exact Or.inl rfl
            | some refusal =>
              rw [step_tos_refused env primary others rest st cert failures domain err refusal
                hfound hans hre hagree]
              exact Or.inl rfl

theorem step_keeps (env : Env) (p : String)
    (hquiet : ∀ n d fs, existingCertAndKey env.Workspace fs p = true →
      existingCertAndKey env.Workspace (env.Sleep n d fs) p = true)
    (c : Ctl) (st : State) (h : existingCertAndKey env.Workspace st.fs p = true) :
    existingCertAndKey env.Workspace (step env (c, st)).2.fs p = true := by
  rcases step_fs env c st with h1 | ⟨n, d, h2⟩ | ⟨cert, h3⟩
  · rw [h1]; exact h
  · rw [h2]; exact hquiet n d st.fs h
  · rw [h3]
    exact existing_keeps _ _ _ _ (fun q => saveCertResource_keeps _ _ _ q) h

theorem step_no_obtain (env : Env) (p : String) (c : Ctl) (st : State)
    (h : existingCertAndKey env.Workspace st.fs p = true) (others : List String) :
    Event.ObtainCertificate (p :: others) ∉ (step env (c, st)).2.trace.drop st.trace.length := by
  intro hmem
  obtain ⟨primary, others', rest, _, hd, hfalse⟩ := step_obtain_event env c st _ hmem
  have hp : p = primary := (List.cons.inj hd).1
  subst hp
  rw [h] at hfalse
  cases hfalse

theorem run_no_obtain (env : Env) (p : String)
    (hquiet : ∀ n d fs, existingCertAndKey env.Workspace fs p = true →
      existingCertAndKey env.Workspace (env.Sleep n d fs) p = true)
    (fuel : Nat) (c : Ctl) (st : State)
    (h : existingCertAndKey env.Workspace st.fs p = true) :
    existingCertAndKey env.Workspace (run env fuel (c, st)).2.fs p = true ∧
    ∀ others, Event.ObtainCertificate (p :: others) ∉
      (run env fuel (c, st)).2.trace.drop st.trace.length := by
  induction fuel generalizing c st with
  | zero => exact ⟨h, fun others => by simp [run]⟩
  | succ n ih =>
    obtain ⟨chunk, h1, _⟩ := step_trace_guarded env c st
    have hk := step_keeps env p hquiet c st h
    obtain ⟨hfs, hno⟩ := ih (step env (c, st)).1 (step env (c, st)).2 hk
    refine ⟨by rw [run_succ]; exact hfs, fun others => ?_⟩
    obtain ⟨chunk', h2, _⟩ := run_trace_guarded env n (step env (c, st)).1 (step env (c, st)).2
    have hstep := step_no_obtain env p c st h others
    have hrun := hno others
    rw [h2, List.drop_left] at hrun
    rw [h1, List.drop_left] at hstep
    rw [run_succ, h2, h1, List.append_assoc, List.drop_left]
    simp only [List.mem_append, not_or]
    exact ⟨hstep, hrun⟩

theorem newClient_fs (env : Env) (st : State) :
    (newClient env st).2.fs = st.fs ∨
    ∃ user, (newClient env st).2.fs = (saveUser env.pem env.Workspace st.fs user).2 := by
  unfold newClient
  simp only [State.emit]
  split
  · exact Or.inl rfl
  · split
    · exact Or.inl rfl
    · split
      · exact Or.inl rfl
      · split
        · exact Or.inl rfl
        · split
          · exact Or.inl rfl
          · split <;> rename_i heq <;> exact Or.inr ⟨_, by rw [heq]⟩

theorem newClient_no_obtain (env : Env) (st : State) (domains : List String) :
    Event.ObtainCertificate domains ∉ (newClient env st).2.trace.drop st.trace.length := by
  unfold newClient
  simp only [State.emit]
  split
  · simp
  · split
    · simp
    · split
      · simp
      · split
        · simp
        · split
          · simp
          · split <;> simp

theorem ObtainCerts_no_obtain (env : Env) (p : String)
    (hquiet : ∀ n d fs, existingCertAndKey env.Workspace fs p = true →
      existingCertAndKey env.Workspace (env.Sleep n d fs) p = true)
    (fuel : Nat) (st : State) (bundles : List (List String))
    (h : existingCertAndKey env.Workspace st.fs p = true) (others : List String) :
    Event.ObtainCertificate (p :: others) ∉
      (ObtainCerts env fuel st bundles).2.trace.drop st.trace.length := by
  unfold ObtainCerts
  split
  · simp
  · have hno := newClient_no_obtain env st (p :: others)
    obtain ⟨chunk, h1, _⟩ := newClient_trace_guarded env st
    have hk : existingCertAndKey env.Workspace (newClient env st).2.fs p = true := by
      rcases newClient_fs env st with h0 | ⟨user, h2⟩
      · rw [h0]; exact h
      · rw [h2]
        exact existing_keeps _ _ _ _ (fun q => saveUser_keeps _ _ _ _ q) h
    split
    · rename_i err st1 heq
      rw [heq] at hno
      exact hno
    · rename_i st1 heq
      rw [heq] at hno h1 hk
      simp only at hno h1 hk
      obtain ⟨_, hrun⟩ := run_no_obtain env p hquiet fuel (Ctl.forLoop bundles) st1 hk
      have hrun := hrun others
      obtain ⟨chunk', h2, _⟩ := run_trace_guarded env fuel (Ctl.forLoop bundles) st1
      rw [h2, List.drop_left] at hrun
      rw [h1, List.drop_left] at hno
      rw [h2, h1, List.append_assoc, List.drop_left]
      simp only [List.mem_append, not_or]
      exact ⟨hno, hrun⟩

/-! ## A saved bundle is not obtained again -/

theorem SiteCertFile_lower (ws : Storage) (d d' : String) (h : ToLower d' = ToLower d) :
    Storage.SiteCertFile ws d' = Storage.SiteCertFile ws d := by
  simp only [Storage.SiteCertFile, Storage.Site, h]

theorem SiteKeyFile_lower (ws : Storage) (d d' : String) (h : ToLower d' = ToLower d) :
    Storage.SiteKeyFile ws d' = Storage.SiteKeyFile ws d := by
  simp only [Storage.SiteKeyFile, Storage.Site, h]

theorem existingCertAndKey_lower (ws : Storage) (fs : FS) (d d' : String)
    (h : ToLower d' = ToLower d) :
    existingCertAndKey ws fs d' = existingCertAndKey ws fs d := by
  rw [existingCertAndKey_eq, existingCertAndKey_eq, SiteCertFile_lower ws d d' h,
    SiteKeyFile_lower ws d d' h]

theorem saveCertResource_existing (ws : Storage) (fs fs' : FS) (cert : CertificateResource)
    (h : saveCertResource ws fs cert = (none, fs')) :
    existingCertAndKey ws fs' cert.Domain = true ∧
    implicitDir (Storage.SiteCertFile ws cert.Domain) = false := by
  obtain ⟨fs1, fs2, fs3, _, h2, h3, h4⟩ := saveCertResource_ok ws fs fs' cert h
  obtain ⟨i2, m2, e2⟩ := WriteFile_ok _ _ _ _ _ h2
  obtain ⟨i3, m3, e3⟩ := WriteFile_ok _ _ _ _ _ h3
  have c2 : fs2.lookup (Storage.SiteCertFile ws cert.Domain) ≠ none := by
    rw [e2, lookup_set_same _ _ _ i2]; simp
  have k3 : fs3.lookup (Storage.SiteKeyFile ws cert.Domain) ≠ none := by
    rw [e3, lookup_set_same _ _ _ i3]; simp
  have c3 := WriteFile_keeps_eq _ _ _ _ _ _ _ h3 c2
  have c4 := WriteFile_keeps_eq _ _ _ _ _ _ _ h4 c3
  have k4 := WriteFile_keeps_eq _ _ _ _ _ _ _ h4 k3
  refine ⟨?_, i2⟩
  rw [existingCertAndKey_eq]
  simp only [Bool.and_eq_true, Option.isSome_iff_ne_none]
  exact ⟨c4, k4⟩

/-- C11: for every domain and every store, after `saveCertResource` has
succeeded for a resource whose `Domain` is `d`, `existingCertAndKey d'` is true
for every `d'` that equals `d` up to letter case (the two have the same lower
case, in ASCII and outside it); on the empty store it is false for the same
`d'`, so it may be false before the save. -/
theorem saveCertResource_then_existing (ws : Storage) (fs fs' : FS)
    (cert : CertificateResource) (d' : String)
    (hsave : saveCertResource ws fs cert = (none, fs'))
    (hcase : ToLower d' = ToLower cert.Domain) :
    existingCertAndKey ws fs' d' = true ∧ existingCertAndKey ws FS.empty d' = false := by
  obtain ⟨hex, himp⟩ := saveCertResource_existing ws fs fs' cert hsave
  rw [existingCertAndKey_lower ws fs' _ _ hcase, existingCertAndKey_lower ws FS.empty _ _ hcase]
  refine ⟨hex, ?_⟩
  rw [existingCertAndKey_eq]
  simp [FS.lookup, FS.empty, himp]

set_option maxRecDepth 100000 in
/-- Witness of C11: `TestExistingCertAndKey`.  The domain has no certificate and
key on the empty store, and has them after the save, under any letter case; so
has a domain with a letter outside ASCII, saved as `éxample.com` and asked for
as `ÉXAMPLE.com`. -/
theorem saveCertResource_then_existing_witness :
    existingCertAndKey "./le_test_existing" FS.empty "example.com" = false ∧
    existingCertAndKey "./le_test_existing"
      (saveCertResource "./le_test_existing" FS.empty (sampleCert "example.com")).2
      "example.com" = true ∧
    existingCertAndKey "./le_test_existing"
      (saveCertResource "./le_test_existing" FS.empty (sampleCert "example.com")).2
      "Example.COM" = true ∧
    existingCertAndKey "./le_test_existing"
      (saveCertResource "./le_test_existing" FS.empty (sampleCert "éxample.com")).2
      "ÉXAMPLE.com" = true :=
  have h := fun d hd => saveCertResource_then_existing "./le_test_existing" FS.empty
    (saveCertResource "./le_test_existing" FS.empty (sampleCert "example.com")).2
    (sampleCert "example.com") d (Prod.ext (by decide) rfl) hd
  ⟨(h "example.com" rfl).2, (h "example.com" rfl).1, (h "Example.COM" (by decide)).1,
   (saveCertResource_then_existing "./le_test_existing" FS.empty
      (saveCertResource "./le_test_existing" FS.empty (sampleCert "éxample.com")).2
      (sampleCert "éxample.com") "ÉXAMPLE.com" (Prod.ext (by decide) rfl) (by decide)).1⟩

/-- C12: once a bundle has been obtained and saved (the CA returned, without
failures, a resource whose `Domain` is the primary domain of the bundle, and
`saveCertResource` succeeded), the certificate and the key of the primary domain
are in the store and stay there, and every later bundle with the same primary
domain is skipped without a call of `ObtainCertificate`: in the rest of the same
run, whatever the bundles left, and in every later run of `ObtainCerts` on the
store this run has left, whatever its bundles, its user and its CA.  The store
is taken to be left alone by others: what else happens to it while the program
sleeps does not remove the certificate and the key of this domain. -/
theorem ObtainCerts_saved_skipped (env : Env) (primary : String) (others : List String)
    (rest : List (List String)) (st : State) (cert : CertificateResource) (fs : FS)
    (hquiet : ∀ n d fs, existingCertAndKey env.Workspace fs primary = true →
      existingCertAndKey env.Workspace (env.Sleep n d fs) primary = true)
    (hfound : existingCertAndKey env.Workspace st.fs primary = false)
    (hans : env.ObtainCertificate st.obtained (primary :: others) = (cert, []))
    (hdom : ToLower cert.Domain = ToLower primary)
    (hsave : saveCertResource env.Workspace st.fs cert = (none, fs)) :
    ∃ st1, step env (Ctl.Obtain primary others rest, st) = (Ctl.forLoop rest, st1) ∧
      st1.fs = fs ∧
      (∀ fuel, existingCertAndKey env.Workspace
        (run env fuel (Ctl.forLoop rest, st1)).2.fs primary = true) ∧
      (∀ fuel others1,
        Event.ObtainCertificate (primary :: others1) ∉
          (run env fuel (Ctl.forLoop rest, st1)).2.trace.drop st1.trace.length) ∧
      (∀ fuel others1 rest1 st2,
        run env fuel (Ctl.forLoop rest, st1) = (Ctl.Obtain primary others1 rest1, st2) →
        step env (Ctl.Obtain primary others1 rest1, st2) =
          (Ctl.forLoop rest1,
            st2.emit [Event.existingCertAndKey primary true,
                      Event.log (LogLine.existing primary (primary :: others1))])) ∧
      (∀ (env1 : Env) fuel fuel1 (st0 : State) bundles others1,
        env1.Workspace = env.Workspace →
        (∀ n d fs, existingCertAndKey env1.Workspace fs primary = true →
          existingCertAndKey env1.Workspace (env1.Sleep n d fs) primary = true) →
        st0.fs = (run env fuel (Ctl.forLoop rest, st1)).2.fs →
        Event.ObtainCertificate (primary :: others1) ∉
          (ObtainCerts env1 fuel1 st0 bundles).2.trace.drop st0.trace.length) := by
  have hex : existingCertAndKey env.Workspace fs primary = true := by
    rw [← existingCertAndKey_lower env.Workspace fs _ _ hdom]
    exact (saveCertResource_existing env.Workspace st.fs fs cert hsave).1
  refine ⟨_, step_saved env primary others rest st cert fs hfound hans hsave, rfl, ?_⟩
  generalize hst1 : ({ st with
      fs := fs
      user := { st.user with rateLimiter := st.user.rateLimiter.Resume }
      trace := st.trace ++
        [Event.existingCertAndKey primary false,
         Event.ObtainCertificate (primary :: others),
         Event.saveCertResource cert,
         Event.Resume]
      obtained := st.obtained + 1 } : State) = st1
  have hex1 : existingCertAndKey env.Workspace st1.fs primary = true := by
    rw [← hst1]
    exact hex
  refine ⟨?_, ?_, ?_, ?_⟩
  · intro fuel
    exact (run_no_obtain env primary hquiet fuel _ st1 hex1).1
  · intro fuel others1
    exact (run_no_obtain env primary hquiet fuel _ st1 hex1).2 others1
  · intro fuel others1 rest1 st2 hrun
    have h2 := (run_no_obtain env primary hquiet fuel (Ctl.forLoop rest) st1 hex1).1
    rw [hrun] at h2
    exact step_existing env primary others1 rest1 st2 h2
  · intro env1 fuel fuel1 st0 bundles others1 hws hquiet1 hfs
    have h2 := (run_no_obtain env primary hquiet fuel (Ctl.forLoop rest) st1 hex1).1
    rw [← hfs, ← hws] at h2
    exact ObtainCerts_no_obtain env1 primary hquiet1 fuel1 st0 bundles h2 others1

set_option maxRecDepth 100000 in
/-- Witness of C12: the bundle `a.com` twice in one list, on an empty store.
The first is obtained and saved; from then on no call for `a.com` is made. -/
theorem ObtainCerts_saved_skipped_witness :
    existingCertAndKey "./certs_data" FS.empty "a.com" = false ∧
    (∃ st1,
      step (sampleEnv (sampleCert "a.com", []))
        (Ctl.Obtain "a.com" [] [["a.com"]], sampleState FS.empty) =
        (Ctl.forLoop [["a.com"]], st1) ∧
      ∀ fuel, Event.ObtainCertificate ["a.com"] ∉
        (run (sampleEnv (sampleCert "a.com", [])) fuel
          (Ctl.forLoop [["a.com"]], st1)).2.trace.drop st1.trace.length) := by
  obtain ⟨st1, hstep, _, _, hno, _, _⟩ :=
    ObtainCerts_saved_skipped (sampleEnv (sampleCert "a.com", [])) "a.com" [] [["a.com"]]
      (sampleState FS.empty) (sampleCert "a.com")
      (saveCertResource "./certs_data" FS.empty (sampleCert "a.com")).2
      (fun _ _ _ h => h) (by decide) rfl rfl (Prod.ext (by decide) rfl)
  exact ⟨by decide, st1, hstep, fun fuel => hno fuel []⟩

/-! ## storage.go: the layout of the paths -/

theorem String_data_ne_nil (a : String) (h : a ≠ "") : a.data ≠ [] := by
  intro hd
  apply h
  cases a
  simp only at hd
  subst hd
  rfl

theorem pathElement_data (e : String) (h : pathElement e) :
    e.data ≠ [] ∧ e.data ≠ ['.'] ∧ e.data ≠ ['.', '.'] ∧ '/' ∉ e.data := by
  obtain ⟨h0, h1, h2, h3⟩ := h
  refine ⟨String_data_ne_nil e h0, ?_, ?_, h3⟩
  · intro hd; apply h1; cases e; simp only at hd; subst hd; rfl
  · intro hd; apply h2; cases e; simp only at hd; subst hd; rfl

theorem pathElement_append_ext (e ext : String) (he : '/' ∉ e.data) (hext : '/' ∉ ext.data)
    (hlen : 3 ≤ ext.data.length) : pathElement (e ++ ext) := by
  have hl : 3 ≤ (e ++ ext).data.length := by
    simp only [String.data_append, List.length_append]; omega
  refine ⟨?_, ?_, ?_, ?_⟩
  · intro h; rw [h] at hl; simp at hl
  · intro h; rw [h] at hl; simp at hl
  · intro h; rw [h] at hl; simp at hl
  · simp only [String.data_append, List.mem_append, not_or]
    exact ⟨he, hext⟩

/-- Joining a proper element to a cleaned path that is neither the root nor the
working directory appends the element after a separator. -/
theorem Join_elem (a e : String) (he : pathElement e)
    (hroot : Clean a ≠ "/") (hdot : Clean a ≠ ".") :
    Join [Clean a, e] = Clean a ++ "/" ++ e := by
  obtain ⟨h0, h1, h2, h3⟩ := pathElement_data e he
  rw [Join_two _ _ (Clean_ne_empty a), Clean_append_elem a e.data h0 h1 h2 h3 hroot hdot]
  apply String.ext
  simp

theorem Join_is_Clean (s x : String) (hx : x ≠ "") : ∃ a, Join [s, x] = Clean a := by
  by_cases hs : s = ""
  · subst hs
    exact ⟨x, by simp [Join, hx, stringsJoin, List.intercalate]⟩
  · exact ⟨_, Join_two s x hs⟩

theorem ne_of_suffix (p : String) (ext : List Char) (h : ext <:+ p.data) (q : String)
    (hq : q.data.length < ext.length) : p ≠ q := by
  intro hpq
  subst hpq
  have := List.IsSuffix.length_le h
  omega

theorem Join_elem_of_Join (s x e : String) (hx : pathElement x) (hx3 : 3 ≤ x.data.length)
    (he : pathElement e) :
    Join [Join [s, x], e] = Join [s, x] ++ "/" ++ e := by
  obtain ⟨a, ha⟩ := Join_is_Clean s x hx.1
  have hsuf : x.data <:+ (Join [s, x]).data := by
    have := Join_suffix s "" x hx.2.2.2 hx3
    simpa using this
  have hroot : Join [s, x] ≠ "/" := ne_of_suffix _ _ hsuf "/" (by
    show 1 < x.data.length; omega)
  have hdot : Join [s, x] ≠ "." := ne_of_suffix _ _ hsuf "." (by
    show 1 < x.data.length; omega)
  rw [ha] at hroot hdot ⊢
  exact Join_elem a e he hroot hdot


theorem pathElement_sites : pathElement "sites" := ⟨by decide, by decide, by decide, by decide⟩

theorem pathElement_users : pathElement "users" := ⟨by decide, by decide, by decide, by decide⟩

theorem Site_eq (s : Storage) (domain : String) (h : pathElement (ToLower domain)) :
    Storage.Site s domain = Storage.Sites s ++ "/" ++ ToLower domain :=
  Join_elem_of_Join s "sites" (ToLower domain) pathElement_sites (by decide) h

theorem SiteFile_eq (s : Storage) (domain ext : String) (h : pathElement (ToLower domain))
    (hext : '/' ∉ ext.data) (hlen : 3 ≤ ext.data.length) :
    Join [Storage.Site s domain, ToLower domain ++ ext] =
      Storage.Site s domain ++ "/" ++ (ToLower domain ++ ext) := by
  have hsites : Storage.Sites s ≠ "" := by
    obtain ⟨a, ha⟩ := Join_is_Clean s "sites" (by decide)
    unfold Storage.Sites
    rw [ha]
    exact Clean_ne_empty a
  have hclean : Storage.Site s domain =
      Clean ⟨(Storage.Sites s).data ++ '/' :: (ToLower domain).data⟩ := Join_two _ _ hsites
  have hlong : 3 ≤ (Storage.Site s domain).data.length := by
    rw [Site_eq s domain h]
    have h1 := String_data_ne_nil _ hsites
    have h2 := String_data_ne_nil _ h.1
    have l1 := List.length_pos.mpr h1
    have l2 := List.length_pos.mpr h2
    simp only [String.data_append, List.length_append]
    have : ['/'].length = 1 := rfl
    omega
  have hroot : Storage.Site s domain ≠ "/" := by
    intro hx; rw [hx] at hlong; simp at hlong
  have hdot : Storage.Site s domain ≠ "." := by
    intro hx; rw [hx] at hlong; simp at hlong
  rw [hclean] at hroot hdot ⊢
  exact Join_elem _ _ (pathElement_append_ext _ _ h.2.2.2 hext hlen) hroot hdot

set_option maxRecDepth 100000 in
/-- C17: the paths of a site do not depend on the letter case of the domain, and
lowering is idempotent: for every root and every domain `d`, `Site`,
`SiteCertFile`, `SiteKeyFile` and `SiteMetaFile` give for `d` what they give for
`ToLower d`, and `ToLower (ToLower d) = ToLower d`, where `ToLower` lowers every
letter that has a lower case, in ASCII and outside it; with the root of
`TestStorage`, `Site "Test.com"` and `Site "test.com"` are both
`certs_test/sites/test.com`, and `Site "ÉXAMPLE.com"` is `Site "éxample.com"`. -/
theorem Site_case_insensitive (s : Storage) (d : String) :
    Storage.Site s d = Storage.Site s (ToLower d) ∧
    Storage.SiteCertFile s d = Storage.SiteCertFile s (ToLower d) ∧
    Storage.SiteKeyFile s d = Storage.SiteKeyFile s (ToLower d) ∧
    Storage.SiteMetaFile s d = Storage.SiteMetaFile s (ToLower d) ∧
    ToLower (ToLower d) = ToLower d ∧
    Storage.Site "./certs_test" "Test.com" = Storage.Site "./certs_test" "test.com" ∧
    Storage.Site "./certs_test" "test.com" = "certs_test/sites/test.com" ∧
    ToLower "ÉXAMPLE.com" = "éxample.com" ∧
    Storage.Site "./certs_test" "ÉXAMPLE.com" = Storage.Site "./certs_test" "éxample.com" := by
  have hl := ToLower_ToLower d
  refine ⟨?_, ?_, ?_, ?_, hl, by decide, by decide, by decide, by decide⟩
  · simp only [Storage.Site, hl]
  · simp only [Storage.SiteCertFile, Storage.Site, hl]
  · simp only [Storage.SiteKeyFile, Storage.Site, hl]
  · simp only [Storage.SiteMetaFile, Storage.Site, hl]

/-- C18, as stated, fails for a domain with a separator or a `..` segment.  For
`a/b` the certificate file is `certs_test/sites/a/b/a/b.crt`, whose directory is
not `Site "a/b"`; for `..` the site directory is `certs_test`, the root itself
and not a directory under `certs_test/sites`. -/
theorem Site_nesting_counterexample :
    Storage.Site "./certs_test" "a/b" = "certs_test/sites/a/b" ∧
    Storage.SiteCertFile "./certs_test" "a/b" = "certs_test/sites/a/b/a/b.crt" ∧
    Dir (Storage.SiteCertFile "./certs_test" "a/b") ≠ Storage.Site "./certs_test" "a/b" ∧
    Storage.Sites "./certs_test" = "certs_test/sites" ∧
    Storage.Site "./certs_test" ".." = "certs_test" := by
  refine ⟨by decide, by decide, by decide, by decide, by decide⟩

/-- C18, amended: for every root and every domain whose lowered form is one
proper path element (not empty, not `.` or `..`, without a separator), `Site d`
is `Sites` followed by a separator and `ToLower d`, where `Sites` is the root
joined with `sites`, and `SiteCertFile d`, `SiteKeyFile d` and `SiteMetaFile d`
are `Site d` followed by a separator and `ToLower d` with `.crt`, `.key` and
`.json` appended. -/
theorem Site_nesting (s : Storage) (d : String) (h : pathElement (ToLower d)) :
    Storage.Sites s = Join [s, "sites"] ∧
    Storage.Site s d = Storage.Sites s ++ "/" ++ ToLower d ∧
    Storage.SiteCertFile s d = Storage.Site s d ++ "/" ++ (ToLower d ++ ".crt") ∧
    Storage.SiteKeyFile s d = Storage.Site s d ++ "/" ++ (ToLower d ++ ".key") ∧
    Storage.SiteMetaFile s d = Storage.Site s d ++ "/" ++ (ToLower d ++ ".json") :=
  ⟨rfl, Site_eq s d h,
    SiteFile_eq s d ".crt" h (by decide) (by decide),
    SiteFile_eq s d ".key" h (by decide) (by decide),
    SiteFile_eq s d ".json" h (by decide) (by decide)⟩

/-- Witness of C18, amended: the domain of `TestStorage`. -/
theorem Site_nesting_witness :
    Storage.SiteCertFile "./certs_test" "Test.com" =
      Storage.Site "./certs_test" "Test.com" ++ "/" ++ (ToLower "Test.com" ++ ".crt") :=
  (Site_nesting "./certs_test" "Test.com"
    ⟨by decide, by decide, by decide, by decide⟩).2.2.1

/-- C19, as stated, fails: the local part of `Me@example.com` is `me`, but
`User "Me@example.com"` is `certs_test/users/me@example.com`, named after the
whole lowered address, as `TestStorage` expects. -/
theorem User_localPart_counterexample :
    ToLower (emailUsername "Me@example.com") = "me" ∧
    Storage.User "./certs_test" "Me@example.com" = "certs_test/users/me@example.com" ∧
    Storage.User "./certs_test" "Me@example.com" ≠ "certs_test/users/me" := by
  refine ⟨by decide, by decide, by decide⟩

/-- C19, amended: for every root and every non-empty email whose lowered form is
one proper path element, `User email` is `Users` followed by a separator and the
whole lowered address, where `Users` is the root joined with `users`. -/
theorem User_whole_address (s : Storage) (email : String) (h : email ≠ "")
    (he : pathElement (ToLower email)) :
    Storage.Users s = Join [s, "users"] ∧
    Storage.User s email = Storage.Users s ++ "/" ++ ToLower email := by
  refine ⟨rfl, ?_⟩
  unfold Storage.User
  simp only [h, if_false]
  exact Join_elem_of_Join s "users" (ToLower email) pathElement_users (by decide) he

/-- Witness of C19, amended: the email of `TestStorage`. -/
theorem User_whole_address_witness :
    Storage.User "./certs_test" "Me@example.com" =
      Storage.Users "./certs_test" ++ "/" ++ ToLower "Me@example.com" :=
  (User_whole_address "./certs_test" "Me@example.com" (by decide)
    ⟨by decide, by decide, by decide, by decide⟩).2

/-- C20: for every root and every non-empty email `e` whose local part is not
empty, `User e` is `Join` of the root, `users` and the whole lowered address,
`UserRegFile e` is `Join` of `User e` and the lowered local part with `.json`
appended, and `UserKeyFile e` is `Join` of `User e` and the lowered local part
with `.key` appended. -/
theorem User_paths (s : Storage) (e : String) (h : e ≠ "") (hlocal : emailUsername e ≠ "") :
    Storage.User s e = Join [s, "users", ToLower e] ∧
    Storage.UserRegFile s e = Join [Storage.User s e, ToLower (emailUsername e) ++ ".json"] ∧
    Storage.UserKeyFile s e = Join [Storage.User s e, ToLower (emailUsername e) ++ ".key"] := by
  refine ⟨?_, ?_, ?_⟩
  · unfold Storage.User Storage.Users
    simp only [h, if_false]
    exact Join_assoc s "users" (ToLower e) (by decide)
  · unfold Storage.UserRegFile
    simp only [h, hlocal, if_false]
  · unfold Storage.UserKeyFile
    simp only [h, hlocal, if_false]

/-- Witness of C20: the email of `TestStorage` gives
`users/me@example.com/me.json` and `me.key`. -/
theorem User_paths_witness :
    Storage.User "./certs_test" "Me@example.com" = "certs_test/users/me@example.com" ∧
    Storage.UserRegFile "./certs_test" "Me@example.com" =
      "certs_test/users/me@example.com/me.json" ∧
    Storage.UserKeyFile "./certs_test" "Me@example.com" =
      "certs_test/users/me@example.com/me.key" :=
  have h := User_paths "./certs_test" "Me@example.com" (by decide) (by decide)
  ⟨h.1.trans (by decide), h.2.1.trans (by decide), h.2.2.trans (by decide)⟩

/-! ## `emailUsername` -/

theorem Index_at (pre post : List Char) (c : Char) (h : c ∉ pre) :
    Index ⟨pre ++ c :: post⟩ c = pre.length := by
  unfold Index
  have hm : c ∈ pre ++ c :: post := by simp
  simp only [hm, if_true]
  rw [List.indexOf_append_of_not_mem h]
  simp

theorem Index_none (e : String) (c : Char) (h : c ∉ e.data) : Index e c = -1 := by
  unfold Index
  simp only [h, if_false]

theorem emailUsername_no_at (e : String) (h : '@' ∉ e.data) : emailUsername e = e := by
  unfold emailUsername
  simp only [Index_none e '@' h, if_true]

theorem emailUsername_at_first (post : List Char) : emailUsername ⟨'@' :: post⟩ = ⟨post⟩ := by
  have hi := Index_at [] post '@' (by simp)
  simp only [List.nil_append, List.length_nil] at hi
  unfold emailUsername
  simp [hi]

theorem emailUsername_before_at (pre post : List Char) (hpre : '@' ∉ pre) (hne : pre ≠ []) :
    emailUsername ⟨pre ++ '@' :: post⟩ = ⟨pre⟩ := by
  have hi := Index_at pre post '@' hpre
  have hl : 0 < pre.length := List.length_pos.mpr hne
  unfold emailUsername
  rw [hi]
  have h1 : ¬ ((pre.length : Int) = -1) := by omega
  have h2 : ¬ ((pre.length : Int) = 0) := by omega
  simp [h1, h2]

/-- C21: for every string `e`, `emailUsername e` is `e` when `e` holds no `@`, is
`e` without its first character when the first `@` is the first character, and
is the part of `e` before the first `@` otherwise; the position it slices at is
`-1` or lies within the string, so no slice is out of range.  The cases of
`TestEmailUsername` are instances. -/
theorem emailUsername_cases (e : String) :
    ('@' ∉ e.data → emailUsername e = e) ∧
    (∀ post, e.data = '@' :: post → emailUsername e = ⟨post⟩) ∧
    (∀ pre post, e.data = pre ++ '@' :: post → '@' ∉ pre → pre ≠ [] →
      emailUsername e = ⟨pre⟩) ∧
    (Index e '@' = -1 ∨ (0 ≤ Index e '@' ∧ Index e '@' < e.data.length)) ∧
    emailUsername "username@example.com" = "username" ∧
    emailUsername "plus+addressing@example.com" = "plus+addressing" ∧
    emailUsername "@foobar.com" = "foobar.com" ∧
    emailUsername "not-an-email" = "not-an-email" ∧
    emailUsername "" = "" := by
  refine ⟨emailUsername_no_at e, ?_, ?_, ?_, by decide, by decide, by decide, by decide,
    by decide⟩
  · intro post h
    obtain ⟨d⟩ := e
    simp only at h
    subst h
    exact emailUsername_at_first post
  · intro pre post h hpre hne
    obtain ⟨d⟩ := e
    simp only at h
    subst h
    exact emailUsername_before_at pre post hpre hne
  · unfold Index
    by_cases hm : '@' ∈ e.data
    · right
      simp only [hm, if_true]
      have := List.indexOf_lt_length.mpr hm
      omega
    · left
      simp only [hm, if_false]

/-- Witness of C21: the local part of `me@example.com` is `me`, and an address
that starts with `@` loses the `@`. -/
theorem emailUsername_cases_witness :
    emailUsername "me@example.com" = "me" ∧ emailUsername "@foobar.com" = "foobar.com" :=
  ⟨(emailUsername_cases "me@example.com").2.2.1 "me".data "example.com".data rfl
      (by decide) (by decide),
   (emailUsername_cases "@foobar.com").2.1 "foobar.com".data rfl⟩

/-! ## The sentinel for the empty email -/

theorem pathElement_default : pathElement "default" :=
  ⟨by decide, by decide, by decide, by decide⟩

/-- C22: the empty email stands for `default` in every path of a user: for every
root, `User ""` is `User "default"`, the directory `default` under the root
joined with `users`; `UserRegFile ""` is `UserRegFile "default"`, the file
`default.json` in that directory; and `UserKeyFile ""` is
`UserKeyFile "default"`, the file `default.key` in it.  With the root of
`TestStorage` these are `certs_test/users/default`, and `default.json` and
`default.key` under it. -/
theorem User_default (s : Storage) :
    Storage.User s "" = Storage.User s "default" ∧
    Storage.User s "default" = Join [s, "users"] ++ "/" ++ "default" ∧
    Storage.UserRegFile s "" = Storage.UserRegFile s "default" ∧
    Storage.UserRegFile s "default" = Join [s, "users"] ++ "/" ++ "default" ++ "/" ++ "default.json" ∧
    Storage.UserKeyFile s "" = Storage.UserKeyFile s "default" ∧
    Storage.UserKeyFile s "default" = Join [s, "users"] ++ "/" ++ "default" ++ "/" ++ "default.key" ∧
    Storage.User "./certs_test" "" = "certs_test/users/default" ∧
    Storage.UserRegFile "./certs_test" "" = "certs_test/users/default/default.json" ∧
    Storage.UserKeyFile "./certs_test" "" = "certs_test/users/default/default.key" := by
  have hu : Storage.User s "default" = Join [s, "users"] ++ "/" ++ "default" :=
    Join_elem_of_Join s "users" "default" pathElement_users (by decide) pathElement_default
  have hfile : ∀ name : String, pathElement name →
      Join [Storage.User s "default", name] = Storage.User s "default" ++ "/" ++ name :=
    fun name hn =>
      Join_elem_of_Join (Storage.Users s) "default" name pathElement_default (by decide) hn
  refine ⟨rfl, hu, rfl, ?_, rfl, ?_, by decide, by decide, by decide⟩
  · have h := hfile "default.json" ⟨by decide, by decide, by decide, by decide⟩
    have hreg : Storage.UserRegFile s "default" =
        Join [Storage.User s "default", "default.json"] := rfl
    rw [hreg, h, hu]
  · have h := hfile "default.key" ⟨by decide, by decide, by decide, by decide⟩
    have hkey : Storage.UserKeyFile s "default" =
        Join [Storage.User s "default", "default.key"] := rfl
    rw [hkey, h, hu]

/-! ## `standardDelimiter` -/

theorem utf8EncodeChar_length_pos (c : Char) : 1 ≤ (String.utf8EncodeChar c).length := by
  unfold String.utf8EncodeChar
  simp only
  split_ifs <;> simp

theorem utf8EncodeChar_single (c : Char) (h : (String.utf8EncodeChar c).length = 1) :
    Char.ofNat ((String.utf8EncodeChar c).headD 0).toNat = c := by
  unfold String.utf8EncodeChar at h ⊢
  simp only at h ⊢
  split_ifs at h ⊢ with h1 h2 h3
  · simp only [List.headD_cons]
    have hv : c.val.toNat ≤ 127 := h1
    have : c.val.toUInt8.toNat = c.val.toNat := by
      simp only [UInt32.toUInt8, Nat.toUInt8, UInt8.toNat, UInt8.ofNat, Fin.ofNat]
      show c.val.toNat % 256 = c.val.toNat
      omega
    rw [this]
    exact Char.ofNat_toNat c
  · simp at h
  · simp at h
  · simp at h

theorem stringBytes_single (d : String) (h : (stringBytes d).length = 1) :
    ∃ c, d.data = [c] ∧ Char.ofNat ((stringBytes d).headD 0).toNat = c := by
  obtain ⟨l⟩ := d
  unfold stringBytes at h ⊢
  simp only at h ⊢
  match l, h with
  | [], h => simp at h
  | [c], h =>
    refine ⟨c, rfl, ?_⟩
    simp only [List.flatMap_cons, List.flatMap_nil, List.append_nil] at h ⊢
    exact utf8EncodeChar_single c h
  | c :: c2 :: rest, h =>
    exfalso
    simp only [List.flatMap_cons, List.length_append] at h
    have h1 := utf8EncodeChar_length_pos c
    have h2 := utf8EncodeChar_length_pos c2
    omega

set_option maxRecDepth 100000 in
/-- C23, as stated, fails for a single character outside ASCII.  The string `é`
is one character long, is its own lower case and is none of the named
arguments, and `standardDelimiter` refuses it: `len` counts the two bytes of its
UTF-8 encoding.  So does `É`, lowered to `é`. -/
theorem standardDelimiter_cases_counterexample :
    "é".length = 1 ∧
    ToLower "é" = "é" ∧
    (stringBytes "é").length = 2 ∧
    standardDelimiter "é" =
      .error (.errorf "'é' is not a valid delimiter; can only be 1 character") ∧
    standardDelimiter "É" =
      .error (.errorf "'é' is not a valid delimiter; can only be 1 character") := by
  refine ⟨by decide, by decide, by decide, by rfl, by rfl⟩

set_option maxRecDepth 100000 in
/-- C23, amended: `standardDelimiter` lowers its argument and takes `,` for the
empty string; with `d` the string so obtained, it returns an error when `d` is
`.`, a newline, a carriage return, a double quote or a single quote; the tab for
`\t` (a backslash and `t`) or `tab`; the character of code 30 for `asc30` and of
code 31 for `asc31`; an error for any other `d` whose length (`len`, which
counts the bytes of the UTF-8 encoding) is not one; and otherwise the single
character that `d` is. -/
theorem standardDelimiter_cases (delim d : String)
    (hd : d = if ToLower delim = "" then defaultDelimiter else ToLower delim) :
    (d = "." ∨ d = "\n" ∨ d = "\r" ∨ d = "\"" ∨ d = "'" →
      standardDelimiter delim =
        .error (.errorf ("'" ++ d ++ "' is not a valid delimiter for this program"))) ∧
    (d = "\\t" ∨ d = "tab" → standardDelimiter delim = .ok '\t') ∧
    (d = "asc30" → standardDelimiter delim = .ok (Char.ofNat 30)) ∧
    (d = "asc31" → standardDelimiter delim = .ok (Char.ofNat 31)) ∧
    (¬ (d = "." ∨ d = "\n" ∨ d = "\r" ∨ d = "\"" ∨ d = "'") →
      ¬ (d = "\\t" ∨ d = "tab") → d ≠ "asc30" → d ≠ "asc31" →
      ((stringBytes d).length ≠ 1 →
        standardDelimiter delim =
          .error (.errorf ("'" ++ d ++ "' is not a valid delimiter; can only be 1 character"))) ∧
      ((stringBytes d).length = 1 →
        ∃ c, d = String.singleton c ∧ standardDelimiter delim = .ok c)) := by
  have hdef : standardDelimiter delim =
      if d = "." ∨ d = "\n" ∨ d = "\r" ∨ d = "\"" ∨ d = "'" then
        .error (.errorf ("'" ++ d ++ "' is not a valid delimiter for this program"))
      else if d = "\\t" ∨ d = "tab" then .ok '\t'
      else if d = "asc30" then .ok (Char.ofNat 30)
      else if d = "asc31" then .ok (Char.ofNat 31)
      else if (stringBytes d).length ≠ 1 then
        .error (.errorf ("'" ++ d ++ "' is not a valid delimiter; can only be 1 character"))
      else .ok (Char.ofNat ((stringBytes d).headD 0).toNat) := by
    rw [hd]
    rfl
  rw [hdef]
  refine ⟨?_, ?_, ?_, ?_, ?_⟩
  · intro h
    rw [if_pos h]
  · intro h
    have hn : ¬ (d = "." ∨ d = "\n" ∨ d = "\r" ∨ d = "\"" ∨ d = "'") := by
      rcases h with h | h <;> subst h <;> decide
    rw [if_neg hn, if_pos h]
  · intro h
    subst h
    rfl
  · intro h
    subst h
    rfl
  · intro n1 n2 n3 n4
    rw [if_neg n1, if_neg n2, if_neg n3, if_neg n4]
    refine ⟨fun h => by rw [if_pos h], fun h => ?_⟩
    obtain ⟨c, hc, hofNat⟩ := stringBytes_single d h
    refine ⟨c, ?_, ?_⟩
    · obtain ⟨l⟩ := d
      simp only at hc
      subst hc
      rfl
    · rw [if_neg (by simpa using h), hofNat]

set_option maxRecDepth 100000 in
/-- Witness of C23, amended: `TAB` is lowered to `tab` and stands for the tab;
the empty string stands for the comma; `ab` is refused; the Kelvin sign (U+212A,
three bytes) is lowered to `k`, one byte, which is returned. -/
theorem standardDelimiter_cases_witness :
    standardDelimiter "TAB" = .ok '\t' ∧
    standardDelimiter "" = .ok ',' ∧
    standardDelimiter "ab" =
      .error (.errorf "'ab' is not a valid delimiter; can only be 1 character") ∧
    (∃ c, "k" = String.singleton c ∧ standardDelimiter "\u212a" = .ok c) :=
  ⟨(standardDelimiter_cases "TAB" "tab" (by decide)).2.1 (Or.inr rfl),
   by
    obtain ⟨c, hc, h⟩ := ((standardDelimiter_cases "" "," (by decide)).2.2.2.2
      (by decide) (by decide) (by decide) (by decide)).2 (by decide)
    have : c = ',' := by
      have := congrArg String.data hc
      simp [String.singleton] at this
      exact this.symm
    rw [h, this],
   ((standardDelimiter_cases "ab" "ab" (by decide)).2.2.2.2
      (by decide) (by decide) (by decide) (by decide)).1 (by decide),
   ((standardDelimiter_cases "\u212a" "k" (by decide)).2.2.2.2
      (by decide) (by decide) (by decide) (by decide)).2 (by decide)⟩

/-! ## `BackOff` outside the schedule -/

/-- C24: for every state whose interval is not 0 and not one of the seven values
of the schedule, `BackOff` returns, leaves the state (interval and count) as it
was, and writes one line to the log, which reports the interval. -/
theorem BackOff_unexpected (rl : rateLimiter)
    (h0 : rl.interval ≠ 0) (h1 : rl.interval ≠ 10 * Second) (h2 : rl.interval ≠ 30 * Second)
    (h3 : rl.interval ≠ 1 * Minute) (h4 : rl.interval ≠ 5 * Minute)
    (h5 : rl.interval ≠ 10 * Minute) (h6 : rl.interval ≠ 30 * Minute)
    (h7 : rl.interval ≠ 1 * Hour) :
    rl.BackOff = (rl, [LogLine.unexpectedInterval rl.interval]) ∧
    rl.BackOff.1.interval = rl.interval ∧ rl.BackOff.1.count = rl.count := by
  have h : rl.BackOff = (rl, [LogLine.unexpectedInterval rl.interval]) := by
    unfold rateLimiter.BackOff
    simp only [h0, h1, h2, h3, h4, h5, h6, h7, if_false]
  rw [h]
  exact ⟨rfl, rfl, rfl⟩

/-- Witness of C24: the state of `TestRateLimitResume`, an interval of 1s. -/
theorem BackOff_unexpected_witness :
    rateLimiter.BackOff ⟨1 * Second, 4⟩ =
      (⟨1 * Second, 4⟩, [LogLine.unexpectedInterval (1 * Second)]) :=
  (BackOff_unexpected ⟨1 * Second, 4⟩ (by decide) (by decide) (by decide) (by decide)
    (by decide) (by decide) (by decide) (by decide)).1

/-! ## The throttle at the start of a bundle -/

theorem newClient_rateLimiter (env : Env) (st : State) :
    (newClient env st).2.user.rateLimiter = st.user.rateLimiter := by
  unfold newClient
  simp only [State.emit]
  split
  · rfl
  · split
    · rfl
    · split
      · rfl
      · split
        · rfl
        · split
          · rfl
          · split <;> rfl

theorem run_step (env : Env) (fuel : Nat) (c : Ctl × State) :
    run env (fuel + 1) c = step env (run env fuel c) := by
  induction fuel generalizing c with
  | zero => rfl
  | succ n ih => rw [run_succ, ih, ← run_succ]

theorem ObtainCerts_step (env : Env) (fuel : Nat) (st : State) (bundles : List (List String)) :
    ObtainCerts env (fuel + 1) st bundles = step env (ObtainCerts env fuel st bundles) := by
  unfold ObtainCerts
  split
  · rfl
  · split
    · rfl
    · exact run_step env fuel _

theorem ObtainCerts_zero_interval (env : Env) (st : State) (bundles : List (List String)) :
    (ObtainCerts env 0 st bundles).2.user.rateLimiter = st.user.rateLimiter := by
  have hrl := newClient_rateLimiter env st
  unfold ObtainCerts
  split
  · rfl
  · split
    · rename_i st1 heq
      rw [heq] at hrl
      exact hrl
    · rename_i st1 heq
      rw [heq] at hrl
      exact hrl

/-- A pass that ends at the head of the loop leaves the interval at 0, when it
started at the head of the loop with the interval at 0, or at a check that did
not skip the bundle, or at a check that skipped it with the interval at 0. -/
theorem step_head_interval (env : Env) (c : Ctl) (st : State) (rest1 : List (List String))
    (st1 : State) (h : step env (c, st) = (Ctl.forLoop rest1, st1))
    (hc : ∀ rest0, c = Ctl.forLoop rest0 → st.user.rateLimiter.interval = 0)
    (hs : ∀ primary others rest0, c = Ctl.Obtain primary others rest0 →
      existingCertAndKey env.Workspace st.fs primary = true →
      st.user.rateLimiter.interval = 0) :
    st1.user.rateLimiter.interval = 0 := by
  cases c with
  | ret err => simp [step] at h
  | forLoop bundles =>
    have h0 := hc bundles rfl
    match bundles with
    | [] => simp [step] at h
    | [] :: rest =>
      simp only [step, State.emit, Prod.mk.injEq] at h
      rw [← h.2]
      exact h0
    | (p :: o) :: rest => simp [step] at h
  | Obtain primary others rest =>
    cases hfound : existingCertAndKey env.Workspace st.fs primary with
    | true =>
      rw [step_existing env primary others rest st hfound] at h
      simp only [State.emit, Prod.mk.injEq] at h
      rw [← h.2]
      exact hs primary others rest rfl hfound
    | false =>
      rcases hans : env.ObtainCertificate st.obtained (primary :: others) with ⟨cert, failures⟩
      by_cases hne : failures = []
      · subst hne
        cases hsave : saveCertResource env.Workspace st.fs cert with
        | mk err fs =>
          cases err with
          | none =>
            rw [step_saved env primary others rest st cert fs hfound hans hsave] at h
            simp only [Prod.mk.injEq] at h
            rw [← h.2]
            rfl
          | some err =>
            rw [step_save_failed env primary others rest st cert fs err hfound hans hsave] at h
            simp at h
      · cases hre : firstReaction failures with
        | none =>
          rw [step_obtainError env primary others rest st cert failures hfound hans hne hre] at h
          simp at h
        | some r =>
          cases r with
          | rateLimited domain err =>
            rw [step_rateLimited env primary others rest st cert failures domain err
              hfound hans hre] at h
            simp at h
          | tos domain err =>
            cases hagree : env.AgreeToTOS st.agreed with
            | none =>
              rw [step_tos_agreed env primary others rest st cert failures domain err
                hfound hans hre hagree] at h
              simp at h
            | some refusal =>
              rw [step_tos_refused env primary others rest st cert failures domain err refusal
                hfound hans hre hagree] at h
              simp at h

set_option maxRecDepth 100000 in
/-- C25, as stated, fails for a bundle that is skipped after a backoff.  The CA
throttles the request for `a.com`; the program backs off to 10s and sleeps;
meanwhile another process issues `a.com`; the retry finds certificate and key
and skips the bundle without calling `Resume`.  Processing of the next bundle,
`b.com`, begins with the interval at 10s. -/
theorem ObtainCerts_unthrottled_counterexample :
    (registeredState FS.empty).user.rateLimiter.interval = 0 ∧
    (ObtainCerts throttlingEnv 3 (registeredState FS.empty) [["a.com"], ["b.com"]]).1 =
      Ctl.forLoop [["b.com"]] ∧
    (ObtainCerts throttlingEnv 3 (registeredState FS.empty)
      [["a.com"], ["b.com"]]).2.user.rateLimiter = ⟨10 * Second, 1⟩ ∧
    (ObtainCerts throttlingEnv 3 (registeredState FS.empty) [["a.com"], ["b.com"]]).2.trace =
      [Event.NewClient throttlingEnv.ServerURL,
       Event.existingCertAndKey "a.com" false,
       Event.ObtainCertificate ["a.com"],
       Event.BackOff,
       Event.log (LogLine.rateLimited "a.com" rateLimitedFailure.msg (10 * Second)),
       Event.Wait (10 * Second),
       Event.log (LogLine.retrying ["a.com"]),
       Event.existingCertAndKey "a.com" true,
       Event.log (LogLine.existing "a.com" ["a.com"])] := by
  refine ⟨by decide, by decide, by decide, by decide⟩

/-- C25, amended: for every run of `ObtainCerts` entered with the interval at 0
in which no bundle is skipped after a backoff (whenever, within the passes
made, the check at the label `Obtain` finds certificate and key, the interval is
0 there), the interval is 0 each time the loop is at its head, where processing
of a new bundle begins, however the bundles before were resolved: obtained and
saved, after any number of backoffs; skipped at their first check; or empty. -/
theorem ObtainCerts_unthrottled (env : Env) (fuel : Nat) (st : State)
    (bundles : List (List String))
    (h0 : st.user.rateLimiter.interval = 0)
    (hskip : ∀ k, k < fuel → ∀ primary others rest1 st1,
      ObtainCerts env k st bundles = (Ctl.Obtain primary others rest1, st1) →
      existingCertAndKey env.Workspace st1.fs primary = true →
      st1.user.rateLimiter.interval = 0) :
    ∀ rest1 st1, ObtainCerts env fuel st bundles = (Ctl.forLoop rest1, st1) →
      st1.user.rateLimiter.interval = 0 := by
  induction fuel with
  | zero =>
    intro rest1 st1 h
    have hrl := ObtainCerts_zero_interval env st bundles
    rw [h] at hrl
    show st1.user.rateLimiter.interval = 0
    rw [hrl]
    exact h0
  | succ n ih =>
    intro rest1 st1 h
    have ihn := ih (fun k hk => hskip k (Nat.lt_succ_of_lt hk))
    have hn := hskip n (Nat.lt_succ_self n)
    rw [ObtainCerts_step] at h
    rcases hprev : ObtainCerts env n st bundles with ⟨c, stn⟩
    rw [hprev] at h ihn hn
    refine step_head_interval env c stn rest1 st1 h ?_ ?_
    · intro rest0 hc
      subst hc
      exact ihn rest0 stn rfl
    · intro primary others rest0 hc hex
      subst hc
      exact hn primary others rest0 stn rfl hex

set_option maxRecDepth 100000 in
/-- Witness of C25, amended: the CA throttles the first request for `a.com`; the
program backs off to 10s and waits; the retry still lacks certificate and key,
is answered, and the certificate is saved.  Processing of `b.com` begins with
the interval at 0. -/
theorem ObtainCerts_unthrottled_witness :
    Event.BackOff ∈ (ObtainCerts throttledOnceEnv 3 (registeredState FS.empty)
      [["a.com"], ["b.com"]]).2.trace ∧
    (ObtainCerts throttledOnceEnv 2 (registeredState FS.empty)
      [["a.com"], ["b.com"]]).2.user.rateLimiter = ⟨10 * Second, 1⟩ ∧
    (ObtainCerts throttledOnceEnv 3 (registeredState FS.empty)
      [["a.com"], ["b.com"]]).1 = Ctl.forLoop [["b.com"]] ∧
    (ObtainCerts throttledOnceEnv 3 (registeredState FS.empty)
      [["a.com"], ["b.com"]]).2.user.rateLimiter.interval = 0 :=
  ⟨by decide, by decide, by decide,
   ObtainCerts_unthrottled throttledOnceEnv 3 (registeredState FS.empty) [["a.com"], ["b.com"]]
    rfl
    (by
      intro k hk primary others rest1 st1 h hex
      have h1 := congrArg Prod.fst h
      have h2 := congrArg Prod.snd h
      simp only at h1 h2
      subst h2
      interval_cases k
      · have hc : (ObtainCerts throttledOnceEnv 0 (registeredState FS.empty)
            [["a.com"], ["b.com"]]).1 = Ctl.forLoop [["a.com"], ["b.com"]] := by decide
        rw [hc] at h1
        cases h1
      · decide
      · have hc : (ObtainCerts throttledOnceEnv 2 (registeredState FS.empty)
            [["a.com"], ["b.com"]]).1 = Ctl.Obtain "a.com" [] [["b.com"]] := by decide
        rw [hc] at h1
        cases h1
        have hf : existingCertAndKey throttledOnceEnv.Workspace
            (ObtainCerts throttledOnceEnv 2 (registeredState FS.empty)
              [["a.com"], ["b.com"]]).2.fs "a.com" = false := by decide
        rw [hf] at hex
        cases hex)
    [["b.com"]] _ (Prod.ext (by decide) rfl)⟩

/-! ## `filepath.Base` of a joined file name -/

theorem splitSlash_append_ext_all (q : List Char) :
    ∃ init last, ∀ ext, '/' ∉ ext → splitSlash (q ++ ext) = init ++ [last ++ ext] := by
  induction q with
  | nil => exact ⟨[], [], fun ext hext => by simpa using splitSlash_ext ext hext⟩
  | cons c cs ih =>
    obtain ⟨init, last, h⟩ := ih
    by_cases hc : c = '/'
    · exact ⟨[] :: init, last, fun ext hext => by simp [splitSlash, hc, h ext hext]⟩
    · cases init with
      | nil => exact ⟨[], c :: last, fun ext hext => by simp [splitSlash, hc, h ext hext]⟩
      | cons e es =>
        exact ⟨(c :: e) :: es, last, fun ext hext => by simp [splitSlash, hc, h ext hext]⟩

theorem Base_of_last (p : String) (pre m : List Char) (h : p.data = pre ++ m) (hm : m ≠ [])
    (hs : '/' ∉ m) (hpre : pre = [] ∨ ∃ front, pre = front ++ ['/']) : Base p = ⟨m⟩ := by
  have hp : p ≠ "" := by
    intro hp
    subst hp
    have : ([] : List Char) = pre ++ m := h
    have := congrArg List.length this
    simp only [List.length_nil, List.length_append] at this
    have := List.length_pos.mpr hm
    omega
  obtain ⟨c, front, hmr⟩ : ∃ c front, m.reverse = c :: front := by
    cases hr : m.reverse with
    | nil => exact absurd (List.reverse_eq_nil_iff.mp hr) hm
    | cons c front => exact ⟨c, front, rfl⟩
  have hc : c ≠ '/' := by
    intro hc
    apply hs
    have : c ∈ m.reverse := by rw [hmr]; exact List.mem_cons_self _ _
    rw [← hc]
    exact List.mem_reverse.mp this
  have hall : ∀ x ∈ m.reverse, (decide (x ≠ '/')) = true := by
    intro x hx
    have hxm := List.mem_reverse.mp hx
    simp only [decide_eq_true_eq]
    intro hx'
    exact hs (hx' ▸ hxm)
  have hrev : p.data.reverse = m.reverse ++ pre.reverse := by rw [h, List.reverse_append]
  have hdrop : p.data.reverse.dropWhile (fun c => decide (c = '/')) = m.reverse ++ pre.reverse := by
    rw [hrev, hmr]
    simp [List.dropWhile, hc]
  have htake : (m.reverse ++ pre.reverse).takeWhile (fun c => decide (c ≠ '/')) = m.reverse := by
    rw [List.takeWhile_append_of_pos hall]
    rcases hpre with h0 | ⟨front', h1⟩
    · subst h0; simp
    · subst h1; simp [List.takeWhile]
  unfold Base
  simp only [hp, if_false, hdrop]
  have hne : m.reverse ++ pre.reverse ≠ [] := by rw [hmr]; simp
  simp only [hne, if_false, htake, List.reverse_reverse]

theorem Base_Clean_ext (q ext last : List Char) (inits : List (List Char))
    (hsplit : splitSlash (q ++ ext) = inits ++ [last ++ ext])
    (hlen : 3 ≤ ext.length) :
    Base (Clean ⟨q ++ ext⟩) = ⟨last ++ ext⟩ := by
  have hm0 : last ++ ext ≠ [] := by
    intro h; have := congrArg List.length h
    simp only [List.length_append, List.length_nil] at this; omega
  have hm1 : last ++ ext ≠ ['.'] := by
    intro h; have := congrArg List.length h
    simp only [List.length_append, List.length_cons, List.length_nil] at this; omega
  have hm2 : last ++ ext ≠ ['.', '.'] := by
    intro h; have := congrArg List.length h
    simp only [List.length_append, List.length_cons, List.length_nil] at this; omega
  have hms : '/' ∉ last ++ ext :=
    splitSlash_no_slash (q ++ ext) _ (by rw [hsplit]; simp)
  have hne : (⟨q ++ ext⟩ : String) ≠ "" := String_ne_empty_of_data _ (by
    intro h; have := congrArg List.length h
    simp only [List.length_append, List.length_nil] at this; omega)
  have hdata : ∀ rooted : Bool, ∃ pre, List.intercalate ['/']
      (cleanElems rooted [] (splitSlash (q ++ ext))).reverse = pre ++ (last ++ ext) ∧
      (pre = [] ∨ ∃ front, pre = front ++ ['/']) := by
    intro rooted
    obtain ⟨below, hb⟩ := cleanElems_last rooted [] inits (last ++ ext) hm0 hm1 hm2
    rw [hsplit, hb, List.reverse_cons]
    by_cases hbelow : below.reverse = []
    · rw [hbelow]
      exact ⟨[], by simp [List.intercalate], Or.inl rfl⟩
    · rw [intercalate_snoc _ _ hbelow]
      exact ⟨List.intercalate ['/'] below.reverse ++ ['/'], by simp, Or.inr ⟨_, rfl⟩⟩
  rw [Clean_eq _ hne]
  obtain ⟨pre, hpre, hshape⟩ := hdata (decide ((q ++ ext).head? = some '/'))
  simp only
  by_cases hr : (q ++ ext).head? = some '/'
  · rw [if_pos hr]
    apply Base_of_last _ ('/' :: pre) (last ++ ext) _ hm0 hms
    · rcases hshape with h0 | ⟨front, h1⟩
      · subst h0; exact Or.inr ⟨[], rfl⟩
      · subst h1; exact Or.inr ⟨'/' :: front, rfl⟩
    · simp only [hpre, List.cons_append]
  · rw [if_neg hr]
    have hbody : List.intercalate ['/']
        (cleanElems (decide ((q ++ ext).head? = some '/')) [] (splitSlash (q ++ ext))).reverse
          ≠ [] := by
      rw [hpre]
      intro h; have := congrArg List.length h
      simp only [List.length_append, List.length_nil] at this; omega
    rw [if_neg hbody]
    exact Base_of_last _ pre (last ++ ext) hpre hm0 hms hshape

theorem Base_Join_file (a x : String) (ha : a ≠ "") :
    ∃ last, ('/' ∉ x.data → last = x.data) ∧
      ∀ ext : String, '/' ∉ ext.data → 3 ≤ ext.data.length →
        Base (Join [a, x ++ ext]) = ⟨last ++ ext.data⟩ := by
  obtain ⟨inits, last, h⟩ := splitSlash_append_ext_all (a.data ++ '/' :: x.data)
  refine ⟨last, ?_, ?_⟩
  · intro hx
    have h0 := h [] (by simp)
    simp only [List.append_nil] at h0
    rw [splitSlash_append_slash, splitSlash_ext x.data hx] at h0
    have := congrArg List.getLast? h0
    simpa using this.symm
  · intro ext hext hlen
    rw [Join_two a (x ++ ext) ha]
    have hq : a.data ++ '/' :: (x ++ ext).data = (a.data ++ '/' :: x.data) ++ ext.data := by
      simp
    rw [hq]
    exact Base_Clean_ext _ _ last inits (h ext.data hext) hlen

/-! ## `emailUsername`: when the local part is empty -/

theorem emailUsername_eq_empty (e : String) (he : e ≠ "") : emailUsername e = "" ↔ e = "@" := by
  constructor
  · intro h
    by_cases hm : '@' ∈ e.data
    · obtain ⟨pre, post, hsplit, hpre⟩ := List.eq_append_cons_of_mem hm
      obtain ⟨d⟩ := e
      simp only at hsplit
      subst hsplit
      by_cases hnil : pre = []
      · subst hnil
        simp only [List.nil_append] at h ⊢
        rw [emailUsername_at_first] at h
        have := congrArg String.data h
        simp only at this
        subst this
        rfl
      · rw [emailUsername_before_at pre post hpre hnil] at h
        have := congrArg String.data h
        exact absurd this hnil
    · rw [emailUsername_no_at e hm] at h
      exact absurd h he
  · intro h
    subst h
    decide

theorem User_ne_empty (s : Storage) (email : String) : Storage.User s email ≠ "" := by
  have husers : Storage.Users s ≠ "" := by
    obtain ⟨a, ha⟩ := Join_is_Clean s "users" (by decide)
    unfold Storage.Users
    rw [ha]
    exact Clean_ne_empty a
  unfold Storage.User
  simp only
  rw [Join_two _ _ husers]
  exact Clean_ne_empty _

/-! ## `os.MkdirAll` touches nothing longer than its path -/

theorem mkdirParent_length (path parent : String) (h : mkdirParent path = some parent) :
    parent.length < path.length := by
  unfold mkdirParent at h
  simp only at h
  split_ifs at h with hlen
  cases h
  have h1 := (List.dropWhile_suffix (fun c => decide (c ≠ '/'))
    (l := path.data.reverse.dropWhile (fun c => decide (c = '/')))).length_le
  have h2 := (List.dropWhile_suffix (fun c => decide (c = '/')) (l := path.data.reverse)).length_le
  show ((List.drop 1 _).reverse).length < path.data.length
  simp only [List.length_reverse, List.length_drop] at h2 ⊢
  omega

theorem lookup_set_longer (fs : FS) (path q : String) (n : Node)
    (h : path.length < q.length) : (fs.set path n).lookup q = fs.lookup q :=
  lookup_set_other fs path q n (by intro hq; subst hq; omega)

theorem Mkdir_other (fs fs1 : FS) (name q : String) (perm : FileMode)
    (hm : fs.Mkdir name perm = Except.ok fs1) (h : q ≠ name) :
    fs1.lookup q = fs.lookup q := by
  unfold FS.Mkdir at hm
  split at hm
  · cases hm
  · split at hm
    · cases hm
    · cases hm
    · split_ifs at hm
      cases hm
      exact lookup_set_other fs name q _ h

theorem MkdirAllFuel_made_other (path q : String) (perm : FileMode)
    (made : Option PathError × FS) (h : q ≠ path) :
    (match made with
      | (some e, fs1) => (some e, fs1)
      | (none, fs1) =>
        match fs1.Mkdir path perm with
        | Except.ok fs2 => ((none : Option PathError), fs2)
        | Except.error e =>
          match fs1.lookup path with
          | some (Node.dir _) => (none, fs1)
          | _ => (some e, fs1)).2.lookup q = made.2.lookup q := by
  rcases made with ⟨err, fs1⟩
  cases err with
  | some e => rfl
  | none =>
    simp only
    cases hm : fs1.Mkdir path perm with
    | ok fs2 => exact Mkdir_other fs1 fs2 path q perm hm h
    | error e =>
      simp only
      split <;> rfl

theorem MkdirAllFuel_other (fuel : Nat) (fs : FS) (path q : String) (perm : FileMode)
    (h : path.length < q.length) :
    (FS.MkdirAllFuel fuel fs path perm).2.lookup q = fs.lookup q := by
  have hne : q ≠ path := by intro hq; subst hq; omega
  induction fuel generalizing fs path with
  | zero =>
    rw [FS.MkdirAllFuel.eq_2 fs path perm 0 (fun _ _ h0 _ => Nat.noConfusion h0)]
    split
    · rfl
    · rfl
    · exact MkdirAllFuel_made_other path q perm (none, fs) hne
  | succ n ih =>
    cases hp : mkdirParent path with
    | none =>
      rw [FS.MkdirAllFuel.eq_2 fs path perm (n + 1)
        (fun _ _ _ hs => by rw [hp] at hs; cases hs)]
      split
      · rfl
      · rfl
      · exact MkdirAllFuel_made_other path q perm (none, fs) hne
    | some parent =>
      rw [FS.MkdirAllFuel.eq_1 fs path perm n parent hp]
      have hpl := mkdirParent_length path parent hp
      split
      · rfl
      · rfl
      · exact (MkdirAllFuel_made_other path q perm _ hne).trans
          (ih fs parent (by omega) (by intro hq; subst hq; omega))

/-! ## `GetUser`: a key file without a PEM block -/

/-- C28: the code at the failing input.  When the registration file is there and
decodes, and the key file is there and holds no PEM block, `pem.Decode` returns
a nil block, `loadRSAPrivateKey` dereferences it, and `GetUser` panics instead
of returning an error. -/
theorem GetUser_nil_block (codec : Codec) (ws : Storage) (fs : FS) (email : String)
    (data : Bytes) (perm : FileMode) (u : String × Option RegistrationResource)
    (keyBytes : Bytes)
    (hreg : fs.lookup (Storage.UserRegFile ws email) = some (Node.file data perm))
    (hdec : codec.decodeUser data = Except.ok u)
    (hkey : fs.ReadFile (Storage.UserKeyFile ws email) = Except.ok keyBytes)
    (hpem : codec.pemDecode keyBytes = none) :
    GetUser codec ws fs email =
      Except.error (Error.panic "invalid memory address or nil pointer dereference") := by
  obtain ⟨Email, Registration⟩ := u
  unfold GetUser FS.Open
  simp only [hreg, hdec, loadRSAPrivateKey, hkey, hpem]

set_option maxRecDepth 100000 in
/-- Witness of C28: the account of `me@mine.com` with a key file that holds the
text `not a key`. -/
theorem GetUser_nil_block_witness :
    GetUser sampleCodec "./certs_data" brokenKeyStore "me@mine.com" =
      Except.error (Error.panic "invalid memory address or nil pointer dereference") :=
  GetUser_nil_block sampleCodec "./certs_data" brokenKeyStore "me@mine.com"
    (stringBytes "\x7b\x7d") 0o600 ("me@mine.com", some ⟨"\x7b\x7d"⟩) (stringBytes "not a key")
    (by decide) rfl (by rfl) (by decide)

/-! ## `Resume`, then `BackOff` -/

theorem backOffs_succ_first (k : Nat) (rl : rateLimiter) :
    rateLimiter.backOffs (k + 1) rl = rateLimiter.backOffs k rl.BackOff.1 := by
  induction k with
  | zero => rfl
  | succ k ih =>
    rw [rateLimiter.backOffs, ih]
    rfl

theorem Resume_BackOff (s : rateLimiter) : s.Resume.BackOff = rateLimiter.zero.BackOff := by
  simp [rateLimiter.Resume, rateLimiter.BackOff, rateLimiter.zero]

/-- C29: `Resume` leaves the count as it was, and still what follows is what
follows a fresh state: for every state `s` and every `n`, the `n` `BackOff`
calls after `Resume` on `s` produce, call by call, the states (interval and
count) and log lines that `n` `BackOff` calls produce from the zero state; in
particular the state after `k ≥ 1` calls is the same. -/
theorem Resume_backOffStates (s : rateLimiter) (n : Nat) :
    s.Resume.count = s.count ∧
    rateLimiter.backOffStates n s.Resume = rateLimiter.backOffStates n rateLimiter.zero ∧
    rateLimiter.backOffs (n + 1) s.Resume = rateLimiter.backOffs (n + 1) rateLimiter.zero := by
  refine ⟨rfl, ?_, ?_⟩
  · cases n with
    | zero => rfl
    | succ n => simp only [rateLimiter.backOffStates, Resume_BackOff]
  · rw [backOffs_succ_first, backOffs_succ_first, Resume_BackOff]

/-! ## The names of the files of a user -/

set_option maxRecDepth 100000 in
/-- C26, as stated, fails in two ways.  The local part `a/b` of `a/b@x.com` is
not empty, and the files of that user are named `b.json` and `b.key`, not by the
local part with the extension: the separator in the local part makes a
directory `a`.  And each fallback name alone is also the name of a file of a
user whose local part is not empty: the registration file of
`registration@example.com` is named `registration.json`, the key file of
`private@example.com` is named `private.key`. -/
theorem UserFile_fallback_counterexample :
    (emailUsername "a/b@x.com" = "a/b" ∧
      Storage.UserRegFile "./certs_test" "a/b@x.com" = "certs_test/users/a/b@x.com/a/b.json" ∧
      Base (Storage.UserRegFile "./certs_test" "a/b@x.com") = "b.json" ∧
      Base (Storage.UserKeyFile "./certs_test" "a/b@x.com") = "b.key" ∧
      ToLower (emailUsername "a/b@x.com") ++ ".json" = "a/b.json") ∧
    (emailUsername "registration@example.com" = "registration" ∧
      Base (Storage.UserRegFile "./certs_test" "registration@example.com") =
        "registration.json" ∧
      emailUsername "private@example.com" = "private" ∧
      Base (Storage.UserKeyFile "./certs_test" "private@example.com") = "private.key") := by
  refine ⟨⟨by decide, by decide, by decide, by decide, by decide⟩,
    ⟨by decide, by decide, by decide, by decide⟩⟩

/-- C26, amended: for every root and every email, with the empty email standing
for `default`: the local part `emailUsername` gives is empty exactly for the
email `@`; the file at `UserRegFile email` is named `registration.json` and, at
the same time, the file at `UserKeyFile email` is named `private.key` if and
only if that local part is empty; and for every email whose local part is not
empty and, lowered, holds no path separator, the file at `UserRegFile email` is
named by the lowered local part with `.json` appended and the file at
`UserKeyFile email` by the lowered local part with `.key` appended.  The name of
a file is `filepath.Base` of its path throughout. -/
theorem UserFile_fallback (s : Storage) (email : String) :
    (emailUsername (if email = "" then emptyEmail else email) = "" ↔ email = "@") ∧
    ((Base (Storage.UserRegFile s email) = "registration.json" ∧
        Base (Storage.UserKeyFile s email) = "private.key") ↔
      emailUsername (if email = "" then emptyEmail else email) = "") ∧
    (emailUsername (if email = "" then emptyEmail else email) ≠ "" →
      '/' ∉ (ToLower (emailUsername (if email = "" then emptyEmail else email))).data →
      Base (Storage.UserRegFile s email) =
        ToLower (emailUsername (if email = "" then emptyEmail else email)) ++ ".json" ∧
      Base (Storage.UserKeyFile s email) =
        ToLower (emailUsername (if email = "" then emptyEmail else email)) ++ ".key") := by
  have hsame : Storage.User s (if email = "" then emptyEmail else email) = Storage.User s email := by
    by_cases h : email = ""
    · subst h; rfl
    · simp only [h, if_false]
  have hiff : emailUsername (if email = "" then emptyEmail else email) = "" ↔ email = "@" := by
    by_cases h : email = ""
    · subst h
      exact iff_of_false (by decide) (by decide)
    · simp only [h, if_false]
      exact emailUsername_eq_empty email h
  have hnames : emailUsername (if email = "" then emptyEmail else email) ≠ "" →
      Storage.UserRegFile s email =
        Join [Storage.User s email,
          ToLower (emailUsername (if email = "" then emptyEmail else email)) ++ ".json"] ∧
      Storage.UserKeyFile s email =
        Join [Storage.User s email,
          ToLower (emailUsername (if email = "" then emptyEmail else email)) ++ ".key"] := by
    intro hl
    constructor
    · unfold Storage.UserRegFile
      simp only [hl, if_false, hsame]
    · unfold Storage.UserKeyFile
      simp only [hl, if_false, hsame]
  refine ⟨hiff, ?_, ?_⟩
  · constructor
    · rintro ⟨hreg, hkey⟩
      by_contra hl
      obtain ⟨e1, e2⟩ := hnames hl
      obtain ⟨last, _, hbase⟩ := Base_Join_file (Storage.User s email)
        (ToLower (emailUsername (if email = "" then emptyEmail else email)))
        (User_ne_empty s email)
      rw [e1, hbase ".json" (by decide) (by decide)] at hreg
      rw [e2, hbase ".key" (by decide) (by decide)] at hkey
      have h1 : last ++ ".json".data = "registration".data ++ ".json".data :=
        congrArg String.data hreg
      have h2 : last ++ ".key".data = "private".data ++ ".key".data :=
        congrArg String.data hkey
      have l1 := List.append_cancel_right h1
      have l2 := List.append_cancel_right h2
      rw [l1] at l2
      exact absurd l2 (by decide)
    · intro hl
      have hat := hiff.mp hl
      subst hat
      have hreg : Storage.UserRegFile s "@" =
          Join [Storage.User s "@", "registration" ++ ".json"] := rfl
      have hkey : Storage.UserKeyFile s "@" = Join [Storage.User s "@", "private" ++ ".key"] :=
        rfl
      obtain ⟨l1, hl1, hb1⟩ := Base_Join_file (Storage.User s "@") "registration"
        (User_ne_empty s "@")
      obtain ⟨l2, hl2, hb2⟩ := Base_Join_file (Storage.User s "@") "private"
        (User_ne_empty s "@")
      rw [hreg, hkey, hb1 ".json" (by decide) (by decide), hb2 ".key" (by decide) (by decide),
        hl1 (by decide), hl2 (by decide)]
      exact ⟨rfl, rfl⟩
  · intro hl hsep
    obtain ⟨e1, e2⟩ := hnames hl
    obtain ⟨last, hlast, hbase⟩ := Base_Join_file (Storage.User s email)
      (ToLower (emailUsername (if email = "" then emptyEmail else email)))
      (User_ne_empty s email)
    rw [e1, e2, hbase ".json" (by decide) (by decide), hbase ".key" (by decide) (by decide),
      hlast hsep]
    exact ⟨rfl, rfl⟩

set_option maxRecDepth 100000 in
/-- Witness of C26, amended: the email `@` gets the fallback names, the email of
`TestStorage` the names of its local part, lowered. -/
theorem UserFile_fallback_witness :
    Base (Storage.UserRegFile "./certs_test" "@") = "registration.json" ∧
    Base (Storage.UserKeyFile "./certs_test" "@") = "private.key" ∧
    Base (Storage.UserRegFile "./certs_test" "Me@example.com") = "me.json" ∧
    Base (Storage.UserKeyFile "./certs_test" "Me@example.com") = "me.key" :=
  have h1 := ((UserFile_fallback "./certs_test" "@").2.1).mpr (by decide)
  have h2 := (UserFile_fallback "./certs_test" "Me@example.com").2.2 (by decide) (by decide)
  ⟨h1.1, h1.2, h2.1, h2.2⟩

/-! ## A save that fails at the key -/

set_option maxRecDepth 100000 in
/-- C27, as stated, fails in two ways.  When the device has no room for the key
of `a.com`, the key file is created, the write fails, and the empty key file
stays: nothing was at its path before the call, and `existingCertAndKey` is true
afterwards.  And with the root `/x.key/r` and the domain `../../x`, the key file
is `/x.key`, a directory above the directory of the site, which the call itself
makes: the key cannot be opened, and `existingCertAndKey` is true afterwards. -/
theorem saveCertResource_key_failed_counterexample :
    (fullKeyStore.lookup (Storage.SiteKeyFile "./certs_data" "a.com") = none ∧
      (fullKeyStore.MkdirAll (Storage.Site "./certs_data" "a.com") 0o700).1 = none ∧
      (saveCertResource "./certs_data" fullKeyStore (sampleCert "a.com")).2.lookup
          (Storage.SiteCertFile "./certs_data" "a.com") =
        some (Node.file (stringBytes "certificate") 0o600) ∧
      (saveCertResource "./certs_data" fullKeyStore (sampleCert "a.com")).1 =
        some (Error.path ⟨"write", "certs_data/sites/a.com/a.com.key", Errno.ENOSPC⟩) ∧
      (saveCertResource "./certs_data" fullKeyStore (sampleCert "a.com")).2.lookup
          (Storage.SiteKeyFile "./certs_data" "a.com") = some (Node.file [] 0o600) ∧
      existingCertAndKey "./certs_data"
        (saveCertResource "./certs_data" fullKeyStore (sampleCert "a.com")).2 "a.com" = true) ∧
    (Storage.Site "/x.key/r" "../../x" = "/x.key/x" ∧
      Storage.SiteKeyFile "/x.key/r" "../../x" = "/x.key" ∧
      FS.empty.lookup (Storage.SiteKeyFile "/x.key/r" "../../x") = none ∧
      (saveCertResource "/x.key/r" FS.empty (sampleCert "../../x")).2.lookup "/x.crt" =
        some (Node.file (stringBytes "certificate") 0o600) ∧
      (saveCertResource "/x.key/r" FS.empty (sampleCert "../../x")).1 =
        some (Error.path ⟨"open", "/x.key", Errno.EISDIR⟩) ∧
      existingCertAndKey "/x.key/r"
        (saveCertResource "/x.key/r" FS.empty (sampleCert "../../x")).2 "../../x" = true) := by
  refine ⟨⟨by decide, by decide, by decide, by decide, by decide, by decide⟩,
    ⟨by decide, by decide, by decide, by decide, by decide, by decide⟩⟩

/-- C27, amended: for a domain whose lowered form is one proper path element
(not empty, not `.` or `..`, without a separator) and that had nothing at the
path of its key file before the call, if `saveCertResource` makes the directory,
writes the certificate and fails at the key, it returns the error of the key
with the certificate in the store; and if the failure is that the key file
could not be opened, nothing is at the path of the key file and
`existingCertAndKey` is false for the domain, while if the key file was opened
and the write failed, the key file is there and `existingCertAndKey` is true. -/
theorem saveCertResource_key_failed (ws : Storage) (fs fs1 fs2 fs3 : FS)
    (cert : CertificateResource) (e : PathError)
    (hdom : pathElement (ToLower cert.Domain))
    (hnokey : fs.lookup (Storage.SiteKeyFile ws cert.Domain) = none)
    (hdir : fs.MkdirAll (Storage.Site ws cert.Domain) 0o700 = (none, fs1))
    (hcert : fs1.WriteFile (Storage.SiteCertFile ws cert.Domain) cert.Certificate 0o600 =
      (none, fs2))
    (hkey : fs2.WriteFile (Storage.SiteKeyFile ws cert.Domain) cert.PrivateKey 0o600 =
      (some e, fs3)) :
    saveCertResource ws fs cert = (some (Error.path e), fs3) ∧
    fs3.ReadFile (Storage.SiteCertFile ws cert.Domain) = Except.ok cert.Certificate ∧
    (e.Op = "open" →
      fs3.lookup (Storage.SiteKeyFile ws cert.Domain) = none ∧
      existingCertAndKey ws fs3 cert.Domain = false) ∧
    (e.Op ≠ "open" → existingCertAndKey ws fs3 cert.Domain = true) := by
  have hlong : (Storage.Site ws cert.Domain).length <
      (Storage.SiteKeyFile ws cert.Domain).length := by
    have hk : Storage.SiteKeyFile ws cert.Domain =
        Storage.Site ws cert.Domain ++ "/" ++ (ToLower cert.Domain ++ ".key") :=
      SiteFile_eq ws cert.Domain ".key" hdom (by decide) (by decide)
    rw [hk]
    simp only [String.length_append]
    have : ("/" : String).length = 1 := rfl
    omega
  have hne := SiteCertFile_ne_SiteKeyFile ws cert.Domain
  have h1 : fs1.lookup (Storage.SiteKeyFile ws cert.Domain) = none := by
    have := MkdirAllFuel_other (Storage.Site ws cert.Domain).length fs
      (Storage.Site ws cert.Domain) (Storage.SiteKeyFile ws cert.Domain) 0o700 hlong
    unfold FS.MkdirAll at hdir
    rw [hdir] at this
    rw [this, hnokey]
  obtain ⟨icert, mode, hset⟩ := WriteFile_ok _ _ _ _ _ hcert
  have h2 : fs2.lookup (Storage.SiteKeyFile ws cert.Domain) = none := by
    rw [hset, lookup_set_other _ _ _ _ hne.symm]
    exact h1
  have hread2 := ReadFile_WriteFile fs1 fs2 _ _ _ hcert
  have hsave : saveCertResource ws fs cert = (some (Error.path e), fs3) := by
    unfold saveCertResource
    rw [hdir]
    simp only [hcert, hkey]
  rcases WriteFile_failed _ _ _ _ _ _ hkey with ⟨hop, hfs⟩ | ⟨he, ikey, mode3, n, _, hfs⟩
  · subst hfs
    refine ⟨hsave, hread2, fun _ => ⟨h2, ?_⟩, fun hn => absurd hop hn⟩
    rw [existingCertAndKey_eq, h2]
    simp
  · have hread3 : fs3.ReadFile (Storage.SiteCertFile ws cert.Domain) =
        Except.ok cert.Certificate := by
      rw [hfs]
      unfold FS.ReadFile
      rw [lookup_set_other _ _ _ _ hne]
      exact hread2
    refine ⟨hsave, hread3, fun hop => ?_, fun _ => ?_⟩
    · rw [he] at hop
      exact absurd (show "write" = "open" from hop) (by decide)
    · rw [existingCertAndKey_eq, hfs, lookup_set_same _ _ _ ikey,
        lookup_set_other _ _ _ _ hne, hset, lookup_set_same _ _ _ icert]
      rfl

set_option maxRecDepth 100000 in
/-- Witness of C27, amended.  On a workspace where the key file of `a.com`
cannot be opened for writing, the save fails with the certificate written,
nothing is at the path of the key, and `a.com` is not taken as issued.  On a
workspace where the device has no room for the key, the key file is opened, the
write fails, and `a.com` is taken as issued. -/
theorem saveCertResource_key_failed_witness :
    (saveCertResource "./certs_data" deniedKeyStore (sampleCert "a.com")).1 =
      some (Error.path ⟨"open", "certs_data/sites/a.com/a.com.key", Errno.EACCES⟩) ∧
    existingCertAndKey "./certs_data"
      (saveCertResource "./certs_data" deniedKeyStore (sampleCert "a.com")).2 "a.com" = false ∧
    (saveCertResource "./certs_data" fullKeyStore (sampleCert "a.com")).1 =
      some (Error.path ⟨"write", "certs_data/sites/a.com/a.com.key", Errno.ENOSPC⟩) ∧
    existingCertAndKey "./certs_data"
      (saveCertResource "./certs_data" fullKeyStore (sampleCert "a.com")).2 "a.com" = true :=
  have h := saveCertResource_key_failed "./certs_data" deniedKeyStore
    (deniedKeyStore.MkdirAll "certs_data/sites/a.com" 0o700).2
    ((deniedKeyStore.MkdirAll "certs_data/sites/a.com" 0o700).2.WriteFile
      "certs_data/sites/a.com/a.com.crt" (stringBytes "certificate") 0o600).2
    ((deniedKeyStore.MkdirAll "certs_data/sites/a.com" 0o700).2.WriteFile
      "certs_data/sites/a.com/a.com.crt" (stringBytes "certificate") 0o600).2
    (sampleCert "a.com") ⟨"open", "certs_data/sites/a.com/a.com.key", Errno.EACCES⟩
    ⟨by decide, by decide, by decide, by decide⟩ (by decide)
    (Prod.ext (by decide) rfl) (Prod.ext (by decide) rfl) (Prod.ext (by decide) rfl)
  have g := saveCertResource_key_failed "./certs_data" fullKeyStore
    (fullKeyStore.MkdirAll "certs_data/sites/a.com" 0o700).2
    ((fullKeyStore.MkdirAll "certs_data/sites/a.com" 0o700).2.WriteFile
      "certs_data/sites/a.com/a.com.crt" (stringBytes "certificate") 0o600).2
    (((fullKeyStore.MkdirAll "certs_data/sites/a.com" 0o700).2.WriteFile
      "certs_data/sites/a.com/a.com.crt" (stringBytes "certificate") 0o600).2.WriteFile
      "certs_data/sites/a.com/a.com.key" (stringBytes "private key") 0o600).2
    (sampleCert "a.com") ⟨"write", "certs_data/sites/a.com/a.com.key", Errno.ENOSPC⟩
    ⟨by decide, by decide, by decide, by decide⟩ (by decide)
    (Prod.ext (by decide) rfl) (Prod.ext (by decide) rfl) (Prod.ext (by decide) rfl)
  ⟨congrArg Prod.fst h.1, by rw [h.1]; exact (h.2.2.1 rfl).2,
   congrArg Prod.fst g.1, by rw [g.1]; exact g.2.2.2 (by decide)⟩

/-! ## What a pass that obtained leaves in the store -/

theorem saveCertResource_reads (Workspace : Storage) (fs fs' : FS)
    (cert : CertificateResource)
    (h : saveCertResource Workspace fs cert = (none, fs')) :
    fs'.ReadFile (Storage.SiteCertFile Workspace cert.Domain) = Except.ok cert.Certificate ∧
    fs'.ReadFile (Storage.SiteKeyFile Workspace cert.Domain) = Except.ok cert.PrivateKey ∧
    fs'.ReadFile (Storage.SiteMetaFile Workspace cert.Domain) =
      Except.ok (stringBytes cert.MarshalIndent) := by
  obtain ⟨fs1, fs2, fs3, _, h2, h3, h4⟩ := saveCertResource_ok Workspace fs fs' cert h
  refine ⟨?_, ?_, ?_⟩
  · rw [ReadFile_WriteFile_other fs3 fs' _ _ _ _ h4 (SiteCertFile_ne_SiteMetaFile _ _),
      ReadFile_WriteFile_other fs2 fs3 _ _ _ _ h3 (SiteCertFile_ne_SiteKeyFile _ _)]
    exact ReadFile_WriteFile fs1 fs2 _ _ _ h2
  · rw [ReadFile_WriteFile_other fs3 fs' _ _ _ _ h4 (SiteKeyFile_ne_SiteMetaFile _ _)]
    exact ReadFile_WriteFile fs2 fs3 _ _ _ h3
  · exact ReadFile_WriteFile fs3 fs' _ _ _ h4

/-- C6: when the CA client answers with a resource and no failures, the pass
saves that resource at once.  If the save succeeds, the pass ends at the head of
the loop with the bundles after this one, in a store where the certificate file
reads back as the certificate, the key file as the key and the metadata file as
the JSON document of the resource; the rate limiter is resumed (its interval is
0); and however long the run goes on, its trace continues the trace before the
pass with the check, the CA call, the save and the resume, in this order, so that
every later CA call comes after the save.  If the save fails the run returns an
error and no later bundle is processed. -/
theorem ObtainCerts_saves (env : Env) (primary : String) (others : List String)
    (rest : List (List String)) (st : State) (cert : CertificateResource)
    (hfound : existingCertAndKey env.Workspace st.fs primary = false)
    (hans : env.ObtainCertificate st.obtained (primary :: others) = (cert, [])) :
    (∀ fs, saveCertResource env.Workspace st.fs cert = (none, fs) →
      step env (Ctl.Obtain primary others rest, st) =
        (Ctl.forLoop rest,
          { st with
            fs := fs
            user := { st.user with rateLimiter := st.user.rateLimiter.Resume }
            trace := st.trace ++
              [Event.existingCertAndKey primary false,
               Event.ObtainCertificate (primary :: others),
               Event.saveCertResource cert,
               Event.Resume]
            obtained := st.obtained + 1 }) ∧
      (step env (Ctl.Obtain primary others rest, st)).2.user.rateLimiter.interval = 0 ∧
      (step env (Ctl.Obtain primary others rest, st)).2.fs.ReadFile
          (Storage.SiteCertFile env.Workspace cert.Domain) = Except.ok cert.Certificate ∧
      (step env (Ctl.Obtain primary others rest, st)).2.fs.ReadFile
          (Storage.SiteKeyFile env.Workspace cert.Domain) = Except.ok cert.PrivateKey ∧
      (step env (Ctl.Obtain primary others rest, st)).2.fs.ReadFile
          (Storage.SiteMetaFile env.Workspace cert.Domain) =
        Except.ok (stringBytes cert.MarshalIndent) ∧
      ∀ fuel : Nat, ∃ later,
        (run env (fuel + 1) (Ctl.Obtain primary others rest, st)).2.trace =
          st.trace ++
            [Event.existingCertAndKey primary false,
             Event.ObtainCertificate (primary :: others),
             Event.saveCertResource cert,
             Event.Resume] ++ later) ∧
    (∀ err fs (fuel : Nat), saveCertResource env.Workspace st.fs cert = (some err, fs) →
      run env (fuel + 1) (Ctl.Obtain primary others rest, st) =
        (Ctl.ret (some (Error.errorf
            ("error saving assets for " ++ formatStrings (primary :: others) ++ ": " ++
              err.Error))),
          { st with
            fs := fs
            trace := st.trace ++
              [Event.existingCertAndKey primary false,
               Event.ObtainCertificate (primary :: others),
               Event.saveCertResource cert]
            obtained := st.obtained + 1 })) := by
  refine ⟨?_, ?_⟩
  · intro fs hsave
    have h := step_saved env primary others rest st cert fs hfound hans hsave
    obtain ⟨r1, r2, r3⟩ := saveCertResource_reads env.Workspace st.fs fs cert hsave
    refine ⟨h, by rw [h]; rfl, by rw [h]; exact r1, by rw [h]; exact r2, by rw [h]; exact r3, ?_⟩
    intro fuel
    rw [run_succ, h]
    obtain ⟨later, hl, _⟩ := run_trace_guarded env fuel (Ctl.forLoop rest)
      { st with
        fs := fs
        user := { st.user with rateLimiter := st.user.rateLimiter.Resume }
        trace := st.trace ++
          [Event.existingCertAndKey primary false,
           Event.ObtainCertificate (primary :: others),
           Event.saveCertResource cert,
           Event.Resume]
        obtained := st.obtained + 1 }
    exact ⟨later, hl⟩
  · intro err fs fuel hsave
    rw [run_succ, step_save_failed env primary others rest st cert fs err hfound hans hsave,
      run_ret]

set_option maxRecDepth 100000 in
/-- Witness of C6: after two rate limits the interval is 10s; `b.com` is then
obtained and saved on an empty workspace.  The three files read back, the
interval afterwards is 0, and the CA call for the next bundle, `c.com`, comes
after the save in the trace. -/
theorem ObtainCerts_saves_witness :
    (throttledState FS.empty).user.rateLimiter.interval = 10 * Second ∧
    (step (sampleEnv (sampleCert "b.com", []))
        (Ctl.Obtain "b.com" ["www.b.com"] [["c.com"]], throttledState FS.empty)).1 =
      Ctl.forLoop [["c.com"]] ∧
    (step (sampleEnv (sampleCert "b.com", []))
        (Ctl.Obtain "b.com" ["www.b.com"] [["c.com"]],
          throttledState FS.empty)).2.user.rateLimiter.interval = 0 ∧
    (step (sampleEnv (sampleCert "b.com", []))
        (Ctl.Obtain "b.com" ["www.b.com"] [["c.com"]],
          throttledState FS.empty)).2.fs.ReadFile "certs_data/sites/b.com/b.com.key" =
      Except.ok (stringBytes "private key") ∧
    (run (sampleEnv (sampleCert "b.com", [])) 3
        (Ctl.Obtain "b.com" ["www.b.com"] [["c.com"]], throttledState FS.empty)).2.trace.take 7 =
      [Event.existingCertAndKey "b.com" false,
       Event.ObtainCertificate ["b.com", "www.b.com"],
       Event.saveCertResource (sampleCert "b.com"),
       Event.Resume,
       Event.existingCertAndKey "c.com" false,
       Event.ObtainCertificate ["c.com"],
       Event.saveCertResource (sampleCert "b.com")] :=
  have h := (ObtainCerts_saves (sampleEnv (sampleCert "b.com", [])) "b.com" ["www.b.com"]
    [["c.com"]] (throttledState FS.empty) (sampleCert "b.com") (by decide) rfl).1
    (saveCertResource "./certs_data" FS.empty (sampleCert "b.com")).2
    (Prod.ext (by decide) rfl)
  ⟨by decide, congrArg Prod.fst h.1, h.2.1, h.2.2.2.1, by decide⟩

end Certs
